import Mathlib

/-!
# Cross-Language Code Converter — verification of the spec's claims

A shallow embedding, in Lean 4, of the Python sources of the
Cross-Language-Code-Converter repository:

* `ast_module/universal_ast.py`  — the universal AST (`Node` below);
* `parsers/python_parser.py`     — `parsePython` below;
* `parsers/cpp_parser.py`        — `parseCpp` below;
* `parsers/java_parser.py`       — `parseJava` below;
* `generators/base_generator.py` — `baseVisit`, `javaVisit`, `pythonVisit` below;
* `main.py` (`convert_code`)     — `convertCode` below.

Strings are modelled as `List Char` (`Str`). The regular expressions of the
parsers are embedded as hand-written matcher functions, each documented with
the regex it implements and faithful to Python `re` semantics (anchored
`re.match`, ordered alternation, greedy/lazy quantifiers) on the inputs the
parsers feed them (single lines, which never contain a newline character).
Python's character classes `\s` and `\w` are modelled by their ASCII parts,
which is exact on ASCII input. Recursive procedures that Python runs by
unbounded recursion are given an explicit fuel argument, always instantiated
large enough (the recursions of the source shrink their argument, so a fuel
of the input's length plus a constant suffices); using fuel keeps every
definition kernel-computable.

Raising an exception in Python is modelled by `Except`/`Option` results.
-/

namespace CLCC

/-! ## Python string primitives on `List Char` -/

/-- Strings as lists of characters. -/
abbrev Str := List Char

/-- Coerce a Lean string literal to `Str`. -/
def chars (s : String) : Str := s.data

/-- The ASCII whitespace characters stripped by Python's `str.strip()` and
matched by the regex class `\s`. -/
def isPySpace (c : Char) : Bool :=
  c == ' ' || c == '\t' || c == '\n' || c == '\r' || c == '\x0b' || c == '\x0c'

/-- The ASCII characters of the regex class `\w`. -/
def isWordChar (c : Char) : Bool := c.isAlpha || c.isDigit || c == '_'

/-- First character of an identifier: the regex class `[a-zA-Z_]`. -/
def isAlphaUnd (c : Char) : Bool := c.isAlpha || c == '_'

/-- Python `str.lstrip()`. -/
def lstrip (s : Str) : Str := s.dropWhile isPySpace

/-- Python `str.rstrip()`. -/
def rstrip (s : Str) : Str := (s.reverse.dropWhile isPySpace).reverse

/-- Python `str.strip()`. -/
def pystrip (s : Str) : Str := rstrip (lstrip s)

/-- Python `len(line) - len(line.lstrip())`: the leading-whitespace count. -/
def indentOf (s : Str) : Nat := s.length - (lstrip s).length

/-- Python `s.split('\n')`.  Always returns a nonempty list;
`"".split('\n') == [""]`. -/
def splitLines (s : Str) : List Str :=
  match s with
  | [] => [[]]
  | c :: cs =>
    let r := splitLines cs
    if c = '\n' then [] :: r
    else match r with
      | [] => [[c]]
      | l :: ls => (c :: l) :: ls

/-- Python `sep.join(xs)`. -/
def joinSep (sep : Str) : List Str → Str
  | [] => []
  | [x] => x
  | x :: xs => x ++ sep ++ joinSep sep xs

/-- Python `pat in s` (substring membership), for `pat` a string. -/
def containsSub (pat s : Str) : Bool := decide (pat <:+: s)

/-- Python `s.startswith(pat)`. -/
def startsWith (pat s : Str) : Bool := decide (pat <+: s)

/-- Python `s.endswith(pat)`. -/
def endsWith (pat s : Str) : Bool := decide (pat <:+ s)

/-- Python `s.count(c)` for a single character. -/
def countCh (c : Char) (s : Str) : Nat := s.countP (· == c)

/-- Split on the first occurrence of `pat` (Python `s.split(pat, 1)` when it
returns two parts): `splitFirst pat s = some (a, b)` iff `s = a ++ pat ++ b`
with `a` the shortest such prefix.  `none` when `pat` does not occur. -/
def splitFirst (pat : Str) : Str → Option (Str × Str)
  | [] => if pat = [] then some ([], []) else none
  | c :: cs =>
    if pat <+: (c :: cs) then some ([], (c :: cs).drop pat.length)
    else (splitFirst pat cs).map (fun p => (c :: p.1, p.2))

/-- Python `s.split(pat)` for nonempty `pat` (full split).  The fuel is one
more than the length of `s`, which is enough since every found occurrence
consumes at least one character. -/
def splitAllGo (pat : Str) : Nat → Str → List Str
  | 0, s => [s]
  | f + 1, s =>
    match splitFirst pat s with
    | none => [s]
    | some (a, b) => a :: splitAllGo pat f b

/-- Python `s.split(pat)` for nonempty `pat`. -/
def splitAllOn (pat s : Str) : List Str := splitAllGo pat (s.length + 1) s

/-- Python `s.replace(ab, rep)` for the two-character pattern `a,b`
(left-to-right, non-overlapping scan — exactly `str.replace`). -/
def replacePair (a b : Char) (rep : Str) : Str → Str
  | [] => []
  | [c] => [c]
  | c :: d :: rest =>
    if c = a ∧ d = b then rep ++ replacePair a b rep rest
    else c :: replacePair a b rep (d :: rest)

/-- Python `s.split()` (split on whitespace runs, no empty parts). -/
def splitWs : Str → List Str
  | [] => []
  | c :: cs =>
    let r := splitWs cs
    if isPySpace c then r
    else match cs.head? with
      | none => [[c]]
      | some d =>
        if isPySpace d then [c] :: r
        else match r with
          | [] => [[c]]
          | w :: ws => (c :: w) :: ws

/-! ## The universal AST (`ast_module/universal_ast.py`)

One constructor per `Node` subclass.  `ForLoopNode.iterable` receives a
plain string from the C++/Java parsers (a `range(...)` descriptor) and an
expression node from the Python parser, so it is embedded as a sum. -/

/-- The universal AST node (`ast_module/universal_ast.py`). -/
inductive Node where
  | program (statements : List Node)
  | function (name : Str) (args : List Str) (body : List Node)
  | print (expression : Node)
  | mathOp (operator : Str) (left right : Node)
  | variable (name : Str)
  | stringLit (value : Str)
  | numberLit (value : Str)
  | power (base exponent : Node)
  | forLoop (iterator : Str) (iterable : Str ⊕ Node) (body : List Node)
  | whileLoop (condition : Node) (body : List Node)
  | comparison (operator : Str) (left right : Node)
  | assignment (target value : Node)
  | functionCall (name : Str) (args : List Node)

/-! ## Regex matchers shared by the parsers

Each matcher embeds one of the module-level regex constants, applied with
`re.match` (anchored at the start, prefix match). -/

/-- Greedy `(\w+)`: the longest word-character prefix and the rest. -/
def takeWord (s : Str) : Str × Str := (s.takeWhile isWordChar, s.dropWhile isWordChar)

/-- Greedy `\s*`: drop leading whitespace. -/
def skipWs (s : Str) : Str := s.dropWhile isPySpace

/-- Expect a literal character: `expectChar c s = some rest` iff
`s = c :: rest`. -/
def expectChar (c : Char) (s : Str) : Option Str :=
  match s with
  | d :: rest => if d = c then some rest else none
  | [] => none

/-- Greedy `\s+`: at least one whitespace character, then skip the run. -/
def skipWsPlus (s : Str) : Option Str :=
  match s with
  | c :: rest => if isPySpace c then some (skipWs rest) else none
  | [] => none

/-- `FUNCTION_CALL_REGEX = (\w+)\s*\((.*?)\)` under `re.match`.
The lazy `(.*?)` followed by `\)` captures everything up to the *first*
closing parenthesis, which must exist.  Shortening the greedy `\w+` cannot
recover a failed match (the following character would still be a word
character, never `(`), so maximal munch is faithful. -/
def pyFuncCallMatch (line : Str) : Option (Str × Str) :=
  let (w, r) := takeWord line
  if w = [] then none
  else match expectChar '(' (skipWs r) with
    | some rest =>
      match splitFirst [')'] rest with
      | some (grp, _) => some (w, grp)
      | none => none
    | none => none

/-- `ASSIGNMENT_REGEX = (\w+)\s*=\s*(.+)` under `re.match` (the Python
parser's variant, without the optional `int` prefix).  `(.+)` needs at
least one character; when everything after `=` is whitespace the greedy
`\s*` backtracks one character, so the value group is the final character
alone. -/
def plainAssignMatch (line : Str) : Option (Str × Str) :=
  let (w, r) := takeWord line
  if w = [] then none
  else match expectChar '=' (skipWs r) with
    | some rest =>
      match skipWs rest with
      | [] => match rest.reverse with
        | [] => none
        | c :: _ => some (w, [c])
      | v => some (w, v)
    | none => none

/-- `POW_REGEX = pow\s*\(([^,]+)\s*,\s*([^)]+)\)` under `re.fullmatch`.
Group 1 is everything before the first comma (at least one character).
After the comma the remainder must be `X ++ ")"` with no `)` inside `X`;
the greedy `\s*` takes the whitespace prefix of `X` but backtracks one
character when `[^)]+` would otherwise be empty (so for an all-whitespace
nonempty `X` group 2 is the last whitespace character alone). -/
def powMatchWith (callee : Str) (s : Str) : Option (Str × Str) :=
  if callee <+: s then
    match expectChar '(' (skipWs (s.drop callee.length)) with
    | some rest =>
      match splitFirst [','] rest with
      | some (g1, afterComma) =>
        if g1 = [] then none
        else
          match expectChar ')' afterComma.reverse with
          | some revX =>
            let X := revX.reverse
            if ')' ∈ X then none
            else match skipWs X with
              | [] => match revX with
                | [] => none
                | c :: _ => some (g1, [c])
              | g2 => some (g1, g2)
          | none => none
      | none => none
    | none => none
  else none

/-- `FUNC_DEF_REGEX = def\s+(\w+)\s*\(([^)]*)\)\s*:` under `re.match`. -/
def pyFuncDefMatch (line : Str) : Option (Str × Str) :=
  if chars "def" <+: line then
    match skipWsPlus (line.drop 3) with
    | some r1 =>
      let (w, r2) := takeWord r1
      if w = [] then none
      else match expectChar '(' (skipWs r2) with
        | some r3 =>
          let grp := r3.takeWhile (· ≠ ')')
          match expectChar ')' (r3.dropWhile (· ≠ ')')) with
          | some r4 =>
            match expectChar ':' (skipWs r4) with
            | some _ => some (w, grp)
            | none => none
          | none => none
        | none => none
    | none => none
  else none

/-- The lazy tail `(.+?)\s*:` of the Python loop regexes: the shortest
nonempty group followed by optional whitespace and a colon.  Returns the
group. -/
def lazyToColon : Str → Option Str
  | [] => none
  | c :: cs =>
    if (skipWs cs).head? = some ':' then some [c]
    else (lazyToColon cs).map (c :: ·)

/-- `FOR_LOOP_REGEX = for\s+(\w+)\s+in\s+(.+?)\s*:` under `re.match`. -/
def pyForMatch (line : Str) : Option (Str × Str) :=
  if chars "for" <+: line then
    match skipWsPlus (line.drop 3) with
    | some r1 =>
      let (w, r2) := takeWord r1
      if w = [] then none
      else match skipWsPlus r2 with
        | some r3 =>
          if chars "in" <+: r3 then
            match skipWsPlus (r3.drop 2) with
            | some r4 => (lazyToColon r4).map (fun grp => (w, grp))
            | none => none
          else none
        | none => none
    | none => none
  else none

/-- `WHILE_LOOP_REGEX = while\s+(.+?)\s*:` under `re.match` (Python parser). -/
def pyWhileMatch (line : Str) : Option Str :=
  if chars "while" <+: line then
    match skipWsPlus (line.drop 5) with
    | some r1 => lazyToColon r1
    | none => none
  else none

/-- `PRINT_REGEX = print\s*\((.*)\)` under `re.match`.  The greedy `(.*)`
followed by `\)` captures everything up to the *last* closing parenthesis
of the line. -/
def pyPrintMatch (line : Str) : Option Str :=
  if chars "print" <+: line then
    match expectChar '(' (skipWs (line.drop 5)) with
    | some rest =>
      match splitFirst [')'] rest.reverse with
      | some (_, revGrp) => some revGrp.reverse
      | none => none
    | none => none
  else none

/-! ## Expression sub-parsing (`_parse_expression`)

The three parsers share this code shape; they differ in the spelling of the
power call, in quote handling of string literals, in the C++ unescaping,
and in that only the Python parser guards the `' + '` split with a
quote-parity check. -/

/-- The comparison operators, in the priority order of the shared
`for op in ['==', '!=', '<=', '>=', '<', '>']` loop. -/
def cmpOps : List Str :=
  [chars "==", chars "!=", chars "<=", chars ">=", chars "<", chars ">"]

/-- First comparison operator (in priority order) occurring as
`" op "`; splits on its first occurrence. -/
def findCmp : List Str → Str → Option (Str × Str × Str)
  | [], _ => none
  | op :: ops, s =>
    match splitFirst (' ' :: (op ++ [' '])) s with
    | some (a, b) => some (op, a, b)
    | none => findCmp ops s

/-- `re.fullmatch(r"-?\d+(\.\d+)?", s)` as a Boolean. -/
def numFullmatch (s : Str) : Bool :=
  let t := if s.head? = some '-' then s.tail else s
  match splitFirst ['.'] t with
  | none => decide (t ≠ []) && t.all Char.isDigit
  | some (a, b) =>
    decide (a ≠ []) && a.all Char.isDigit && decide (b ≠ []) && b.all Char.isDigit

/-- `re.fullmatch(r"[a-zA-Z_]\w*", s)` as a Boolean. -/
def identFullmatch : Str → Bool
  | [] => false
  | c :: r => isAlphaUnd c && r.all isWordChar

/-- The four sequential `str.replace` calls of `_parse_string_literal`, in
the source's dict order `\"` → `"`, `\n` → newline, `\t` → tab, `\\` →
backslash. -/
def cppUnescape (content : Str) : Str :=
  replacePair '\\' '\\' (chars "\\")
    (replacePair '\\' 't' (chars "\t")
      (replacePair '\\' 'n' (chars "\n")
        (replacePair '\\' '"' (chars "\"") content)))

/-- `_parse_string_literal` of the C++ parser: strip the surrounding double
quotes and apply the four `str.replace` calls. -/
def parseStringLiteralCpp (s : Str) : Str :=
  if startsWith (chars "\"") s ∧ endsWith (chars "\"") s then
    cppUnescape ((s.drop 1).dropLast)
  else s

/-- Which language's `_parse_expression` is being run. -/
inductive Lang where
  | python
  | java
  | cpp
  deriving DecidableEq, Repr

/-- The spelling of the power call checked by `POW_REGEX` (`pow` for Python
and C++, `Math.pow` for Java). -/
def powCallee : Lang → Str
  | .python => chars "pow"
  | .java => chars "Math.pow"
  | .cpp => chars "pow"

/-- The literal used in `expr_str.startswith(...)` of the `' + '` guard
(`"pow("` for Python and C++, `"Math.pow("` for Java). -/
def powHead : Lang → Str
  | .python => chars "pow("
  | .java => chars "Math.pow("
  | .cpp => chars "pow("

/-- Steps 3–5 and the fallback of `_parse_expression`: string literal,
number literal, variable, with the final fallback also building a
`VariableNode` on the (stripped) fragment. -/
def exprAtom (lang : Lang) (s : Str) : Node :=
  let quoted :=
    match lang with
    | .cpp => startsWith (chars "\"") s && endsWith (chars "\"") s
    | _ =>
      (startsWith (chars "\"") s && endsWith (chars "\"") s) ||
      (startsWith (chars "'") s && endsWith (chars "'") s)
  if quoted then
    match lang with
    | .cpp => .stringLit (parseStringLiteralCpp s)
    | _ => .stringLit ((s.drop 1).dropLast)
  else if numFullmatch s then .numberLit s
  else if identFullmatch s then .variable s
  else .variable s

/-- `_parse_expression` (all three parsers; see `Lang` for the
differences).  Fuel: every recursive call is on a strict substring, so
`s.length + 1` suffices; on exhausted fuel we return the fallback
`VariableNode`, which is never reached for sufficient fuel. -/
def parseExpr (lang : Lang) : Nat → Str → Node
  | 0, s => .variable (pystrip s)
  | f + 1, s₀ =>
    let s := pystrip s₀
    match findCmp cmpOps s with
    | some (op, a, b) =>
      .comparison op (parseExpr lang f (pystrip a)) (parseExpr lang f (pystrip b))
    | none =>
      match powMatchWith (powCallee lang) s with
      | some (b, e) =>
        .power (parseExpr lang f (pystrip b)) (parseExpr lang f (pystrip e))
      | none =>
        let plusNode : Option Node :=
          if containsSub (chars " + ") s ∧ ¬ startsWith (powHead lang) s then
            match splitFirst (chars " + ") s with
            | some (a, b) =>
              if lang = .python ∧
                  ((countCh '"' a) % 2 ≠ 0 ∨ (countCh '\'' a) % 2 ≠ 0) then
                none
              else
                some (.mathOp (chars "+")
                  (parseExpr lang f (pystrip a)) (parseExpr lang f (pystrip b)))
            | none => none
          else none
        match plusNode with
        | some n => n
        | none => exprAtom lang s

/-! ## Block extraction (`_get_indented_block`, identical in all parsers) -/

/-- `_get_indented_block(lines, start_idx, base_indent)` with the scanned
suffix of `lines` passed directly; the Boolean records `i == start_idx`
(the first scanned line is collected even when its indent is not larger
than the base).  Blank lines are consumed but appear in neither the block
nor the remainder.  Returns (block_lines, remaining lines). -/
def getBlockGo (base : Nat) : Bool → List Str → List Str × List Str
  | _, [] => ([], [])
  | atStart, l :: ls =>
    if pystrip l = [] then getBlockGo base false ls
    else if indentOf l ≤ base ∧ ¬ atStart then ([], l :: ls)
    else
      let (b, r) := getBlockGo base false ls
      (l :: b, r)

/-- Block extraction starting at the line after the opener. -/
def getBlock (base : Nat) (ls : List Str) : List Str × List Str :=
  getBlockGo base true ls

/-! ## The Python parser (`parsers/python_parser.py`, `parse_python`) -/

/-- The argument list built in the function-call branch:
`[arg.strip() for arg in args_str.split(',')] if args_str else []`. -/
def splitCallArgs (argsStr : Str) : List Str :=
  if argsStr = [] then [] else (splitAllOn (chars ",") argsStr).map pystrip

/-- The argument list built in the function-definition branch:
`[arg.strip() for arg in args_str.split(',') if arg.strip()]`. -/
def splitDefArgs (argsStr : Str) : List Str :=
  ((splitAllOn (chars ",") argsStr).map pystrip).filter (· ≠ [])

/-- The statement loop of `parse_python`.  One unit of fuel is spent per
processed line and per nested block parse; since a nested block is a
strict sub-list of the remaining lines, a fuel of `lines.length + 1`
suffices (see `parsePyStr`). -/
def parsePyGo : Nat → List Str → List Node
  | 0, _ => []
  | _ + 1, [] => []
  | f + 1, rawLine :: rest =>
    let line := pystrip rawLine
    if line = [] ∨ line.head? = some '#' then parsePyGo f rest
    else match pyFuncCallMatch line with
    | some (name, argsStr) =>
      .function name (splitCallArgs argsStr) [] :: parsePyGo f rest
    | none =>
    match plainAssignMatch line with
    | some (t, v) =>
      .assignment (.variable t) (parseExpr .python (v.length + 1) v) :: parsePyGo f rest
    | none =>
    match pyFuncDefMatch line with
    | some (name, argsStr) =>
      let (bodyLines, rest') := getBlock (indentOf rawLine) rest
      .function name (splitDefArgs argsStr)
          (parsePyGo f (splitLines (pystrip (joinSep (chars "\n") bodyLines)))) ::
        parsePyGo f rest'
    | none =>
    match pyForMatch line with
    | some (it, iterStr) =>
      let iterable := parseExpr .python (iterStr.length + 1) iterStr
      let (bodyLines, rest') := getBlock (indentOf rawLine) rest
      .forLoop it (.inr iterable)
          (parsePyGo f (splitLines (pystrip (joinSep (chars "\n") bodyLines)))) ::
        parsePyGo f rest'
    | none =>
    match pyWhileMatch line with
    | some condStr =>
      let cond := parseExpr .python (condStr.length + 1) condStr
      let (bodyLines, rest') := getBlock (indentOf rawLine) rest
      .whileLoop cond
          (parsePyGo f (splitLines (pystrip (joinSep (chars "\n") bodyLines)))) ::
        parsePyGo f rest'
    | none =>
    match pyPrintMatch line with
    | some exprStr =>
      let e := pystrip exprStr
      .print (parseExpr .python (e.length + 1) e) :: parsePyGo f rest
    | none => parsePyGo f rest

/-- `parse_python(code)` on `Str`. -/
def parsePyStr (code : Str) : Node :=
  let lines := splitLines (pystrip code)
  .program (parsePyGo (lines.length + 1) lines)

/-- `parse_python(code)`. -/
def parsePython (code : String) : Node := parsePyStr code.data

/-! ## The C++ parser (`parsers/cpp_parser.py`) -/

/-- The sub-pattern `\s*([^X]+)` (greedy whitespace, then a nonempty group
of characters satisfying `p`, ending at the first failing character).  When
everything up to the failing character is whitespace, the greedy `\s*`
backtracks one character so the group is the final whitespace character
alone.  Returns (group, rest starting at the failing character). -/
def wsGroupPlus (p : Char → Bool) (t : Str) : Option (Str × Str) :=
  let u := skipWs t
  match u.takeWhile p with
  | [] =>
    match (t.takeWhile isPySpace).reverse with
    | [] => none
    | c :: _ => if p c then some ([c], u) else none
  | g => some (g, u.drop g.length)

/-- `ASSIGNMENT_REGEX = (?:int\s+)?(\w+)\s*=\s*(.+)` under `re.match`
(C++ and Java parsers).  The optional `int` prefix is tried first; if the
rest of the pattern then fails, the regex backtracks to the prefix-less
alternative. -/
def cppAssignMatch (line : Str) : Option (Str × Str) :=
  let withInt :=
    if chars "int" <+: line then
      match skipWsPlus (line.drop 3) with
      | some r1 => plainAssignMatch r1
      | none => none
    else none
  match withInt with
  | some r => some r
  | none => plainAssignMatch line

/-- Continuation `\s+(\w+)\s*\(([^)]*)\)\s*\{` of the function-definition
regexes, entered after a return-type keyword. -/
def fdCont (r : Str) : Option (Str × Str) :=
  match skipWsPlus r with
  | some r1 =>
    let (w, r2) := takeWord r1
    if w = [] then none
    else match expectChar '(' (skipWs r2) with
      | some r3 =>
        let grp := r3.takeWhile (· ≠ ')')
        match expectChar ')' (r3.dropWhile (· ≠ ')')) with
        | some r4 =>
          match expectChar '\x7b' (skipWs r4) with
          | some _ => some (w, grp)
          | none => none
        | none => none
      | none => none
  | none => none

/-- `FUNC_DEF_REGEX = (?:void|int|string)\s+(\w+)\s*\(([^)]*)\)\s*\{` under
`re.match` (C++ parser); ordered alternation over the type keywords. -/
def cppFuncDefMatch (line : Str) : Option (Str × Str) :=
  let tryKw (kw : Str) : Option (Str × Str) :=
    if kw <+: line then fdCont (line.drop kw.length) else none
  match tryKw (chars "void") with
  | some r => some r
  | none =>
    match tryKw (chars "int") with
    | some r => some r
    | none => tryKw (chars "string")

/-- The step-operator alternation `(\+\+|--|\+=|-=)` (the four literals are
pairwise non-prefixing, so ordered alternation is plain prefix testing). -/
def stepOpOf (r : Str) : Option (Str × Str) :=
  if chars "++" <+: r then some (chars "++", r.drop 2)
  else if chars "--" <+: r then some (chars "--", r.drop 2)
  else if chars "+=" <+: r then some (chars "+=", r.drop 2)
  else if chars "-=" <+: r then some (chars "-=", r.drop 2)
  else none

/-- The part of `FOR_LOOP_REGEX` after the comparison operator:
`\s*([^;]+);\s*\1\s*(\+\+|--|\+=|-=)\s*([^)]*)\)\s*\{`.  Returns
(end, step-op, step-value). -/
def forTail (w : Str) (r9 : Str) : Option (Str × Str × Str) :=
  match wsGroupPlus (· ≠ ';') r9 with
  | some (endGrp, r10) =>
    match expectChar ';' r10 with
    | some r11 =>
      if w <+: skipWs r11 then
        match stepOpOf (skipWs ((skipWs r11).drop w.length)) with
        | some (sop, r14) =>
          match expectChar ')' ((skipWs r14).dropWhile (· ≠ ')')) with
          | some r15 =>
            match expectChar '\x7b' (skipWs r15) with
            | some _ => some (endGrp, sop, (skipWs r14).takeWhile (· ≠ ')'))
            | none => none
          | none => none
        | none => none
      else none
    | none => none
  | none => none

/-- The part of `FOR_LOOP_REGEX` from the iterator `(\w+)` onward:
`(\w+)\s*=\s*([^;]+);\s*\1\s*(<|<=|>|>=)\s*…`.

The comparison alternation is *ordered*: Python's `re` commits to the
one-character alternative `<` (resp. `>`) whenever it appears, because the
rest of the pattern then succeeds or fails identically for the one- and
two-character alternatives (both continue with `\s*([^;]+);` up to the same
semicolon).  A header written `i <= 5` therefore captures operator `<` and
end text `= 5`. -/
def forCont (r : Str) : Option (Str × Str × Str × Str × Str × Str) :=
  let (w, r3) := takeWord r
  if w = [] then none
  else match expectChar '=' (skipWs r3) with
    | some r4 =>
      match wsGroupPlus (· ≠ ';') r4 with
      | some (startGrp, r5) =>
        match expectChar ';' r5 with
        | some r6 =>
          if w <+: skipWs r6 then
            match expectChar '<' (skipWs ((skipWs r6).drop w.length)) with
            | some r9 =>
              (forTail w r9).map (fun g => (w, startGrp, chars "<", g.1, g.2.1, g.2.2))
            | none =>
              match expectChar '>' (skipWs ((skipWs r6).drop w.length)) with
              | some r9 =>
                (forTail w r9).map (fun g => (w, startGrp, chars ">", g.1, g.2.1, g.2.2))
              | none => none
          else none
        | none => none
      | none => none
    | none => none

/-- `FOR_LOOP_REGEX =
for\s*\(\s*(?:int\s+)?(\w+)\s*=\s*([^;]+);\s*\1\s*(<|<=|>|>=)\s*([^;]+);\s*\1\s*(\+\+|--|\+=|-=)\s*([^)]*)\)\s*\{`
under `re.match` (identical in the C++ and Java parsers).  Returns the six
groups (iterator, start, comparison, end, step-op, step-value). -/
def forHeaderMatch (line : Str) : Option (Str × Str × Str × Str × Str × Str) :=
  if chars "for" <+: line then
    match expectChar '(' (skipWs (line.drop 3)) with
    | some r1 =>
      match
        (if chars "int" <+: skipWs r1 then
          match skipWsPlus ((skipWs r1).drop 3) with
          | some r => forCont r
          | none => none
        else none) with
      | some g => some g
      | none => forCont (skipWs r1)
    | none => none
  else none

/-- The lazy scan of `WHILE_LOOP_REGEX = while\s*\((.*?)\)\s*\{`: the group
ends at the first `)` that is followed by optional whitespace and `{`. -/
def lazyToParenBrace : Str → Option Str
  | [] => none
  | c :: cs =>
    if c = ')' ∧ (skipWs cs).head? = some '\x7b' then some []
    else (lazyToParenBrace cs).map (c :: ·)

/-- `WHILE_LOOP_REGEX = while\s*\((.*?)\)\s*\{` under `re.match`
(identical in the C++ and Java parsers). -/
def cppWhileMatch (line : Str) : Option Str :=
  if chars "while" <+: line then
    match expectChar '(' (skipWs (line.drop 5)) with
    | some rest => lazyToParenBrace rest
    | none => none
  else none

/-- `PRINT_REGEX = (?:std::)?cout\s*<<\s*([^;]+)(?:\s*<<\s*endl)?` under
`re.match` (C++ parser).  The greedy `([^;]+)` consumes everything up to
the first semicolon (or the end of the line), including any further
`<< …` chain; the trailing optional group then matches empty. -/
def cppPrintMatch (line : Str) : Option Str :=
  let r0 := if chars "std::" <+: line then line.drop 5 else line
  if chars "cout" <+: r0 then
    let r1 := skipWs (r0.drop 4)
    if chars "<<" <+: r1 then
      (wsGroupPlus (· ≠ ';') (r1.drop 2)).map (·.1)
    else none
  else none

/-- `_convert_cpp_for_to_range(start, end, operator, step_op, step_val)`.
For `<=` the end text becomes `end + " + 1"`; for `>` start and end are
swapped and `step_val` is reassigned (an assignment that is dead for `++`
and `--`, since the step computation below ignores `step_val` for them);
`<` and `>=` pass through.  The final `else` of the source has no branch
for a fifth step operator (Python would raise `UnboundLocalError`); the
regex only ever supplies the four listed operators, so that case is
unreachable and modelled by the empty string. -/
def convertCppForToRange (start endT operator stepOp stepVal : Str) : Str :=
  let s := pystrip start
  let e := pystrip endT
  let sev :=
    if operator = chars "<=" then (s, e ++ chars " + 1", stepVal)
    else if operator = chars ">" then
      let sv :=
        if stepOp = chars "++" then chars "-1"
        else if stepOp = chars "--" then chars "1"
        else stepVal
      (e, s, sv)
    else (s, e, stepVal)
  let step :=
    if stepOp = chars "++" then chars "1"
    else if stepOp = chars "--" then chars "-1"
    else if stepOp = chars "+=" then sev.2.2
    else if stepOp = chars "-=" then '-' :: sev.2.2
    else []
  chars "range(" ++ sev.1 ++ chars ", " ++ sev.2.1 ++ chars ", " ++ step ++ chars ")"

/-- `_convert_java_for_to_range` (`parsers/java_parser.py`): textually
identical to `_convert_cpp_for_to_range`. -/
def convertJavaForToRange (start endT operator stepOp stepVal : Str) : Str :=
  let s := pystrip start
  let e := pystrip endT
  let sev :=
    if operator = chars "<=" then (s, e ++ chars " + 1", stepVal)
    else if operator = chars ">" then
      let sv :=
        if stepOp = chars "++" then chars "-1"
        else if stepOp = chars "--" then chars "1"
        else stepVal
      (e, s, sv)
    else (s, e, stepVal)
  let step :=
    if stepOp = chars "++" then chars "1"
    else if stepOp = chars "--" then chars "-1"
    else if stepOp = chars "+=" then sev.2.2
    else if stepOp = chars "-=" then '-' :: sev.2.2
    else []
  chars "range(" ++ sev.1 ++ chars ", " ++ sev.2.1 ++ chars ", " ++ step ++ chars ")"

/-- Function-definition argument lists of the C++ and Java parsers:
`[arg.strip().split()[-1] for arg in args_str.split(',') if arg.strip()]`
(the last whitespace-separated word of each nonempty argument, e.g. the
parameter name after its type). -/
def typedDefArgs (argsStr : Str) : List Str :=
  ((splitAllOn (chars ",") argsStr).filter (fun a => pystrip a ≠ [])).map
    (fun a => ((splitWs (pystrip a)).reverse).headD [])

/-- The print-statement expression handling of `parse_cpp`: when the
captured text still contains `<<`, split on it, strip the parts and join
them with `" + "` before expression parsing. -/
def cppPrintExprText (grp : Str) : Str :=
  let e := pystrip grp
  if containsSub (chars "<<") e then
    joinSep (chars " + ") (((splitAllOn (chars "<<") e).map pystrip))
  else e

/-- The statement loop of `parse_cpp` (same fuel discipline as
`parsePyGo`). -/
def parseCppGo : Nat → List Str → List Node
  | 0, _ => []
  | _ + 1, [] => []
  | f + 1, rawLine :: rest =>
    let line := pystrip rawLine
    if line = [] ∨ chars "//" <+: line then parseCppGo f rest
    else if chars "#include" <+: line ∨ chars "using namespace" <+: line then
      parseCppGo f rest
    else match cppAssignMatch line with
    | some (t, v) =>
      .assignment (.variable t) (parseExpr .cpp (v.length + 1) v) :: parseCppGo f rest
    | none =>
    match cppFuncDefMatch line with
    | some (name, argsStr) =>
      let (bodyLines, rest') := getBlock (indentOf rawLine) rest
      .function name (typedDefArgs argsStr)
          (parseCppGo f (splitLines (pystrip (joinSep (chars "\n") bodyLines)))) ::
        parseCppGo f rest'
    | none =>
    match forHeaderMatch line with
    | some (it, st, op, en, sop, sv) =>
      let iterable := convertCppForToRange st en op sop sv
      let (bodyLines, rest') := getBlock (indentOf rawLine) rest
      .forLoop it (.inl iterable)
          (parseCppGo f (splitLines (pystrip (joinSep (chars "\n") bodyLines)))) ::
        parseCppGo f rest'
    | none =>
    match cppWhileMatch line with
    | some condStr =>
      let cond := parseExpr .cpp (condStr.length + 1) condStr
      let (bodyLines, rest') := getBlock (indentOf rawLine) rest
      .whileLoop cond
          (parseCppGo f (splitLines (pystrip (joinSep (chars "\n") bodyLines)))) ::
        parseCppGo f rest'
    | none =>
    match cppPrintMatch line with
    | some grp =>
      let e := cppPrintExprText grp
      .print (parseExpr .cpp (e.length + 1) e) :: parseCppGo f rest
    | none => parseCppGo f rest

/-- `parse_cpp(code)` on `Str`. -/
def parseCppStr (code : Str) : Node :=
  let lines := splitLines (pystrip code)
  .program (parseCppGo (lines.length + 1) lines)

/-- `parse_cpp(code)`. -/
def parseCpp (code : String) : Node := parseCppStr code.data

/-! ## The Java parser (`parsers/java_parser.py`, `parse_java`)

Shares `ASSIGNMENT_REGEX`, `FOR_LOOP_REGEX` and `WHILE_LOOP_REGEX` with the
C++ parser; differs in the function-definition and print regexes, in the
power spelling `Math.pow`, and in keeping string-literal interiors
verbatim (both quote styles, like the Python parser). -/

/-- `FUNC_DEF_REGEX =
(?:public\s+)?(?:static\s+)?(?:void|int|String)\s+(\w+)\s*\(([^)]*)\)\s*\{`
under `re.match` (Java parser).  Each optional keyword group is consumed
greedily with a fallback to the keyword-less alternative. -/
def javaFuncDefMatch (line : Str) : Option (Str × Str) :=
  let typePart (r : Str) : Option (Str × Str) :=
    let tryKw (kw : Str) : Option (Str × Str) :=
      if kw <+: r then fdCont (r.drop kw.length) else none
    match tryKw (chars "void") with
    | some g => some g
    | none =>
      match tryKw (chars "int") with
      | some g => some g
      | none => tryKw (chars "String")
  let optKw (kw : Str) (k : Str → Option (Str × Str)) (r : Str) : Option (Str × Str) :=
    let withKw :=
      if kw <+: r then
        match skipWsPlus (r.drop kw.length) with
        | some r1 => k r1
        | none => none
      else none
    match withKw with
    | some g => some g
    | none => k r
  optKw (chars "public") (optKw (chars "static") typePart) line

/-- `PRINT_REGEX = System\.out\.println\s*\((.*)\)` under `re.match`
(Java parser); the greedy `(.*)` captures up to the last `)`. -/
def javaPrintMatch (line : Str) : Option Str :=
  if chars "System.out.println" <+: line then
    match expectChar '(' (skipWs (line.drop 18)) with
    | some rest =>
      match splitFirst [')'] rest.reverse with
      | some (_, revGrp) => some revGrp.reverse
      | none => none
    | none => none
  else none

/-- The statement loop of `parse_java` (same fuel discipline as
`parsePyGo`). -/
def parseJavaGo : Nat → List Str → List Node
  | 0, _ => []
  | _ + 1, [] => []
  | f + 1, rawLine :: rest =>
    let line := pystrip rawLine
    if line = [] ∨ chars "//" <+: line then parseJavaGo f rest
    else match cppAssignMatch line with
    | some (t, v) =>
      .assignment (.variable t) (parseExpr .java (v.length + 1) v) :: parseJavaGo f rest
    | none =>
    match javaFuncDefMatch line with
    | some (name, argsStr) =>
      let (bodyLines, rest') := getBlock (indentOf rawLine) rest
      .function name (typedDefArgs argsStr)
          (parseJavaGo f (splitLines (pystrip (joinSep (chars "\n") bodyLines)))) ::
        parseJavaGo f rest'
    | none =>
    match forHeaderMatch line with
    | some (it, st, op, en, sop, sv) =>
      let iterable := convertJavaForToRange st en op sop sv
      let (bodyLines, rest') := getBlock (indentOf rawLine) rest
      .forLoop it (.inl iterable)
          (parseJavaGo f (splitLines (pystrip (joinSep (chars "\n") bodyLines)))) ::
        parseJavaGo f rest'
    | none =>
    match cppWhileMatch line with
    | some condStr =>
      let cond := parseExpr .java (condStr.length + 1) condStr
      let (bodyLines, rest') := getBlock (indentOf rawLine) rest
      .whileLoop cond
          (parseJavaGo f (splitLines (pystrip (joinSep (chars "\n") bodyLines)))) ::
        parseJavaGo f rest'
    | none =>
    match javaPrintMatch line with
    | some exprStr =>
      let e := pystrip exprStr
      .print (parseExpr .java (e.length + 1) e) :: parseJavaGo f rest
    | none => parseJavaGo f rest

/-- `parse_java(code)` on `Str`. -/
def parseJavaStr (code : Str) : Node :=
  let lines := splitLines (pystrip code)
  .program (parseJavaGo (lines.length + 1) lines)

/-- `parse_java(code)`. -/
def parseJava (code : String) : Node := parseJavaStr code.data

/-! ## Node repr (`Node.__repr__` / `str(node)`)

`generic_visit` returns `str(node)`, and two f-strings interpolate nodes
directly, so the generators need Python's `repr` of a node:
`f"{ClassName}({self.__dict__})"` with the dict printed in
attribute-assignment order, except `ForLoopNode`, which defines its own
`__repr__`.  Python string values are shown in single quotes (exact for
strings not containing a quote character, which is all this development
evaluates). -/

/-- The single-quote character. -/
def sq : Char := Char.ofNat 39

/-- Python `repr` of a string, naive single-quote form. -/
def reprStr (s : Str) : Str := sq :: s ++ [sq]

/-- Python `repr` of a list of strings. -/
def reprStrList (xs : List Str) : Str :=
  '[' :: joinSep (chars ", ") (xs.map reprStr) ++ [']']

/-- Python `str(node)` / `repr(node)`.  Fuel decreases on each recursive
step; the default `__repr__` prints `ClassName({'field': repr, …})`, and
`ForLoopNode.__repr__` prints
`ForLoopNode(iterator='…', iterable='…', body=[…])`. -/
def reprNode : Nat → Node → Str
  | 0, _ => []
  | f + 1, n =>
    let rList (xs : List Node) : Str :=
      '[' :: joinSep (chars ", ") (xs.map (reprNode f)) ++ [']']
    match n with
    | .program stmts =>
      chars "ProgramNode(\x7b'statements': " ++ rList stmts ++ chars "\x7d)"
    | .function name args body =>
      chars "FunctionNode(\x7b'name': " ++ reprStr name ++ chars ", 'args': " ++
        reprStrList args ++ chars ", 'body': " ++ rList body ++ chars "\x7d)"
    | .print e =>
      chars "PrintNode(\x7b'expression': " ++ reprNode f e ++ chars "\x7d)"
    | .mathOp op l r =>
      chars "MathOpNode(\x7b'operator': " ++ reprStr op ++ chars ", 'left': " ++
        reprNode f l ++ chars ", 'right': " ++ reprNode f r ++ chars "\x7d)"
    | .variable name =>
      chars "VariableNode(\x7b'name': " ++ reprStr name ++ chars "\x7d)"
    | .stringLit v =>
      chars "StringLiteralNode(\x7b'value': " ++ reprStr v ++ chars "\x7d)"
    | .numberLit v =>
      chars "NumberLiteralNode(\x7b'value': " ++ reprStr v ++ chars "\x7d)"
    | .power b e =>
      chars "PowerNode(\x7b'base': " ++ reprNode f b ++ chars ", 'exponent': " ++
        reprNode f e ++ chars "\x7d)"
    | .forLoop it ite body =>
      chars "ForLoopNode(iterator=" ++ reprStr it ++ chars ", iterable=" ++
        reprStr (match ite with | .inl s => s | .inr nd => reprNode f nd) ++
        chars ", body=" ++ rList body ++ chars ")"
    | .whileLoop c body =>
      chars "WhileLoopNode(\x7b'condition': " ++ reprNode f c ++ chars ", 'body': " ++
        rList body ++ chars "\x7d)"
    | .comparison op l r =>
      chars "ComparisonNode(\x7b'operator': " ++ reprStr op ++ chars ", 'left': " ++
        reprNode f l ++ chars ", 'right': " ++ reprNode f r ++ chars "\x7d)"
    | .assignment t v =>
      chars "AssignmentNode(\x7b'target': " ++ reprNode f t ++ chars ", 'value': " ++
        reprNode f v ++ chars "\x7d)"
    | .functionCall name args =>
      chars "FunctionCallNode(\x7b'name': " ++ reprStr name ++ chars ", 'args': " ++
        rList args ++ chars "\x7d)"

/-! ## Generators (`generators/base_generator.py`)

The instance attribute `current_indent_level` is threaded as an explicit
parameter: every mutation in the source is an increment before rendering a
nested body matched by a decrement after (or, in `visit_ProgramNode` of the
Java generator, an assignment to a literal level), so parameter threading
reproduces the counter's value at every `_make_indent()` call. -/

/-- `BaseGenerator._make_indent()`: `indent_char * level` with the default
four-space `indent_char`. -/
def mkIndent (n : Nat) : Str := (List.replicate n (chars "    ")).flatten

/-- Is the node a `FunctionNode`?  (`isinstance(stmt, FunctionNode)`). -/
def isFunctionNode : Node → Bool
  | .function .. => true
  | _ => false

/-- `BaseGenerator.visit` dispatch with only the base class's
`visit_*` methods: `ProgramNode`, `VariableNode`, `StringLiteralNode`,
`NumberLiteralNode`, `MathOpNode`, `ComparisonNode` and `AssignmentNode`
have rules; every other variant falls back to `generic_visit`, which
returns `str(node)`. -/
def baseVisit : Nat → Nat → Node → Str
  | 0, _, _ => []
  | f + 1, ind, n =>
    match n with
    | .program stmts => joinSep (chars "\n") (stmts.map (baseVisit f ind))
    | .variable name => name
    | .stringLit v => '"' :: v ++ ['"']
    | .numberLit v => v
    | .mathOp op l r =>
      baseVisit f ind l ++ [' '] ++ op ++ [' '] ++ baseVisit f ind r
    | .comparison op l r =>
      baseVisit f ind l ++ [' '] ++ op ++ [' '] ++ baseVisit f ind r
    | .assignment t v =>
      mkIndent ind ++ baseVisit f ind t ++ chars " = " ++ baseVisit f ind v
    | other => reprNode (f + 1) other

/-- `JavaGenerator.visit` (class `JavaGenerator`): overrides program,
function, print, power, for-loop, while-loop and assignment rendering and
inherits the rest from `BaseGenerator` (including the `generic_visit`
fallback for `FunctionCallNode`). -/
def javaVisit : Nat → Nat → Node → Str
  | 0, _, _ => []
  | f + 1, ind, n =>
    match n with
    | .program stmts =>
      -- statements are visited during the partition loop, before
      -- current_indent_level is set to 1, hence at level 0
      let statics := (stmts.filter isFunctionNode).map (javaVisit f 0)
      let mains :=
        (stmts.filter (fun st => ¬ isFunctionNode st)).map
          (fun st => javaVisit f 0 st ++ [';'])
      let ind1 := mkIndent 1
      let mainCode :=
        if mains ≠ [] then
          ind1 ++ chars "public static void main(String[] args) \x7b\n" ++
            joinSep (chars "\n") (mains.map (fun s => ind1 ++ ind1 ++ s)) ++
            chars "\n" ++ ind1 ++ chars "\x7d"
        else []
      let staticsCode := joinSep (chars "\n\n") statics
      let parts :=
        (if staticsCode ≠ [] then [staticsCode] else []) ++
        (if mainCode ≠ [] then [mainCode] else [])
      chars "public class ConvertedCode \x7b\n" ++
        joinSep (chars "\n\n") parts ++ chars "\n\x7d"
    | .function name args body =>
      let argsStr := joinSep (chars ", ") (args.map (chars "String " ++ ·))
      let header :=
        mkIndent ind ++ chars "public static void " ++ name ++ ['('] ++ argsStr ++
          chars ") \x7b"
      let bodyCode :=
        match body with
        | [] => mkIndent (ind + 1) ++ chars "// Empty body"
        | _ => joinSep (chars "\n") (body.map (fun st => javaVisit f (ind + 1) st ++ [';']))
      header ++ chars "\n" ++ bodyCode ++ chars "\n" ++ mkIndent ind ++ chars "\x7d"
    | .print e =>
      mkIndent ind ++ chars "System.out.println(" ++ javaVisit f ind e ++ [')']
    | .power b e =>
      chars "Math.pow(" ++ javaVisit f ind b ++ chars ", " ++ javaVisit f ind e ++ [')']
    | .forLoop it ite body =>
      let iterable := match ite with | .inl s => s | .inr nd => javaVisit f ind nd
      let header :=
        if startsWith (chars "range(") iterable then
          let rangeArgs := splitAllOn (chars ",") ((iterable.drop 6).dropLast)
          match rangeArgs with
          | [endA] =>
            mkIndent ind ++ chars "for (int " ++ it ++ chars " = 0; " ++ it ++
              chars " < " ++ pystrip endA ++ chars "; " ++ it ++ chars "++) \x7b"
          | [startA, endA] =>
            mkIndent ind ++ chars "for (int " ++ it ++ chars " = " ++ pystrip startA ++
              chars "; " ++ it ++ chars " < " ++ pystrip endA ++ chars "; " ++ it ++
              chars "++) \x7b"
          | startA :: endA :: stepA :: _ =>
            mkIndent ind ++ chars "for (int " ++ it ++ chars " = " ++ pystrip startA ++
              chars "; " ++ it ++ chars " < " ++ pystrip endA ++ chars "; " ++ it ++
              chars " += " ++ pystrip stepA ++ chars ") \x7b"
          | [] => mkIndent ind ++ chars "for (String " ++ it ++ chars " : " ++
              iterable ++ chars ") \x7b"
        else
          mkIndent ind ++ chars "for (String " ++ it ++ chars " : " ++ iterable ++
            chars ") \x7b"
      let bodyCode :=
        match body with
        | [] => mkIndent (ind + 1) ++ chars "// Empty body"
        | _ => joinSep (chars "\n") (body.map (fun st => javaVisit f (ind + 1) st ++ [';']))
      header ++ chars "\n" ++ bodyCode ++ chars "\n" ++ mkIndent ind ++ chars "\x7d"
    | .whileLoop c body =>
      let header := mkIndent ind ++ chars "while (" ++ javaVisit f ind c ++ chars ") \x7b"
      let bodyCode :=
        match body with
        | [] => mkIndent (ind + 1) ++ chars "// Empty body"
        | _ => joinSep (chars "\n") (body.map (fun st => javaVisit f (ind + 1) st ++ [';']))
      header ++ chars "\n" ++ bodyCode ++ chars "\n" ++ mkIndent ind ++ chars "\x7d"
    | .assignment t v =>
      mkIndent ind ++ chars "int " ++ javaVisit f ind t ++ chars " = " ++ javaVisit f ind v
    | .variable name => name
    | .stringLit v => '"' :: v ++ ['"']
    | .numberLit v => v
    | .mathOp op l r =>
      javaVisit f ind l ++ [' '] ++ op ++ [' '] ++ javaVisit f ind r
    | .comparison op l r =>
      javaVisit f ind l ++ [' '] ++ op ++ [' '] ++ javaVisit f ind r
    | .functionCall name args => reprNode (f + 1) (.functionCall name args)

/-- Is the node a `VariableNode`?  (`isinstance(node, VariableNode)` in
`PythonGenerator.visit_math_op`). -/
def isVariableNode : Node → Bool
  | .variable _ => true
  | _ => false

/-- `PythonGenerator.visit`: an `isinstance` chain with no generic
fallback.  A `FunctionCallNode` reaches
`elif isinstance(node, FunctionCallNode)`, whose class name is not
imported in `base_generator.py`, so Python raises `NameError` there (the
final `else` would raise `NotImplementedError`, but it is unreachable: all
thirteen node classes are tested first).  Raising is modelled by
`Except.error`. -/
def pythonVisit : Nat → Node → Except Str Str
  | 0, _ => .error (chars "fuel exhausted")
  | f + 1, n =>
    match n with
    | .program stmts => do
      let rs ← stmts.mapM (pythonVisit f)
      pure (joinSep (chars "\n") rs)
    | .function name args body => do
      let rs ← body.mapM (fun st => (chars "    " ++ ·) <$> pythonVisit f st)
      pure (chars "def " ++ name ++ ['('] ++ joinSep (chars ", ") args ++
        chars "):\n" ++ joinSep (chars "\n") rs)
    | .print e => do
      let s ← pythonVisit f e
      pure (chars "print(" ++ s ++ [')'])
    | .mathOp op l r => do
      let ls ← pythonVisit f l
      let rs ← pythonVisit f r
      let ls := if isVariableNode l then chars "str(" ++ ls ++ [')'] else ls
      let rs := if isVariableNode r then chars "str(" ++ rs ++ [')'] else rs
      pure ('(' :: ls ++ [' '] ++ op ++ [' '] ++ rs ++ [')'])
    | .variable name => pure name
    | .stringLit v => pure ('"' :: v ++ ['"'])
    | .numberLit v => pure v
    | .power b e => do
      let bs ← pythonVisit f b
      let es ← pythonVisit f e
      pure ('(' :: bs ++ chars " ** " ++ es ++ [')'])
    | .forLoop it ite body => do
      let rs ← body.mapM (fun st => (chars "    " ++ ·) <$> pythonVisit f st)
      -- the f-string interpolates node.iterable with str(), not visit()
      let iterable := match ite with | .inl s => s | .inr nd => reprNode f nd
      pure (chars "for " ++ it ++ chars " in " ++ iterable ++ chars ":\n" ++
        joinSep (chars "\n") rs)
    | .whileLoop c body => do
      let cs ← pythonVisit f c
      let rs ← body.mapM (fun st => (chars "    " ++ ·) <$> pythonVisit f st)
      pure (chars "while " ++ cs ++ chars ":\n" ++ joinSep (chars "\n") rs)
    | .comparison op l r => do
      let ls ← pythonVisit f l
      let rs ← pythonVisit f r
      pure ('(' :: ls ++ [' '] ++ op ++ [' '] ++ rs ++ [')'])
    | .assignment t v => do
      let ts ← pythonVisit f t
      let vs ← pythonVisit f v
      pure (ts ++ chars " = " ++ vs)
    | .functionCall _ _ =>
      .error (chars "NameError: name FunctionCallNode is not defined")

/-- Modelled from the spec: `CppGenerator` is imported by `main.py` from
`generators/base_generator.py` but is missing from the sources under
`src/`.  Per spec §4.3 every generator renders with a per-variant rule
table falling back to generic structural stringification, never raising,
and renders an empty program as empty output; the base generator's
dispatch (which is in `src/`) has exactly this contract, so the missing
generator is modelled as that dispatch. -/
def cppGenVisit (fuel ind : Nat) (n : Node) : Str := baseVisit fuel ind n

/-- Modelled from the spec: `JsGenerator` (the generator-only `javascript`
target) is likewise missing from `src/`; modelled like `cppGenVisit`. -/
def jsGenVisit (fuel ind : Nat) (n : Node) : Str := baseVisit fuel ind n

/-! ## The pipeline entry point (`main.py`, `convert_code`) -/

/-- How `convert_code` can fail: `ValueError` for an unsupported source or
target language, or an exception propagating out of a generator. -/
inductive ConvErr where
  | unsupportedSource (lang : Str)
  | unsupportedTarget (lang : Str)
  | genFailure (msg : Str)
  deriving DecidableEq

/-- Pipeline stages observable in `convert_code`'s control flow, in
execution order. -/
inductive ConvEvent where
  | parsed (lang : Str)
  | rendered (lang : Str)
  deriving DecidableEq

/-- `convert_code(source_code, source_lang, target_lang)`, with the list of
pipeline stages executed before returning.  The source-language `if` chain
runs first and parses the input; the target-language chain runs only
afterwards.  The `java` branch constructs a `JavaParser` and calls its
`parse_java`; that class wrapper is not among the sources under `src/`
and is modelled (from spec §4.2: one parser per source language exposing
`parse(text) -> Program`) as the module-level `parse_java`. -/
def convertCode (src sourceLang targetLang : Str) : List ConvEvent × Except ConvErr Str :=
  let parseRes : Option Node :=
    if sourceLang = chars "python" then some (parsePyStr src)
    else if sourceLang = chars "java" then some (parseJavaStr src)
    else if sourceLang = chars "cpp" then some (parseCppStr src)
    else none
  match parseRes with
  | none => ([], .error (.unsupportedSource sourceLang))
  | some ast =>
    let evs := [ConvEvent.parsed sourceLang]
    let fuel := src.length + 2
    if targetLang = chars "python" then
      match pythonVisit fuel ast with
      | .ok t => (evs ++ [.rendered targetLang], .ok t)
      | .error m => (evs ++ [.rendered targetLang], .error (.genFailure m))
    else if targetLang = chars "java" then
      (evs ++ [.rendered targetLang], .ok (javaVisit fuel 0 ast))
    else if targetLang = chars "cpp" then
      (evs ++ [.rendered targetLang], .ok (cppGenVisit fuel 0 ast))
    else if targetLang = chars "javascript" then
      (evs ++ [.rendered targetLang], .ok (jsGenVisit fuel 0 ast))
    else (evs, .error (.unsupportedTarget targetLang))

/-! ## A reference semantics for the indentation-language fragment

The spec's round-trip property compares the *executed effect* of source
text and regenerated text.  To state it we give an interpreter for the
fragment of Python that the converter's own feature subset (assignments,
prints, single-level addition, comparisons, `str()` coercions,
parenthesised sub-expressions) inhabits.  This is a reference model of
CPython on that fragment, not code from the repository:

* values are integers, strings and booleans;
* a program is executed line by line; a failing line (name or type error)
  stops execution, keeping the output printed so far — as an uncaught
  CPython exception does;
* `def` headers and lines outside the fragment are inert: every such line
  this development ever evaluates either is a CPython `SyntaxError`
  (so the real program prints nothing at all, and ignoring the line can
  only over-approximate the printed output) or has no effect on
  the store or the output. -/

/-- Runtime values of the fragment. -/
inductive Val where
  | vint (n : Int)
  | vstr (s : Str)
  | vbool (b : Bool)
  deriving DecidableEq

/-- Variable store, in assignment order. -/
abbrev Env := List (Str × Val)

/-- Store update: overwrite the first binding of the name, else append. -/
def envSet (x : Str) (v : Val) : Env → Env
  | [] => [(x, v)]
  | (y, w) :: rest => if y = x then (x, v) :: rest else (y, w) :: envSet x v rest

/-- Store lookup. -/
def envGet (x : Str) : Env → Option Val
  | [] => none
  | (y, w) :: rest => if y = x then some w else envGet x rest

/-- Is `s` of the shape `( inner )` with the first parenthesis matched by
the final one?  (Scan depth stays positive and returns to one at the
end.) -/
def isWrapped (s : Str) : Bool :=
  match s with
  | '(' :: t =>
    match t.reverse with
    | ')' :: revInner =>
      let rec go (d : Nat) : Str → Bool
        | [] => d = 1
        | '(' :: r => go (d + 1) r
        | ')' :: r => decide (2 ≤ d) && go (d - 1) r
        | _ :: r => go d r
      go 1 revInner.reverse
    | _ => false
  | _ => false

/-- Decimal-integer literal (optional sign, digits only). -/
def intFullmatch (s : Str) : Bool :=
  let t := if s.head? = some '-' then s.tail else s
  decide (t ≠ []) && t.all Char.isDigit

/-- Numeric value of a digit string. -/
def natOfDigits (s : Str) : Nat :=
  s.foldl (fun acc c => acc * 10 + (c.toNat - 48)) 0

/-- Value of a decimal-integer literal. -/
def intOfLiteral (s : Str) : Int :=
  if s.head? = some '-' then - (natOfDigits s.tail : Int) else (natOfDigits s : Int)

/-- Decimal rendering of an integer (CPython `str(int)`). -/
def intRepr (i : Int) : Str :=
  if i < 0 then '-' :: Nat.toDigits 10 i.natAbs else Nat.toDigits 10 i.toNat

/-- CPython `str()` of a fragment value. -/
def valStr : Val → Str
  | .vint n => intRepr n
  | .vstr s => s
  | .vbool true => chars "True"
  | .vbool false => chars "False"

/-- Lexicographic order on strings (CPython string `<`). -/
def strLt : Str → Str → Bool
  | [], [] => false
  | [], _ :: _ => true
  | _ :: _, [] => false
  | c :: cs, d :: ds => if c = d then strLt cs ds else decide (c < d)

/-- Fragment comparison.  Equality across different runtime types yields
`False` (exact for the int/str mixes this development evaluates); order
comparisons require both sides int or both str, else fail as CPython's
`TypeError` does. -/
def cmpVals (op : Str) (a b : Val) : Option Val :=
  if op = chars "==" then some (.vbool (a = b))
  else if op = chars "!=" then some (.vbool (a ≠ b))
  else
    let ltv : Option Bool :=
      match a, b with
      | .vint i, .vint j => some (i < j)
      | .vstr s, .vstr t => some (strLt s t)
      | _, _ => none
    let eqv := a = b
    match ltv with
    | none => none
    | some lt =>
      if op = chars "<" then some (.vbool lt)
      else if op = chars "<=" then some (.vbool (lt ∨ eqv))
      else if op = chars ">" then some (.vbool (¬ lt ∧ ¬ eqv))
      else if op = chars ">=" then some (.vbool (¬ lt)) else none

/-- Fragment addition: int+int and str+str; other mixes are CPython
`TypeError`s. -/
def addVals (a b : Val) : Option Val :=
  match a, b with
  | .vint i, .vint j => some (.vint (i + j))
  | .vstr s, .vstr t => some (.vstr (s ++ t))
  | _, _ => none

/-- Expression evaluation for the fragment (see the section comment).
Comparison operators bind loosest, then `+`, as in Python. -/
def evalExpr (env : Env) : Nat → Str → Option Val
  | 0, _ => none
  | f + 1, s₀ =>
    let s := pystrip s₀
    if isWrapped s then evalExpr env f ((s.drop 1).dropLast)
    else match findCmp cmpOps s with
    | some (op, a, b) => do
      let va ← evalExpr env f a
      let vb ← evalExpr env f b
      cmpVals op va vb
    | none =>
      match splitFirst (chars " + ") s with
      | some (a, b) => do
        let va ← evalExpr env f a
        let vb ← evalExpr env f b
        addVals va vb
      | none =>
        if startsWith (chars "str(") s ∧ endsWith (chars ")") s ∧ 4 < s.length then
          (evalExpr env f ((s.drop 4).dropLast)).map (.vstr ∘ valStr)
        else if intFullmatch s then some (.vint (intOfLiteral s))
        else if 2 ≤ s.length ∧
            ((startsWith (chars "\"") s ∧ endsWith (chars "\"") s) ∨
             (startsWith (chars "'") s ∧ endsWith (chars "'") s)) then
          some (.vstr ((s.drop 1).dropLast))
        else if s = chars "True" then some (.vbool true)
        else if s = chars "False" then some (.vbool false)
        else if identFullmatch s then envGet s env
        else none

/-- Execution state: output so far, store, and whether an uncaught error
has stopped the program. -/
structure ExecState where
  out : List Str
  env : Env
  halted : Bool
  deriving DecidableEq

/-- Execute one line of the fragment (see the section comment). -/
def execLine (st : ExecState) (line : Str) : ExecState :=
  if st.halted then st
  else
    let l := pystrip line
    if l = [] ∨ l.head? = some '#' then st
    else if chars "def " <+: l then st
    else if chars "print(" <+: l ∧ endsWith (chars ")") l ∧ 6 < l.length then
      match evalExpr st.env (l.length + 1) ((l.drop 6).dropLast) with
      | some v => { st with out := st.out ++ [valStr v] }
      | none => { st with halted := true }
    else
      match splitFirst (chars " = ") l with
      | some (t, v) =>
        if identFullmatch (pystrip t) then
          match evalExpr st.env (l.length + 1) v with
          | some w => { st with env := envSet (pystrip t) w st.env }
          | none => { st with halted := true }
        else st
      | none => st

/-- Run a fragment program: printed lines, final store, error flag. -/
def pyRun (code : Str) : List Str × Env × Bool :=
  let final := (splitLines code).foldl execLine ⟨[], [], false⟩
  (final.out, final.env, final.halted)

/-! ## Counted-loop iteration sequences

The visit sequence of a counted loop `for (i = a; i ⟨cond⟩; i += s)` and of
CPython's `range`, used to state the loop-semantics claims. -/

/-- Operational visit sequence of a counted loop: start at `i`, record and
step while the condition holds.  Fuel bounds the number of iterations. -/
def countedLoopSeq (cond : Int → Bool) (step : Int) : Nat → Int → List Int
  | 0, _ => []
  | f + 1, i => if cond i then i :: countedLoopSeq cond step f (i + step) else []

/-- CPython `list(range(a, b, s))` for `s ≠ 0` (ascending below `b` for
positive `s`, descending above `b` for negative `s`).  `s = 0` raises
`ValueError` in CPython and is never evaluated here. -/
def pyRangeList (a b s : Int) : List Int :=
  let len : Nat :=
    if s > 0 then ((b - a).toNat + (s.toNat - 1)) / s.toNat
    else if s < 0 then ((a - b).toNat + ((-s).toNat - 1)) / (-s).toNat
    else 0
  (List.range len).map (fun (k : Nat) => a + s * (k : Int))

/-! ## Helper lemmas -/

/-- A string of whitespace characters strips to nothing. -/
lemma pystrip_of_all_space (s : Str) (h : s.all isPySpace = true) : pystrip s = [] := by
  have h1 : lstrip s = [] := by
    simp only [lstrip, List.dropWhile_eq_nil_iff]
    intro x hx
    exact (List.all_eq_true.mp h) x hx
  simp [pystrip, h1, rstrip]

/-- `takeWhile` passes over a prefix satisfying the predicate. -/
lemma takeWhile_append_all {p : Char → Bool} (A B : Str) (hA : ∀ c ∈ A, p c = true) :
    (A ++ B).takeWhile p = A ++ B.takeWhile p := by
  induction A with
  | nil => simp
  | cons c A' ih =>
    simp only [List.cons_append, List.takeWhile_cons, hA c (by simp), if_true]
    rw [ih (fun d hd => hA d (by simp [hd]))]

/-- `dropWhile` passes over a prefix satisfying the predicate. -/
lemma dropWhile_append_all {p : Char → Bool} (A B : Str) (hA : ∀ c ∈ A, p c = true) :
    (A ++ B).dropWhile p = B.dropWhile p := by
  induction A with
  | nil => simp
  | cons c A' ih =>
    simp only [List.cons_append, List.dropWhile_cons, hA c (by simp), if_true]
    exact ih (fun d hd => hA d (by simp [hd]))

/-- `takeWhile` stops at a failing head. -/
lemma takeWhile_cons_of_neg {p : Char → Bool} {c : Char} (B : Str) (hc : p c = false) :
    (c :: B).takeWhile p = [] := by
  simp [List.takeWhile_cons, hc]

/-- `dropWhile` keeps a failing head. -/
lemma dropWhile_cons_of_neg {p : Char → Bool} {c : Char} (B : Str) (hc : p c = false) :
    (c :: B).dropWhile p = c :: B := by
  simp [List.dropWhile_cons, hc]

/-- A string whose characters are all non-whitespace strips to itself. -/
lemma pystrip_eq_self (s : Str) (h : ∀ c ∈ s, isPySpace c = false) : pystrip s = s := by
  have h1 : lstrip s = s := by
    unfold lstrip
    cases s with
    | nil => rfl
    | cons c cs => exact dropWhile_cons_of_neg cs (h c (by simp))
  have h2 : rstrip s = s := by
    unfold rstrip
    have : s.reverse.dropWhile isPySpace = s.reverse := by
      cases hr : s.reverse with
      | nil => rfl
      | cons c cs =>
        refine dropWhile_cons_of_neg cs (h c ?_)
        have : c ∈ s.reverse := by rw [hr]; simp
        simpa using this
    rw [this, List.reverse_reverse]
  rw [pystrip, h1, h2]

/-- `skipWs` keeps a string with a non-whitespace head. -/
lemma skipWs_eq_self {c : Char} (s : Str) (hc : isPySpace c = false) :
    skipWs (c :: s) = c :: s :=
  dropWhile_cons_of_neg s hc

/-- Splitting at the first occurrence: when the pattern's first character
does not occur in `A`, the split of `A ++ pat ++ B` is at `A`. -/
lemma splitFirst_append {pat : Str} {h0 : Char} (hp : pat.head? = some h0)
    (A B : Str) (hA : h0 ∉ A) : splitFirst pat (A ++ pat ++ B) = some (A, B) := by
  induction A with
  | nil =>
    obtain ⟨p0, pat', rfl⟩ : ∃ p0 pat', pat = p0 :: pat' := by
      cases pat with
      | nil => simp at hp
      | cons p0 pat' => exact ⟨p0, pat', rfl⟩
    simp only [List.nil_append, List.cons_append]
    rw [splitFirst]
    rw [if_pos (show (p0 :: pat') <+: p0 :: (pat' ++ B) from ⟨B, by simp⟩)]
    simp
  | cons c A' ih =>
    have hc : c ≠ h0 := fun e => hA (by simp [e])
    simp only [List.cons_append]
    rw [splitFirst]
    rw [if_neg, ih (fun hmem => hA (by simp [hmem]))]
    · rfl
    · intro hpre
      rcases hpre with ⟨t, ht⟩
      cases pat with
      | nil => simp at hp
      | cons p0 pat' =>
        injection hp with hp0
        injection ht with h1 _
        exact hc (h1 ▸ hp0 ▸ rfl)

/-- `splitFirst` fails exactly on strings not containing the pattern. -/
lemma splitFirst_eq_none {pat : Str} (hpat : pat ≠ []) (s : Str)
    (h : ¬ pat <:+: s) : splitFirst pat s = none := by
  induction s with
  | nil => rw [splitFirst, if_neg hpat]
  | cons c cs ih =>
    rw [splitFirst]
    rw [if_neg (fun hpre => h hpre.isInfix)]
    rw [ih (fun hinf => h (hinf.trans (List.suffix_cons c cs).isInfix))]
    rfl

/-- Digits are not whitespace and are word characters; a digit is none of
the converter's operator or delimiter characters. -/
lemma digit_char_facts (c : Char) (h : c.isDigit = true) :
    isPySpace c = false ∧ isWordChar c = true ∧
    c ≠ ',' ∧ c ≠ ';' ∧ c ≠ ')' ∧ c ≠ '(' ∧ c ≠ '=' ∧ c ≠ '!' ∧ c ≠ '<' ∧
    c ≠ '>' ∧ c ≠ '+' ∧ c ≠ '-' ∧ c ≠ '"' ∧ c ≠ sq ∧ c ≠ '#' ∧ c ≠ '.' ∧
    c ≠ '\n' ∧ c ≠ ':' := by
  refine ⟨?_, by simp [isWordChar, h], ?_, ?_, ?_, ?_, ?_, ?_, ?_, ?_, ?_, ?_,
    ?_, ?_, ?_, ?_, ?_, ?_⟩
  · by_contra hc
    rw [Bool.not_eq_false] at hc
    simp only [isPySpace, Bool.or_eq_true, beq_iff_eq] at hc
    rcases hc with ((((rfl | rfl) | rfl) | rfl) | rfl) | rfl <;>
      exact absurd h (by decide)
  all_goals rintro rfl <;> exact absurd h (by decide)

/-- Nonempty all-digit strings. -/
def isDigits (s : Str) : Prop := s ≠ [] ∧ ∀ c ∈ s, c.isDigit = true

instance (s : Str) : Decidable (isDigits s) := by unfold isDigits; infer_instance

/-- `splitAllGo` when the pattern is absent. -/
lemma splitAllGo_of_none {pat s : Str} (f : Nat) (h : splitFirst pat s = none) :
    splitAllGo pat f s = [s] := by
  cases f <;> simp [splitAllGo, h]

/-- `splitAllGo` when the pattern is found. -/
lemma splitAllGo_of_some {pat s a b : Str} (f : Nat) (h : splitFirst pat s = some (a, b)) :
    splitAllGo pat (f + 1) s = a :: splitAllGo pat f b := by
  simp [splitAllGo, h]

/-! ## Claim C5 — unsupported-language failures in `convert_code` -/

/-- C5, counterexample.  The claim says that an unknown *target* key makes
`convert` fail before any parsing is attempted; but `convert_code` runs
its source-language chain (which parses the input) first, and only then
examines the target key: converting `"x = 1"` from `python` to the
unregistered target `ruby` parses the source before failing. -/
theorem C5_counterexample :
    convertCode (chars "x = 1") (chars "python") (chars "ruby") =
      ([ConvEvent.parsed (chars "python")],
        .error (.unsupportedTarget (chars "ruby"))) ∧
    [ConvEvent.parsed (chars "python")] ≠ ([] : List ConvEvent) :=
  ⟨rfl, by decide⟩

/-- C5, amended: an unknown *source* key fails immediately with the
unsupported-source condition, before any parsing; an unknown *target* key
fails with the unsupported-target condition only after the source has been
parsed, but before any rendering is attempted, and no output is
produced. -/
theorem C5_amended :
    (∀ src sl tl : Str,
      sl ≠ chars "python" → sl ≠ chars "java" → sl ≠ chars "cpp" →
      convertCode src sl tl = ([], .error (.unsupportedSource sl))) ∧
    (∀ src sl tl : Str,
      (sl = chars "python" ∨ sl = chars "java" ∨ sl = chars "cpp") →
      tl ≠ chars "python" → tl ≠ chars "java" → tl ≠ chars "cpp" →
      tl ≠ chars "javascript" →
      convertCode src sl tl =
        ([ConvEvent.parsed sl], .error (.unsupportedTarget tl))) := by
  constructor
  · intro src sl tl h1 h2 h3
    simp [convertCode, h1, h2, h3]
  · intro src sl tl hs h1 h2 h3 h4
    rcases hs with rfl | rfl | rfl <;> simp [convertCode, h1, h2, h3, h4] <;> rfl

/-- C5, witness for the amended theorem. -/
theorem C5_amended_witness :
    convertCode (chars "x = 1") (chars "ruby") (chars "python") =
      ([], .error (.unsupportedSource (chars "ruby"))) ∧
    convertCode (chars "x = 1") (chars "python") (chars "go") =
      ([ConvEvent.parsed (chars "python")],
        .error (.unsupportedTarget (chars "go"))) :=
  ⟨C5_amended.1 (chars "x = 1") (chars "ruby") (chars "python")
      (by decide) (by decide) (by decide),
    C5_amended.2 (chars "x = 1") (chars "python") (chars "go")
      (Or.inl rfl) (by decide) (by decide) (by decide) (by decide)⟩

/-! ## Claim C7 — source/target key asymmetry -/

/-- C7: every registered source key (`python`, `java`, `cpp`) is also
accepted as a target key (the unsupported-target condition never fires for
it), and `javascript` is a generator-only target: converting *to*
`javascript` succeeds for every registered source, while converting *from*
`javascript` fails with the unsupported-source condition. -/
theorem C7 :
    (∀ src tl : Str,
      convertCode src (chars "javascript") tl =
        ([], .error (.unsupportedSource (chars "javascript")))) ∧
    (∀ src sl : Str,
      (sl = chars "python" ∨ sl = chars "java" ∨ sl = chars "cpp") →
      ∃ t, convertCode src sl (chars "javascript") =
        ([ConvEvent.parsed sl, ConvEvent.rendered (chars "javascript")], .ok t)) ∧
    (∀ src sl tl m : Str,
      (convertCode src sl tl).2 = .error (.unsupportedTarget m) →
      tl ≠ chars "python" ∧ tl ≠ chars "java" ∧ tl ≠ chars "cpp" ∧
        tl ≠ chars "javascript") := by
  refine ⟨?_, ?_, ?_⟩
  · intro src tl
    rfl
  · intro src sl hs
    rcases hs with rfl | rfl | rfl <;> exact ⟨_, rfl⟩
  · intro src sl tl m h
    simp only [convertCode] at h
    split at h
    · simp at h
    · split at h
      · split at h <;> simp at h
      · split at h
        · simp at h
        · split at h
          · simp at h
          · split at h
            · simp at h
            · rename_i h1 h2 h3 h4
              exact ⟨h1, h2, h3, h4⟩

/-- C7, witness. -/
theorem C7_witness :
    convertCode (chars "x = 1") (chars "javascript") (chars "python") =
      ([], .error (.unsupportedSource (chars "javascript"))) ∧
    (∃ t, convertCode (chars "x = 1") (chars "cpp") (chars "javascript") =
      ([ConvEvent.parsed (chars "cpp"), ConvEvent.rendered (chars "javascript")],
        .ok t)) ∧
    ((chars "ruby" : Str) ≠ chars "python" ∧ (chars "ruby" : Str) ≠ chars "java" ∧
      (chars "ruby" : Str) ≠ chars "cpp" ∧ (chars "ruby" : Str) ≠ chars "javascript") :=
  ⟨C7.1 (chars "x = 1") (chars "python"),
    C7.2.1 (chars "x = 1") (chars "cpp") (Or.inr (Or.inr rfl)),
    C7.2.2 (chars "x = 1") (chars "python") (chars "ruby") (chars "ruby") rfl⟩

/-! ## Claim C4 — rendering dispatch and the generic fallback -/

/-- C4, counterexample.  The claim says rendering an unhandled variant
never raises in any generator; but `PythonGenerator.visit` has no generic
fallback, and a `FunctionCallNode` raises (`FunctionCallNode` is not
imported in `base_generator.py`, so its `isinstance` test raises
`NameError`; the final `else` would raise `NotImplementedError`). -/
theorem C4_counterexample :
    pythonVisit 1 (.functionCall (chars "f") []) =
      .error (chars "NameError: name FunctionCallNode is not defined") ∧
    (pythonVisit 1 (.functionCall (chars "f") [])).isOk = false :=
  ⟨rfl, rfl⟩

/-- C4, amended: in the base dispatch (`BaseGenerator.visit`) and in the
Java generator, a variant with no per-variant rule — `FunctionCallNode` is
the one such variant — falls back to the generic structural
stringification `str(node)` and never raises; the Python generator's own
dispatch instead raises on `FunctionCallNode`. -/
theorem C4_amended :
    ∀ (f : Nat) (name : Str) (args : List Node),
      baseVisit (f + 1) 0 (.functionCall name args) =
        reprNode (f + 1) (.functionCall name args) ∧
      javaVisit (f + 1) 0 (.functionCall name args) =
        reprNode (f + 1) (.functionCall name args) ∧
      pythonVisit (f + 1) (.functionCall name args) =
        .error (chars "NameError: name FunctionCallNode is not defined") :=
  fun _ _ _ => ⟨rfl, rfl, rfl⟩

/-! ## Claim C8 — empty and whitespace-only input -/

/-- C8: every parser maps empty or whitespace-only source text to a
zero-statement `Program`, and rendering that `Program` succeeds in every
generator (empty output for the Python generator and the spec-modelled
C++/JavaScript generators, the empty class wrapper for the Java
generator). -/
theorem C8 :
    ∀ s : Str, s.all isPySpace = true →
      parsePyStr s = .program [] ∧
      parseCppStr s = .program [] ∧
      parseJavaStr s = .program [] ∧
      (∀ f, pythonVisit (f + 1) (.program []) = .ok []) ∧
      (∀ f, javaVisit (f + 1) 0 (.program []) =
        chars "public class ConvertedCode \x7b\n\n\x7d") ∧
      (∀ f, cppGenVisit (f + 1) 0 (.program []) = []) ∧
      (∀ f, jsGenVisit (f + 1) 0 (.program []) = []) := by
  intro s h
  have hs : pystrip s = [] := pystrip_of_all_space s h
  refine ⟨?_, ?_, ?_, fun f => rfl, fun f => rfl, fun f => rfl, fun f => rfl⟩
  · simp only [parsePyStr, hs]; rfl
  · simp only [parseCppStr, hs]; rfl
  · simp only [parseJavaStr, hs]; rfl

/-- C8, witness. -/
theorem C8_witness :
    parsePyStr (chars "  \t\n ") = .program [] ∧
    parseCppStr (chars "  \t\n ") = .program [] ∧
    parseJavaStr (chars "  \t\n ") = .program [] ∧
    pythonVisit 1 (.program []) = .ok [] ∧
    javaVisit 1 0 (.program []) = chars "public class ConvertedCode \x7b\n\n\x7d" ∧
    cppGenVisit 1 0 (.program []) = [] ∧
    jsGenVisit 1 0 (.program []) = [] := by
  have h := C8 (chars "  \t\n ") (by decide)
  exact ⟨h.1, h.2.1, h.2.2.1, h.2.2.2.1 0, h.2.2.2.2.1 0, h.2.2.2.2.2.1 0,
    h.2.2.2.2.2.2 0⟩

/-! ## Claim C3 — counted-loop normalization rules -/

/-- The textual `range(start, end, step)` descriptor shape produced by the
two conversion functions. -/
def rangeText (a b st : Str) : Str :=
  chars "range(" ++ a ++ chars ", " ++ b ++ chars ", " ++ st ++ chars ")"

/-- The comparison operator captured by `forCont` is `<` or `>` — the
two-character alternatives `<=` and `>=` of the ordered alternation are
never committed to. -/
lemma forCont_op (r : Str) (g : Str × Str × Str × Str × Str × Str)
    (h : forCont r = some g) : g.2.2.1 = chars "<" ∨ g.2.2.1 = chars ">" := by
  unfold forCont at h
  split at h
  split at h
  · simp at h
  · split at h
    · split at h
      · split at h
        · split at h
          · split at h
            · rcases Option.map_eq_some'.mp h with ⟨a, -, rfl⟩
              left; rfl
            · split at h
              · rcases Option.map_eq_some'.mp h with ⟨a, -, rfl⟩
                right; rfl
              · simp at h
          · simp at h
        · simp at h
      · simp at h
    · simp at h

/-- The comparison operator of any header matched by `FOR_LOOP_REGEX` is
captured as `<` or `>`. -/
lemma forHeaderMatch_op (line : Str) (g : Str × Str × Str × Str × Str × Str)
    (h : forHeaderMatch line = some g) :
    g.2.2.1 = chars "<" ∨ g.2.2.1 = chars ">" := by
  unfold forHeaderMatch at h
  split at h
  · split at h
    · split at h
      · rename_i g' heq
        cases h
        -- the with-`int` alternative: peel its own if and inner match
        split at heq
        · split at heq
          · exact forCont_op _ _ heq
          · simp at heq
        · simp at heq
      · exact forCont_op _ _ h
    · simp at h
  · simp at h

/-- C3, counterexample.  For the header family with comparison `>` the
claim requires the step's sign to be inverted (so `>` with `++` would give
step `-1`); the conversion function swaps start and end but leaves the
step determined by the step operator alone: `_convert_cpp_for_to_range("5",
"0", ">", "++", "")` yields `range(0, 5, 1)`, not `range(0, 5, -1)`. -/
theorem C3_counterexample :
    convertCppForToRange (chars "5") (chars "0") (chars ">") (chars "++") (chars "") =
      chars "range(0, 5, 1)" ∧
    (chars "range(0, 5, 1)" : Str) ≠ chars "range(0, 5, -1)" :=
  ⟨rfl, by decide⟩

/-- C3, amended: in both brace-language conversion functions, comparison
`<=` appends `" + 1"` to the end text and `<` / `>=` pass through, as
claimed; comparison `>` swaps start with end but does *not* invert the
step's sign — the step is determined solely by the step operator (`++` →
`1`, `--` → `-1`, `+=K` → `K`, `-=K` → `-K`; the source's attempted
inversion assigns a variable that the step computation then overwrites for
`++`/`--` and never touches for `+=`/`-=`).  Moreover the front ends'
ordered comparison alternation only ever captures `<` or `>` (the `=` of a
`<=`/`>=` header is folded into the end text), so the `<=` branch is
unreachable from parsed headers. -/
theorem C3_amended :
    (∀ s e v : Str,
      (convertCppForToRange s e (chars "<=") (chars "++") v =
        rangeText (pystrip s) (pystrip e ++ chars " + 1") (chars "1") ∧
       convertCppForToRange s e (chars "<=") (chars "--") v =
        rangeText (pystrip s) (pystrip e ++ chars " + 1") (chars "-1") ∧
       convertCppForToRange s e (chars "<=") (chars "+=") v =
        rangeText (pystrip s) (pystrip e ++ chars " + 1") v ∧
       convertCppForToRange s e (chars "<=") (chars "-=") v =
        rangeText (pystrip s) (pystrip e ++ chars " + 1") ('-' :: v)) ∧
      (convertCppForToRange s e (chars "<") (chars "++") v =
        rangeText (pystrip s) (pystrip e) (chars "1") ∧
       convertCppForToRange s e (chars "<") (chars "--") v =
        rangeText (pystrip s) (pystrip e) (chars "-1") ∧
       convertCppForToRange s e (chars "<") (chars "+=") v =
        rangeText (pystrip s) (pystrip e) v ∧
       convertCppForToRange s e (chars "<") (chars "-=") v =
        rangeText (pystrip s) (pystrip e) ('-' :: v)) ∧
      (convertCppForToRange s e (chars ">=") (chars "++") v =
        rangeText (pystrip s) (pystrip e) (chars "1") ∧
       convertCppForToRange s e (chars ">=") (chars "--") v =
        rangeText (pystrip s) (pystrip e) (chars "-1") ∧
       convertCppForToRange s e (chars ">=") (chars "+=") v =
        rangeText (pystrip s) (pystrip e) v ∧
       convertCppForToRange s e (chars ">=") (chars "-=") v =
        rangeText (pystrip s) (pystrip e) ('-' :: v)) ∧
      (convertCppForToRange s e (chars ">") (chars "++") v =
        rangeText (pystrip e) (pystrip s) (chars "1") ∧
       convertCppForToRange s e (chars ">") (chars "--") v =
        rangeText (pystrip e) (pystrip s) (chars "-1") ∧
       convertCppForToRange s e (chars ">") (chars "+=") v =
        rangeText (pystrip e) (pystrip s) v ∧
       convertCppForToRange s e (chars ">") (chars "-=") v =
        rangeText (pystrip e) (pystrip s) ('-' :: v)) ∧
      (convertJavaForToRange s e (chars "<=") (chars "++") v =
        convertCppForToRange s e (chars "<=") (chars "++") v ∧
       convertJavaForToRange s e (chars "<") (chars "-=") v =
        convertCppForToRange s e (chars "<") (chars "-=") v ∧
       convertJavaForToRange s e (chars ">=") (chars "+=") v =
        convertCppForToRange s e (chars ">=") (chars "+=") v ∧
       convertJavaForToRange s e (chars ">") (chars "--") v =
        convertCppForToRange s e (chars ">") (chars "--") v)) ∧
    (∀ line g, forHeaderMatch line = some g →
      g.2.2.1 = chars "<" ∨ g.2.2.1 = chars ">") := by
  constructor
  · intro s e v
    exact ⟨⟨rfl, rfl, rfl, rfl⟩, ⟨rfl, rfl, rfl, rfl⟩, ⟨rfl, rfl, rfl, rfl⟩,
      ⟨rfl, rfl, rfl, rfl⟩, ⟨rfl, rfl, rfl, rfl⟩⟩
  · exact forHeaderMatch_op

/-- C3, witness. -/
theorem C3_amended_witness :
    convertCppForToRange (chars "0") (chars "5") (chars "<=") (chars "++") (chars "") =
      rangeText (pystrip (chars "0")) (pystrip (chars "5") ++ chars " + 1") (chars "1") ∧
    ((chars "<" : Str) = chars "<" ∨ (chars "<" : Str) = chars ">") :=
  ⟨(C3_amended.1 (chars "0") (chars "5") (chars "")).1.1,
    C3_amended.2 (chars "for (int i = 0; i <= 5; i++) \x7b")
      (chars "i", chars "0", chars "<", chars "= 5", chars "++", chars "") rfl⟩

/-! ## Claim C2 — counted-loop sequence preservation -/

/-- A singleton pattern is an infix iff its character occurs. -/
lemma singleton_infix_iff (c : Char) (l : Str) : [c] <:+: l ↔ c ∈ l := by
  induction l with
  | nil => simp
  | cons d ds ih =>
    rw [List.infix_cons_iff, ih]
    constructor
    · rintro (hpre | hmem)
      · rcases hpre with ⟨t, ht⟩
        injection ht with h1 _
        simp [h1]
      · simp [hmem]
    · intro hmem
      rcases List.mem_cons.mp hmem with rfl | hmem
      · exact Or.inl ⟨ds, rfl⟩
      · exact Or.inr hmem

/-- Splitting the interior of a three-argument `range` descriptor on
commas. -/
lemma splitAll_range_args (A B K : Str) (hA : ',' ∉ A) (hB : ',' ∉ B)
    (hK : ',' ∉ K) :
    splitAllOn (chars ",") (A ++ chars ", " ++ B ++ chars ", " ++ K) =
      [A, ' ' :: B, ' ' :: K] := by
  have h1 : splitFirst (chars ",") (A ++ chars "," ++ (' ' :: (B ++ chars ", " ++ K))) =
      some (A, ' ' :: (B ++ chars ", " ++ K)) :=
    splitFirst_append (show (chars ",").head? = some ',' from rfl) A _ hA
  have h2 : splitFirst (chars ",") ((' ' :: B) ++ chars "," ++ (' ' :: K)) =
      some (' ' :: B, ' ' :: K) :=
    splitFirst_append (show (chars ",").head? = some ',' from rfl) (' ' :: B) _
      (by simp [hB])
  have h3 : splitFirst (chars ",") (' ' :: K) = none := by
    refine splitFirst_eq_none (by decide) _ ?_
    rw [show (chars "," : Str) = [','] from rfl, singleton_infix_iff]
    simp [hK]
  have hshape : A ++ chars ", " ++ B ++ chars ", " ++ K =
      A ++ chars "," ++ (' ' :: (B ++ chars ", " ++ K)) := by
    simp only [List.append_assoc]; rfl
  have hshape2 : ' ' :: (B ++ chars ", " ++ K) =
      (' ' :: B) ++ chars "," ++ (' ' :: K) := by
    simp only [List.cons_append, List.append_assoc]; rfl
  rw [splitAllOn, hshape]
  obtain ⟨m, hm⟩ : ∃ m, (A ++ chars "," ++ (' ' :: (B ++ chars ", " ++ K))).length + 1 =
      m + 1 := ⟨_, rfl⟩
  rw [hm, splitAllGo_of_some m h1]
  obtain ⟨m', hm'⟩ : ∃ m', m = m' + 1 := by
    refine ⟨m - 1, ?_⟩
    have h4 : (A ++ chars "," ++ (' ' :: (B ++ chars ", " ++ K))).length + 1 = m + 1 := hm
    simp [List.length_append] at h4
    omega
  rw [hm', hshape2]
  rw [splitAllGo_of_some m' h2]
  rw [splitAllGo_of_none m' h3]

/-- A nonempty digit string strips to itself. -/
lemma pystrip_digits {A : Str} (hA : isDigits A) : pystrip A = A :=
  pystrip_eq_self A (fun c hc => (digit_char_facts c (hA.2 c hc)).1)

/-- A space followed by a digit string strips to the digit string. -/
lemma pystrip_space_digits {A : Str} (hA : isDigits A) : pystrip (' ' :: A) = A := by
  have h1 : lstrip (' ' :: A) = lstrip A := by
    simp [lstrip, List.dropWhile_cons, show isPySpace ' ' = true from rfl]
  have h2 : lstrip A = A := by
    obtain ⟨c, A', rfl⟩ : ∃ c A', A = c :: A' := by
      cases A with
      | nil => exact absurd rfl hA.1
      | cons c A' => exact ⟨c, A', rfl⟩
    exact dropWhile_cons_of_neg A' (digit_char_facts c (hA.2 c (by simp))).1
  have h3 : pystrip (' ' :: A) = rstrip A := by rw [pystrip, h1, h2]
  rw [h3]
  have h4 := pystrip_digits hA
  rw [pystrip, h2] at h4
  exact h4

/-- No comma occurs in a digit string. -/
lemma comma_notMem_digits {A : Str} (hA : isDigits A) : ',' ∉ A := by
  intro hc
  exact absurd rfl (digit_char_facts ',' (hA.2 ',' hc)).2.2.1

/-- The visit sequence of the ascending counted loop
`for (i = a; i < b; i += s)` (with `s > 0`) is CPython's
`range(a, b, s)`. -/
lemma countedLoopSeq_eq_range (s : Int) (hs : 0 < s) :
    ∀ (N : Nat) (a b : Int) (F : Nat),
      ((b - a).toNat + (s.toNat - 1)) / s.toNat = N → N ≤ F →
      countedLoopSeq (fun i => decide (i < b)) s F a =
        (List.range N).map (fun (k : Nat) => a + s * (k : Int)) := by
  intro N
  induction N with
  | zero =>
    intro a b F hN _
    have ht : 1 ≤ s.toNat := by omega
    have hx : (b - a).toNat = 0 := by
      by_contra hx
      have h1 : 1 ≤ (b - a).toNat := Nat.one_le_iff_ne_zero.mpr hx
      have h2 : s.toNat ≤ (b - a).toNat + (s.toNat - 1) := by omega
      have := Nat.one_le_div_iff (by omega : 0 < s.toNat) |>.mpr h2
      omega
    have hab : ¬ (a < b) := by omega
    cases F with
    | zero => rfl
    | succ F' => simp [countedLoopSeq, hab]
  | succ N ih =>
    intro a b F hN hF
    have ht : 1 ≤ s.toNat := by omega
    have hx1 : 1 ≤ (b - a).toNat := by
      by_contra hx
      have hx0 : (b - a).toNat = 0 := by omega
      rw [hx0] at hN
      have : (0 + (s.toNat - 1)) / s.toNat = 0 := Nat.div_eq_of_lt (by omega)
      omega
    have hab : a < b := by omega
    obtain ⟨F', rfl⟩ : ∃ F', F = F' + 1 := ⟨F - 1, by omega⟩
    have hdivshape : (b - a).toNat + (s.toNat - 1) = ((b - a).toNat - 1) + s.toNat := by
      omega
    have hdiv : ((b - a).toNat - 1) / s.toNat = N := by
      rw [hdivshape, Nat.add_div_right _ (by omega)] at hN
      omega
    have harith : ((b - (a + s)).toNat + (s.toNat - 1)) / s.toNat = N := by
      by_cases hcase : s.toNat ≤ (b - a).toNat
      · have : (b - (a + s)).toNat = (b - a).toNat - s.toNat := by omega
        rw [this, show (b - a).toNat - s.toNat + (s.toNat - 1) = (b - a).toNat - 1 by omega]
        exact hdiv
      · have h0 : (b - (a + s)).toNat = 0 := by omega
        have hN0 : N = 0 := by
          rw [← hdiv]
          exact Nat.div_eq_of_lt (by omega)
        rw [h0, hN0]
        exact Nat.div_eq_of_lt (by omega)
    rw [countedLoopSeq]
    simp only [decide_eq_true hab, if_true]
    rw [ih (a + s) b F' harith (by omega)]
    rw [List.range_succ_eq_map, List.map_cons, List.map_map]
    congr 1
    · simp
    · refine List.map_congr_left (fun k _ => ?_)
      simp only [Function.comp]
      push_cast
      ring

/-- The Python generator re-expands a textual iterable descriptor
verbatim into a `for … in …:` header. -/
lemma pythonVisit_forLoop_inl (f : Nat) (it D : Str) :
    pythonVisit (f + 1) (.forLoop it (.inl D) []) =
      .ok (chars "for " ++ it ++ chars " in " ++ D ++ chars ":\n") := by
  have h : pythonVisit (f + 1) (.forLoop it (.inl D) []) =
      .ok (chars "for " ++ it ++ chars " in " ++ D ++ chars ":\n" ++ ([] : Str)) := rfl
  rw [h, List.append_nil]

/-- The Java generator re-expands a three-argument `range` descriptor with
digit-string arguments into its native counted-loop header
`for (int i = A; i < B; i += K)`. -/
lemma javaVisit_forLoop_range3 (f : Nat) (A B K : Str)
    (hA : isDigits A) (hB : isDigits B) (hK : isDigits K) :
    javaVisit (f + 1) 0 (.forLoop (chars "i") (.inl (rangeText A B K)) []) =
      mkIndent 0 ++ chars "for (int " ++ chars "i" ++ chars " = " ++ A ++
        chars "; " ++ chars "i" ++ chars " < " ++ B ++ chars "; " ++ chars "i" ++
        chars " += " ++ K ++ chars ") \x7b" ++ chars "\n" ++
        (mkIndent 1 ++ chars "// Empty body") ++ chars "\n" ++ mkIndent 0 ++
        chars "\x7d" := by
  have hstart : startsWith (chars "range(") (rangeText A B K) = true := by
    simp only [startsWith, decide_eq_true_eq, rangeText, List.append_assoc]
    exact List.prefix_append _ _
  have h6 : (rangeText A B K).drop 6 =
      A ++ chars ", " ++ B ++ chars ", " ++ K ++ chars ")" := by
    rw [rangeText]
    rw [show (chars "range(" ++ A ++ chars ", " ++ B ++ chars ", " ++ K ++
        chars ")" : Str) =
      chars "range(" ++ (A ++ chars ", " ++ B ++ chars ", " ++ K ++ chars ")") by
        simp [List.append_assoc]]
    rw [show (6 : Nat) = (chars "range(").length from rfl]
    rw [List.drop_left]
  have hdrop : ((rangeText A B K).drop 6).dropLast =
      A ++ chars ", " ++ B ++ chars ", " ++ K := by
    rw [h6]
    rw [show (A ++ chars ", " ++ B ++ chars ", " ++ K ++ chars ")" : Str) =
      (A ++ chars ", " ++ B ++ chars ", " ++ K) ++ [')'] by
        simp [List.append_assoc, show (chars ")" : Str) = [')'] from rfl]]
    exact List.dropLast_concat
  rw [javaVisit]
  simp only [hstart, if_true, hdrop,
    splitAll_range_args A B K (comma_notMem_digits hA) (comma_notMem_digits hB)
      (comma_notMem_digits hK),
    pystrip_digits hA, pystrip_space_digits hB, pystrip_space_digits hK]

/-- The ascending counted-loop visit sequence coincides with CPython's
`range` list. -/
lemma countedLoop_eq_pyRange (a b s : Int) (hs : 0 < s) (F : Nat)
    (hF : ((b - a).toNat + (s.toNat - 1)) / s.toNat ≤ F) :
    countedLoopSeq (fun i => decide (i < b)) s F a = pyRangeList a b s := by
  rw [countedLoopSeq_eq_range s hs _ a b F rfl hF]
  rw [pyRangeList]
  simp [hs]

/-- C2, counterexample.  The claim's concrete scenario requires the
one-line source `for (int i = 0; i <= 5; i++) { cout << i; }` to parse to
a `ForLoop` with descriptor equivalent to start 0, end 6, step 1 and body
`[Print(Variable "i")]`.  The C-style parser instead captures the ordered
alternation's `<` (folding `=` into the end text `= 5`), producing the
descriptor `range(0, = 5, 1)` whose end component is not a numeral, and
drops the one-line body (block extraction only scans following lines). -/
theorem C2_counterexample :
    parseCppStr (chars "for (int i = 0; i <= 5; i++) \x7b cout << i; \x7d") =
      .program [.forLoop (chars "i") (.inl (chars "range(0, = 5, 1)")) []] ∧
    Node.program [Node.forLoop (chars "i") (.inl (chars "range(0, = 5, 1)")) []] ≠
      Node.program [Node.forLoop (chars "i") (.inl (chars "range(0, 5 + 1, 1)"))
        [Node.print (Node.variable (chars "i"))]] ∧
    (chars "range(0, = 5, 1)" : Str) ≠ chars "range(0, 5 + 1, 1)" ∧
    numFullmatch (chars "= 5") = false :=
  ⟨rfl, by simp, by decide, rfl⟩

/-- C2, amended.  Headers whose comparison is written `<` with step `++`
or `+= K` (`K` a positive integer literal) produce the faithful descriptor
`range(A, B, 1)` / `range(A, B, K)`, the Python and Java generators
re-expand it into their native counted-loop syntax, and the re-expanded
loop visits exactly the original loop's ordered value sequence (both equal
CPython's `range` list; the Java re-expansion keeps condition `i < B` and
step `i += K`, the same condition and step as the original header).
Headers written with `<=` or `>=` are mis-captured (the `=` folds into the
end text — conjuncts one and two), their descriptors are not counted-loop
triples, and their Java re-expansion is not a well-formed loop header
(conjunct three); `>`-headers swap the bounds without reversing the
direction of travel (see the C3 theorems), so none of those preserve the
visit sequence. -/
theorem C2_amended :
    parseCppStr (chars "for (int i = 0; i <= 5; i++) \x7b cout << i; \x7d") =
      .program [.forLoop (chars "i") (.inl (chars "range(0, = 5, 1)")) []] ∧
    parseCppStr (chars "for (int i = 5; i >= 0; i--) \x7b") =
      .program [.forLoop (chars "i") (.inl (chars "range(= 0, 5, -1)")) []] ∧
    javaVisit 9 0 (.forLoop (chars "i") (.inl (chars "range(= 0, 5, -1)")) []) =
      chars "for (int i = = 0; i < 5; i += -1) \x7b\n    // Empty body\n\x7d" ∧
    (∀ A B : Str, isDigits A → isDigits B → ∀ f : Nat,
      convertCppForToRange A B (chars "<") (chars "++") [] =
        rangeText A B (chars "1") ∧
      convertJavaForToRange A B (chars "<") (chars "++") [] =
        rangeText A B (chars "1") ∧
      pythonVisit (f + 1) (.forLoop (chars "i") (.inl (rangeText A B (chars "1"))) []) =
        .ok (chars "for " ++ chars "i" ++ chars " in " ++ rangeText A B (chars "1") ++
          chars ":\n") ∧
      javaVisit (f + 1) 0 (.forLoop (chars "i") (.inl (rangeText A B (chars "1"))) []) =
        mkIndent 0 ++ chars "for (int " ++ chars "i" ++ chars " = " ++ A ++
          chars "; " ++ chars "i" ++ chars " < " ++ B ++ chars "; " ++ chars "i" ++
          chars " += " ++ chars "1" ++ chars ") \x7b" ++ chars "\n" ++
          (mkIndent 1 ++ chars "// Empty body") ++ chars "\n" ++ mkIndent 0 ++
          chars "\x7d" ∧
      (∀ F : Nat,
        ((natOfDigits B : Int) - (natOfDigits A : Int)).toNat ≤ F →
        countedLoopSeq (fun i => decide (i < (natOfDigits B : Int))) 1 F
            (natOfDigits A : Int) =
          pyRangeList (natOfDigits A : Int) (natOfDigits B : Int) 1)) ∧
    (∀ A B K : Str, isDigits A → isDigits B → isDigits K →
      convertCppForToRange A B (chars "<") (chars "+=") K =
        rangeText A B K ∧
      convertJavaForToRange A B (chars "<") (chars "+=") K =
        rangeText A B K ∧
      (∀ f : Nat,
        javaVisit (f + 1) 0 (.forLoop (chars "i") (.inl (rangeText A B K)) []) =
          mkIndent 0 ++ chars "for (int " ++ chars "i" ++ chars " = " ++ A ++
            chars "; " ++ chars "i" ++ chars " < " ++ B ++ chars "; " ++ chars "i" ++
            chars " += " ++ K ++ chars ") \x7b" ++ chars "\n" ++
            (mkIndent 1 ++ chars "// Empty body") ++ chars "\n" ++ mkIndent 0 ++
            chars "\x7d") ∧
      (0 < natOfDigits K →
        ∀ F : Nat,
        (((natOfDigits B : Int) - (natOfDigits A : Int)).toNat +
          (natOfDigits K - 1)) / natOfDigits K ≤ F →
        countedLoopSeq (fun i => decide (i < (natOfDigits B : Int)))
            (natOfDigits K : Int) F (natOfDigits A : Int) =
          pyRangeList (natOfDigits A : Int) (natOfDigits B : Int)
            (natOfDigits K : Int))) := by
  refine ⟨rfl, rfl, rfl, ?_, ?_⟩
  · intro A B hA hB f
    refine ⟨?_, ?_, pythonVisit_forLoop_inl f (chars "i") _, ?_, ?_⟩
    · show rangeText (pystrip A) (pystrip B) (chars "1") = _
      rw [pystrip_digits hA, pystrip_digits hB]
    · show rangeText (pystrip A) (pystrip B) (chars "1") = _
      rw [pystrip_digits hA, pystrip_digits hB]
    · exact javaVisit_forLoop_range3 f A B (chars "1") hA hB (by decide)
    · intro F hF
      refine countedLoop_eq_pyRange _ _ 1 (by decide) F ?_
      simpa using hF
  · intro A B K hA hB hK
    refine ⟨?_, ?_, fun f => javaVisit_forLoop_range3 f A B K hA hB hK, ?_⟩
    · show rangeText (pystrip A) (pystrip B) K = _
      rw [pystrip_digits hA, pystrip_digits hB]
    · show rangeText (pystrip A) (pystrip B) K = _
      rw [pystrip_digits hA, pystrip_digits hB]
    · intro hKpos F hF
      refine countedLoop_eq_pyRange _ _ _ (by exact_mod_cast hKpos) F ?_
      simpa using hF

/-- C2, witness. -/
theorem C2_amended_witness :
    convertCppForToRange (chars "0") (chars "7") (chars "<") (chars "++") [] =
      rangeText (chars "0") (chars "7") (chars "1") ∧
    countedLoopSeq (fun i => decide (i < (natOfDigits (chars "7") : Int))) 1 12
        (natOfDigits (chars "0") : Int) =
      pyRangeList (natOfDigits (chars "0") : Int) (natOfDigits (chars "7") : Int) 1 ∧
    convertCppForToRange (chars "2") (chars "9") (chars "<") (chars "+=") (chars "3") =
      rangeText (chars "2") (chars "9") (chars "3") := by
  have h4 := C2_amended.2.2.2.1 (chars "0") (chars "7")
    (by decide) (by decide) 0
  have h5 := C2_amended.2.2.2.2 (chars "2") (chars "9") (chars "3")
    (by decide) (by decide) (by decide)
  exact ⟨h4.1, h4.2.2.2.2 12 (by decide), h5.1⟩

/-! ## Claim C9 — string-literal escape handling -/

/-- Modelled from the spec's words, for comparison with the code's
sequential replacement: a single left-to-right scan over the literal's
interior that resolves each of the escape sequences backslash-quote,
backslash-n, backslash-t and backslash-backslash to one character and
copies everything else verbatim. -/
def specUnescape : Str → Str
  | [] => []
  | [c] => [c]
  | c :: d :: rest =>
    if c = '\\' then
      if d = '"' then '"' :: specUnescape rest
      else if d = 'n' then '\n' :: specUnescape rest
      else if d = 't' then '\t' :: specUnescape rest
      else if d = '\\' then '\\' :: specUnescape rest
      else '\\' :: d :: specUnescape rest
    else c :: specUnescape (d :: rest)

lemma replacePair_cons_ne {a b : Char} {rep : Str} {c : Char} (l : Str) (hc : c ≠ a) :
    replacePair a b rep (c :: l) = c :: replacePair a b rep l := by
  cases l with
  | nil => rfl
  | cons d l2 =>
    simp only [replacePair]
    rw [if_neg (fun h => hc h.1)]

lemma replacePair_cons2_ne {a b : Char} {rep : Str} {c d : Char} (l : Str)
    (h : ¬ (c = a ∧ d = b)) :
    replacePair a b rep (c :: d :: l) = c :: replacePair a b rep (d :: l) := by
  simp only [replacePair]
  rw [if_neg h]

lemma replacePair_hit {a b : Char} {rep : Str} (l : Str) :
    replacePair a b rep (a :: b :: l) = rep ++ replacePair a b rep l := by
  simp only [replacePair, and_self, if_true]

lemma cppUnescape_single (c : Char) : cppUnescape [c] = [c] := rfl

lemma cppUnescape_cons_ne {c : Char} (l : Str) (hc : c ≠ '\\') :
    cppUnescape (c :: l) = c :: cppUnescape l := by
  unfold cppUnescape
  rw [replacePair_cons_ne _ hc, replacePair_cons_ne _ hc,
      replacePair_cons_ne _ hc, replacePair_cons_ne _ hc]

lemma cppUnescape_quote (l : Str) :
    cppUnescape ('\\' :: '"' :: l) = '"' :: cppUnescape l := by
  unfold cppUnescape
  rw [replacePair_hit]
  simp only [show (chars "\"" : Str) = ['"'] from rfl, List.singleton_append]
  rw [replacePair_cons_ne _ (show ('"' : Char) ≠ '\\' from by decide),
      replacePair_cons_ne _ (show ('"' : Char) ≠ '\\' from by decide),
      replacePair_cons_ne _ (show ('"' : Char) ≠ '\\' from by decide)]

lemma cppUnescape_newline (l : Str) :
    cppUnescape ('\\' :: 'n' :: l) = '\n' :: cppUnescape l := by
  unfold cppUnescape
  rw [replacePair_cons2_ne _ (show ¬ (('\\' : Char) = '\\' ∧ ('n' : Char) = '"') from by decide)]
  rw [replacePair_cons_ne _ (show ('n' : Char) ≠ '\\' from by decide)]
  rw [replacePair_hit]
  simp only [show (chars "\n" : Str) = ['\n'] from rfl, List.singleton_append]
  rw [replacePair_cons_ne _ (show ('\n' : Char) ≠ '\\' from by decide),
      replacePair_cons_ne _ (show ('\n' : Char) ≠ '\\' from by decide)]

lemma cppUnescape_tab (l : Str) :
    cppUnescape ('\\' :: 't' :: l) = '\t' :: cppUnescape l := by
  unfold cppUnescape
  rw [replacePair_cons2_ne _ (show ¬ (('\\' : Char) = '\\' ∧ ('t' : Char) = '"') from by decide)]
  rw [replacePair_cons_ne _ (show ('t' : Char) ≠ '\\' from by decide)]
  rw [replacePair_cons2_ne _ (show ¬ (('\\' : Char) = '\\' ∧ ('t' : Char) = 'n') from by decide)]
  rw [replacePair_cons_ne _ (show ('t' : Char) ≠ '\\' from by decide)]
  rw [replacePair_hit]
  simp only [show (chars "\t" : Str) = ['\t'] from rfl, List.singleton_append]
  rw [replacePair_cons_ne _ (show ('\t' : Char) ≠ '\\' from by decide)]

lemma cppUnescape_escOther {d : Char} (l : Str) (h1 : d ≠ '"') (h2 : d ≠ 'n')
    (h3 : d ≠ 't') (h4 : d ≠ '\\') :
    cppUnescape ('\\' :: d :: l) = '\\' :: d :: cppUnescape l := by
  unfold cppUnescape
  rw [replacePair_cons2_ne _ (fun h => h1 h.2)]
  rw [replacePair_cons_ne _ h4]
  rw [replacePair_cons2_ne _ (fun h => h2 h.2)]
  rw [replacePair_cons_ne _ h4]
  rw [replacePair_cons2_ne _ (fun h => h3 h.2)]
  rw [replacePair_cons_ne _ h4]
  rw [replacePair_cons2_ne _ (fun h => h4 h.2)]
  rw [replacePair_cons_ne _ h4]

lemma specUnescape_single (c : Char) : specUnescape [c] = [c] := rfl

lemma specUnescape_cons_ne {c : Char} (l : Str) (hc : c ≠ '\\') :
    specUnescape (c :: l) = c :: specUnescape l := by
  cases l with
  | nil => rfl
  | cons d l2 =>
    simp only [specUnescape]
    rw [if_neg hc]

lemma specUnescape_quote (l : Str) :
    specUnescape ('\\' :: '"' :: l) = '"' :: specUnescape l := rfl

lemma specUnescape_newline (l : Str) :
    specUnescape ('\\' :: 'n' :: l) = '\n' :: specUnescape l := rfl

lemma specUnescape_tab (l : Str) :
    specUnescape ('\\' :: 't' :: l) = '\t' :: specUnescape l := rfl

lemma specUnescape_escOther {d : Char} (l : Str) (h1 : d ≠ '"') (h2 : d ≠ 'n')
    (h3 : d ≠ 't') (h4 : d ≠ '\\') :
    specUnescape ('\\' :: d :: l) = '\\' :: d :: specUnescape l := by
  simp only [specUnescape]
  rw [if_pos trivial, if_neg h1, if_neg h2, if_neg h3, if_neg h4]

/-- On interiors free of the double-backslash escape, the four sequential
replaces of `_parse_string_literal` agree with single-pass left-to-right
escape resolution. -/
lemma cppUnescape_eq_specUnescape :
    ∀ (n : Nat) (content : Str), content.length ≤ n →
      ¬ (chars "\\\\") <:+: content →
      cppUnescape content = specUnescape content := by
  intro n
  induction n with
  | zero =>
    intro content hlen _
    have : content = [] := List.eq_nil_of_length_eq_zero (Nat.le_zero.mp hlen)
    subst this; rfl
  | succ n ih =>
    intro content hlen hinf
    match content with
    | [] => rfl
    | [c] => rw [cppUnescape_single, specUnescape_single]
    | c :: d :: rest =>
      by_cases hc : c = '\\'
      · subst hc
        have hrest : ¬ (chars "\\\\") <:+: rest :=
          fun h => hinf (List.infix_cons (List.infix_cons h))
        have hlen2 : rest.length ≤ n := by
          simp only [List.length_cons] at hlen; omega
        by_cases hd1 : d = '"'
        · subst hd1
          rw [cppUnescape_quote, specUnescape_quote, ih rest hlen2 hrest]
        by_cases hd2 : d = 'n'
        · subst hd2
          rw [cppUnescape_newline, specUnescape_newline, ih rest hlen2 hrest]
        by_cases hd3 : d = 't'
        · subst hd3
          rw [cppUnescape_tab, specUnescape_tab, ih rest hlen2 hrest]
        by_cases hd4 : d = '\\'
        · subst hd4
          exact absurd (List.IsPrefix.isInfix ⟨rest, rfl⟩) hinf
        · rw [cppUnescape_escOther rest hd1 hd2 hd3 hd4,
              specUnescape_escOther rest hd1 hd2 hd3 hd4,
              ih rest hlen2 hrest]
      · have htail : ¬ (chars "\\\\") <:+: d :: rest :=
          fun h => hinf (List.infix_cons h)
        have hlen2 : (d :: rest).length ≤ n := by
          simp only [List.length_cons] at hlen ⊢; omega
        rw [cppUnescape_cons_ne _ hc, specUnescape_cons_ne _ hc,
            ih (d :: rest) hlen2 htail]

lemma startsWith_quote (content : Str) :
    startsWith (chars "\"") ('"' :: content ++ ['"']) = true :=
  decide_eq_true ⟨content ++ ['"'], rfl⟩

lemma endsWith_quote (content : Str) :
    endsWith (chars "\"") ('"' :: content ++ ['"']) = true :=
  decide_eq_true ⟨'"' :: content, rfl⟩

lemma pystrip_quoted (content : Str) :
    pystrip ('"' :: content ++ ['"']) = '"' :: content ++ ['"'] := by
  have h1 : lstrip ('"' :: content ++ ['"']) = '"' :: content ++ ['"'] :=
    dropWhile_cons_of_neg _ (by decide)
  have hr : ('"' :: content ++ ['"']).reverse = '"' :: ('"' :: content).reverse := by
    rw [show ('"' :: content ++ ['"'] : Str) = ('"' :: content) ++ ['"'] from rfl,
        List.reverse_append]
    rfl
  have h2 : rstrip ('"' :: content ++ ['"']) = '"' :: content ++ ['"'] := by
    unfold rstrip
    rw [hr, dropWhile_cons_of_neg _ (by decide), ← hr, List.reverse_reverse]
  rw [pystrip, h1, h2]

lemma parseStringLiteralCpp_quoted (content : Str) :
    parseStringLiteralCpp ('"' :: content ++ ['"']) = cppUnescape content := by
  unfold parseStringLiteralCpp
  rw [if_pos ⟨startsWith_quote content, endsWith_quote content⟩]
  have hdrop : (('"' :: content ++ ['"']).drop 1).dropLast = content :=
    List.dropLast_concat
  rw [hdrop]

lemma powMatchWith_ne_head {callee : Str} {c0 : Char} (hc : callee.head? = some c0)
    (c : Char) (l : Str) (hne : c ≠ c0) : powMatchWith callee (c :: l) = none := by
  unfold powMatchWith
  rw [if_neg]
  rintro ⟨t, ht⟩
  cases callee with
  | nil => simp at hc
  | cons k ks =>
    injection hc with hk
    injection ht with h1 _
    exact hne (by rw [← h1, hk])

lemma exprAtom_quoted_cpp (content : Str) :
    exprAtom .cpp ('"' :: content ++ ['"']) = .stringLit (cppUnescape content) := by
  unfold exprAtom
  simp only [startsWith_quote, endsWith_quote, Bool.and_self, if_true]
  rw [parseStringLiteralCpp_quoted]

lemma exprAtom_quoted_verbatim (lang : Lang) (hl : lang ≠ .cpp) (content : Str) :
    exprAtom lang ('"' :: content ++ ['"']) = .stringLit content := by
  unfold exprAtom
  cases lang with
  | cpp => exact absurd rfl hl
  | python =>
    simp only [startsWith_quote, endsWith_quote, Bool.and_self, Bool.true_or, if_true]
    exact congrArg Node.stringLit List.dropLast_concat
  | java =>
    simp only [startsWith_quote, endsWith_quote, Bool.and_self, Bool.true_or, if_true]
    exact congrArg Node.stringLit List.dropLast_concat

lemma parseExpr_quoted (lang : Lang) (f : Nat) (content : Str)
    (hcmp : findCmp cmpOps ('"' :: content ++ ['"']) = none)
    (hplus : containsSub (chars " + ") ('"' :: content ++ ['"']) = false) :
    parseExpr lang (f + 1) ('"' :: content ++ ['"']) =
      exprAtom lang ('"' :: content ++ ['"']) := by
  have hpow : powMatchWith (powCallee lang) ('"' :: content ++ ['"']) = none := by
    cases lang with
    | python =>
      exact powMatchWith_ne_head
        (show (powCallee Lang.python).head? = some 'p' from rfl)
        '"' (content ++ ['"']) (by decide)
    | java =>
      exact powMatchWith_ne_head
        (show (powCallee Lang.java).head? = some 'M' from rfl)
        '"' (content ++ ['"']) (by decide)
    | cpp =>
      exact powMatchWith_ne_head
        (show (powCallee Lang.cpp).head? = some 'p' from rfl)
        '"' (content ++ ['"']) (by decide)
  have hfalse : ¬ (containsSub (chars " + ") ('"' :: content ++ ['"']) = true ∧
      ¬ startsWith (powHead lang) ('"' :: content ++ ['"']) = true) := by
    rw [hplus]
    rintro ⟨h, -⟩
    exact Bool.false_ne_true h
  simp only [parseExpr, pystrip_quoted, hcmp, hpow, if_neg hfalse]

/-- C9, counterexample.  The claim says the C-style front end resolves the
escapes; but the sequential `str.replace` chain re-examines replacement
output: the interior backslash-backslash-n (a backslash escape followed by
a plain n) comes out as backslash-newline, where genuine escape resolution
(a single left-to-right scan) yields backslash-n. -/
theorem C9_counterexample :
    parseExpr .cpp 10 (chars "\"\\\\n\"") = .stringLit ['\\', '\n'] ∧
    specUnescape (chars "\\\\n") = ['\\', 'n'] ∧
    (['\\', '\n'] : Str) ≠ (['\\', 'n'] : Str) :=
  ⟨rfl, rfl, by decide⟩

/-- C9, amended: on interiors without the double-backslash escape the
sequential replaces equal genuine escape resolution; a quoted fragment
(no comparison, no plus split) parses to a StringLiteral in all three
front ends — unescaped in the C-style one, verbatim in the other two —
and the concrete escaped-quote-and-newline literal resolves both escapes. -/
theorem C9_amended :
    (∀ content : Str, ¬ (chars "\\\\") <:+: content →
        cppUnescape content = specUnescape content) ∧
    (∀ (f : Nat) (content : Str),
        findCmp cmpOps ('"' :: content ++ ['"']) = none →
        containsSub (chars " + ") ('"' :: content ++ ['"']) = false →
        parseExpr .cpp (f + 1) ('"' :: content ++ ['"']) =
            .stringLit (cppUnescape content) ∧
          parseExpr .python (f + 1) ('"' :: content ++ ['"']) =
            .stringLit content ∧
          parseExpr .java (f + 1) ('"' :: content ++ ['"']) =
            .stringLit content) ∧
    parseExpr .cpp 9 (chars "\"a\\\"b\\nc\"") = .stringLit (chars "a\"b\nc") := by
  refine ⟨fun content h => cppUnescape_eq_specUnescape content.length content le_rfl h,
    fun f content hcmp hplus => ?_, rfl⟩
  refine ⟨?_, ?_, ?_⟩
  · rw [parseExpr_quoted .cpp f content hcmp hplus, exprAtom_quoted_cpp]
  · rw [parseExpr_quoted .python f content hcmp hplus,
        exprAtom_quoted_verbatim .python (by decide) content]
  · rw [parseExpr_quoted .java f content hcmp hplus,
        exprAtom_quoted_verbatim .java (by decide) content]

/-- C9, witness for the amended theorem's hypothesized parts. -/
theorem C9_amended_witness :
    cppUnescape (chars "a\\nb") = specUnescape (chars "a\\nb") ∧
    parseExpr .cpp 9 (chars "\"a\\\"b\\nc\"") =
      .stringLit (cppUnescape (chars "a\\\"b\\nc")) := by
  constructor
  · exact C9_amended.1 (chars "a\\nb") (by decide)
  · exact (C9_amended.2.1 8 (chars "a\\\"b\\nc") (by decide) (by decide)).1

/-! ## Claim C10 — function-call pattern priority in the Python parser -/

lemma wordChar_facts (c : Char) (h : isWordChar c = true) :
    isPySpace c = false ∧ c ≠ '#' ∧ c ≠ '\n' ∧ c ≠ '(' := by
  refine ⟨?_, ?_, ?_, ?_⟩
  · by_contra hc
    rw [Bool.not_eq_false] at hc
    simp only [isPySpace, Bool.or_eq_true, beq_iff_eq] at hc
    rcases hc with ((((rfl | rfl) | rfl) | rfl) | rfl) | rfl <;>
      exact absurd h (by decide)
  all_goals rintro rfl <;> exact absurd h (by decide)

/-- `pystrip` fixes a string whose two boundary characters are
non-whitespace. -/
lemma pystrip_boundary {c d : Char} (mid : Str) (hc : isPySpace c = false)
    (hd : isPySpace d = false) : pystrip (c :: mid ++ [d]) = c :: mid ++ [d] := by
  have h1 : lstrip (c :: mid ++ [d]) = c :: mid ++ [d] :=
    dropWhile_cons_of_neg _ hc
  have hr : (c :: mid ++ [d]).reverse = d :: (c :: mid).reverse := by
    rw [List.reverse_append]
    rfl
  have h2 : rstrip (c :: mid ++ [d]) = c :: mid ++ [d] := by
    unfold rstrip
    rw [hr, dropWhile_cons_of_neg _ hd, ← hr, List.reverse_reverse]
  rw [pystrip, h1, h2]

/-- `splitLines` of a newline-free string. -/
lemma splitLines_single (l : Str) (h : '\n' ∉ l) : splitLines l = [l] := by
  induction l with
  | nil => rfl
  | cons c cs ih =>
    simp only [splitLines]
    rw [ih (fun hm => h (List.mem_cons_of_mem c hm)),
        if_neg (fun hc => h (by rw [← hc]; exact List.mem_cons_self c cs))]

/-- `FUNCTION_CALL_REGEX` on a line of the shape `name(args)…`: the word
prefix is captured, then everything up to the first `)`. -/
lemma pyFuncCallMatch_line (name args tail : Str) (hne : name ≠ [])
    (hname : ∀ c ∈ name, isWordChar c = true) (hargs : ')' ∉ args) :
    pyFuncCallMatch (name ++ ('(' :: args ++ ')' :: tail)) = some (name, args) := by
  have ht : takeWord (name ++ ('(' :: args ++ ')' :: tail))
      = (name, '(' :: (args ++ ')' :: tail)) := by
    unfold takeWord
    rw [takeWhile_append_all name _ hname, dropWhile_append_all name _ hname,
        List.cons_append,
        takeWhile_cons_of_neg _ (show isWordChar '(' = false from by decide),
        dropWhile_cons_of_neg _ (show isWordChar '(' = false from by decide),
        List.append_nil]
  unfold pyFuncCallMatch
  rw [ht]
  simp only [if_neg hne]
  rw [skipWs_eq_self _ (by decide)]
  simp only [expectChar, if_pos]
  rw [show (args ++ ')' :: tail : Str) = args ++ [')'] ++ tail from by simp,
      splitFirst_append (show ([')'] : Str).head? = some ')' from rfl) args tail hargs]

/-- A one-line program of the shape `name(args)` parses to a single
Function node with the comma-split, stripped argument texts and an empty
body. -/
lemma parsePyStr_funcLine (name args : Str) (hne : name ≠ [])
    (hname : ∀ c ∈ name, isWordChar c = true) (hargs : ')' ∉ args)
    (hnl : '\n' ∉ args) :
    parsePyStr (name ++ ('(' :: args ++ [')'])) =
      .program [.function name (splitCallArgs args) []] := by
  obtain ⟨c, name2, rfl⟩ : ∃ c name2, name = c :: name2 := by
    cases name with
    | nil => exact absurd rfl hne
    | cons c name2 => exact ⟨c, name2, rfl⟩
  have hcw := hname c (by simp)
  have hshape : ((c :: name2) ++ ('(' :: args ++ [')']) : Str)
      = c :: (name2 ++ '(' :: args) ++ [')'] := by
    simp [List.append_assoc]
  have hstrip : pystrip ((c :: name2) ++ ('(' :: args ++ [')']))
      = (c :: name2) ++ ('(' :: args ++ [')']) := by
    rw [hshape]
    exact pystrip_boundary _ (wordChar_facts c hcw).1 (by decide)
  have hnlLine : '\n' ∉ (c :: name2) ++ ('(' :: args ++ [')']) := by
    intro hm
    rcases List.mem_append.mp hm with hm1 | hm2
    · exact absurd (hname '\n' hm1) (by decide)
    · rcases List.mem_append.mp hm2 with hm3 | hm5
      · rcases List.mem_cons.mp hm3 with he | hm4
        · exact absurd he (by decide)
        · exact hnl hm4
      · exact absurd (List.mem_singleton.mp hm5) (by decide)
  have hcond : ¬ ((c :: name2) ++ ('(' :: args ++ [')']) = ([] : Str) ∨
      ((c :: name2) ++ ('(' :: args ++ [')'])).head? = some '#') := by
    rintro (he | hh)
    · simp at he
    · rw [List.cons_append, List.head?_cons] at hh
      injection hh with hh
      exact absurd (hh ▸ hcw) (by decide)
  unfold parsePyStr
  rw [hstrip, splitLines_single _ hnlLine]
  simp only [List.length_cons, List.length_nil]
  rw [parsePyGo]
  rw [hstrip]
  rw [if_neg hcond]
  rw [pyFuncCallMatch_line (c :: name2) args [] hne hname hargs]
  rw [parsePyGo]

/-- C10: the indentation-language parser tries the function-call pattern
before every other statement pattern, so a line of the shape `name(args)…`
matches it (first conjunct, any tail after the closing parenthesis), a
one-line program `name(args)` parses to a Function node with the stripped
comma-split argument texts and an empty body (second conjunct), and in
particular `print(x + y)` becomes a Function node named `print` — not a
Print or FunctionCall node (third conjunct). -/
theorem C10 :
    (∀ name args tail : Str, name ≠ [] → (∀ c ∈ name, isWordChar c = true) →
      ')' ∉ args →
      pyFuncCallMatch (name ++ ('(' :: args ++ ')' :: tail)) = some (name, args)) ∧
    (∀ name args : Str, name ≠ [] → (∀ c ∈ name, isWordChar c = true) →
      ')' ∉ args → '\n' ∉ args →
      parsePyStr (name ++ ('(' :: args ++ [')'])) =
        .program [.function name (splitCallArgs args) []]) ∧
    parsePyStr (chars "print(x + y)") =
      .program [.function (chars "print") [chars "x + y"] []] :=
  ⟨pyFuncCallMatch_line, parsePyStr_funcLine, rfl⟩

/-- C10, witness: the matcher conjunct on a line with a tail after the
closing parenthesis, and the parse conjunct at `foo(a, b)`. -/
theorem C10_witness :
    pyFuncCallMatch (chars "print" ++ ('(' :: chars "x + y" ++ ')' :: chars " = 3"))
      = some (chars "print", chars "x + y") ∧
    parsePyStr (chars "foo" ++ ('(' :: chars "a, b" ++ [')'])) =
      .program [.function (chars "foo") (splitCallArgs (chars "a, b")) []] := by
  constructor
  · exact C10.1 (chars "print") (chars "x + y") (chars " = 3")
      (by decide) (by decide) (by decide)
  · exact C10.2.1 (chars "foo") (chars "a, b")
      (by decide) (by decide) (by decide) (by decide)

/-! ## Claim C6 — parser totality, silent drops, Variable fallback -/

/-- The Python statement loop drops a line on which every statement
matcher fails (blank and comment lines are likewise consumed). -/
lemma parsePyGo_drop (f : Nat) (l : Str) (rest : List Str)
    (h1 : pyFuncCallMatch (pystrip l) = none)
    (h2 : plainAssignMatch (pystrip l) = none)
    (h3 : pyFuncDefMatch (pystrip l) = none)
    (h4 : pyForMatch (pystrip l) = none)
    (h5 : pyWhileMatch (pystrip l) = none)
    (h6 : pyPrintMatch (pystrip l) = none) :
    parsePyGo (f + 1) (l :: rest) = parsePyGo f rest := by
  rw [parsePyGo]
  by_cases hc : pystrip l = [] ∨ (pystrip l).head? = some '#'
  · rw [if_pos hc]
  · rw [if_neg hc, h1, h2, h3, h4, h5, h6]

/-- The C++ statement loop drops a line on which every statement matcher
fails. -/
lemma parseCppGo_drop (f : Nat) (l : Str) (rest : List Str)
    (h1 : cppAssignMatch (pystrip l) = none)
    (h2 : cppFuncDefMatch (pystrip l) = none)
    (h3 : forHeaderMatch (pystrip l) = none)
    (h4 : cppWhileMatch (pystrip l) = none)
    (h5 : cppPrintMatch (pystrip l) = none) :
    parseCppGo (f + 1) (l :: rest) = parseCppGo f rest := by
  rw [parseCppGo]
  by_cases hc : pystrip l = [] ∨ chars "//" <+: pystrip l
  · rw [if_pos hc]
  · rw [if_neg hc]
    by_cases hd : chars "#include" <+: pystrip l ∨ chars "using namespace" <+: pystrip l
    · rw [if_pos hd]
    · rw [if_neg hd, h1, h2, h3, h4, h5]

/-- The Java statement loop drops a line on which every statement matcher
fails. -/
lemma parseJavaGo_drop (f : Nat) (l : Str) (rest : List Str)
    (h1 : cppAssignMatch (pystrip l) = none)
    (h2 : javaFuncDefMatch (pystrip l) = none)
    (h3 : forHeaderMatch (pystrip l) = none)
    (h4 : cppWhileMatch (pystrip l) = none)
    (h5 : javaPrintMatch (pystrip l) = none) :
    parseJavaGo (f + 1) (l :: rest) = parseJavaGo f rest := by
  rw [parseJavaGo]
  by_cases hc : pystrip l = [] ∨ chars "//" <+: pystrip l
  · rw [if_pos hc]
  · rw [if_neg hc, h1, h2, h3, h4, h5]

/-- `_parse_expression` falls back to a VariableNode wrapping the stripped
fragment when every sub-pattern fails. -/
lemma parseExpr_fallback (lang : Lang) (f : Nat) (s : Str)
    (hcmp : findCmp cmpOps (pystrip s) = none)
    (hpow : powMatchWith (powCallee lang) (pystrip s) = none)
    (hplus : containsSub (chars " + ") (pystrip s) = false)
    (hdq : startsWith (chars "\"") (pystrip s) = false)
    (hsq : startsWith (chars "'") (pystrip s) = false)
    (hnum : numFullmatch (pystrip s) = false)
    (hid : identFullmatch (pystrip s) = false) :
    parseExpr lang (f + 1) s = .variable (pystrip s) := by
  have hfalse : ¬ (containsSub (chars " + ") (pystrip s) = true ∧
      ¬ startsWith (powHead lang) (pystrip s) = true) := by
    rw [hplus]
    rintro ⟨h, -⟩
    exact Bool.false_ne_true h
  simp only [parseExpr, hcmp, hpow]
  rw [if_neg hfalse]
  show exprAtom lang (pystrip s) = .variable (pystrip s)
  unfold exprAtom
  cases lang with
  | cpp =>
    rw [hdq]
    simp only [Bool.false_and]
    rw [if_neg Bool.false_ne_true, hnum, if_neg Bool.false_ne_true,
        hid, if_neg Bool.false_ne_true]
  | python =>
    rw [hdq, hsq]
    simp only [Bool.false_and, Bool.or_self]
    rw [if_neg Bool.false_ne_true, hnum, if_neg Bool.false_ne_true,
        hid, if_neg Bool.false_ne_true]
  | java =>
    rw [hdq, hsq]
    simp only [Bool.false_and, Bool.or_self]
    rw [if_neg Bool.false_ne_true, hnum, if_neg Bool.false_ne_true,
        hid, if_neg Bool.false_ne_true]

/-- C6: each parser is total — it returns a Program node on every input
(first conjunct); a line on which every statement matcher fails is
silently dropped by each of the three statement loops (next three
conjuncts, stated on the loops with the matcher failures as hypotheses);
and an expression fragment matching no sub-pattern becomes a Variable
node wrapping the fragment text (stripped, as `_parse_expression` strips
before matching) verbatim (last conjunct). -/
theorem C6 :
    (∀ s : Str, (∃ a, parsePyStr s = .program a) ∧
      (∃ b, parseCppStr s = .program b) ∧ (∃ c, parseJavaStr s = .program c)) ∧
    (∀ (f : Nat) (l : Str) (rest : List Str),
      pyFuncCallMatch (pystrip l) = none ∧ plainAssignMatch (pystrip l) = none ∧
        pyFuncDefMatch (pystrip l) = none ∧ pyForMatch (pystrip l) = none ∧
        pyWhileMatch (pystrip l) = none ∧ pyPrintMatch (pystrip l) = none →
      parsePyGo (f + 1) (l :: rest) = parsePyGo f rest) ∧
    (∀ (f : Nat) (l : Str) (rest : List Str),
      cppAssignMatch (pystrip l) = none ∧ cppFuncDefMatch (pystrip l) = none ∧
        forHeaderMatch (pystrip l) = none ∧ cppWhileMatch (pystrip l) = none ∧
        cppPrintMatch (pystrip l) = none →
      parseCppGo (f + 1) (l :: rest) = parseCppGo f rest) ∧
    (∀ (f : Nat) (l : Str) (rest : List Str),
      cppAssignMatch (pystrip l) = none ∧ javaFuncDefMatch (pystrip l) = none ∧
        forHeaderMatch (pystrip l) = none ∧ cppWhileMatch (pystrip l) = none ∧
        javaPrintMatch (pystrip l) = none →
      parseJavaGo (f + 1) (l :: rest) = parseJavaGo f rest) ∧
    (∀ (lang : Lang) (f : Nat) (s : Str),
      findCmp cmpOps (pystrip s) = none ∧
        powMatchWith (powCallee lang) (pystrip s) = none ∧
        containsSub (chars " + ") (pystrip s) = false ∧
        startsWith (chars "\"") (pystrip s) = false ∧
        startsWith (chars "'") (pystrip s) = false ∧
        numFullmatch (pystrip s) = false ∧ identFullmatch (pystrip s) = false →
      parseExpr lang (f + 1) s = .variable (pystrip s)) := by
  refine ⟨fun s => ⟨⟨_, rfl⟩, ⟨_, rfl⟩, ⟨_, rfl⟩⟩, ?_, ?_, ?_, ?_⟩
  · rintro f l rest ⟨h1, h2, h3, h4, h5, h6⟩
    exact parsePyGo_drop f l rest h1 h2 h3 h4 h5 h6
  · rintro f l rest ⟨h1, h2, h3, h4, h5⟩
    exact parseCppGo_drop f l rest h1 h2 h3 h4 h5
  · rintro f l rest ⟨h1, h2, h3, h4, h5⟩
    exact parseJavaGo_drop f l rest h1 h2 h3 h4 h5
  · rintro lang f s ⟨h1, h2, h3, h4, h5, h6, h7⟩
    exact parseExpr_fallback lang f s h1 h2 h3 h4 h5 h6 h7

/-- C6, witness: totality on the junk input `@@`, the three drop
conjuncts on that line, and the Variable fallback on the junk fragment
`@ %`. -/
theorem C6_witness :
    (∃ a, parsePyStr (chars "@@") = Node.program a) ∧
    parsePyGo 5 [chars "@@"] = parsePyGo 4 [] ∧
    parseCppGo 5 [chars "@@"] = parseCppGo 4 [] ∧
    parseJavaGo 5 [chars "@@"] = parseJavaGo 4 [] ∧
    parseExpr .python 3 (chars "@ %") = .variable (pystrip (chars "@ %")) := by
  refine ⟨(C6.1 (chars "@@")).1, ?_, ?_, ?_, ?_⟩
  · exact C6.2.1 4 (chars "@@") [] ⟨rfl, rfl, rfl, rfl, rfl, rfl⟩
  · exact C6.2.2.1 4 (chars "@@") [] ⟨rfl, rfl, rfl, rfl, rfl⟩
  · exact C6.2.2.2.1 4 (chars "@@") [] ⟨rfl, rfl, rfl, rfl, rfl⟩
  · exact C6.2.2.2.2 .python 2 (chars "@ %") ⟨rfl, rfl, rfl, rfl, rfl, rfl, rfl⟩


/-! ## Claim C1 — same-language round-trip semantic equivalence -/

/-- C1, counterexample.  Two python→python round trips change the executed
effect: (i) `print(5)` prints `5`, but the round trip turns it into the
function header `def print(5):` (the function-call pattern claims the
line), which prints nothing; (ii) `x = 1; y = 2; z = x + y` stores the
integer `3` in `z`, but the round trip rewrites the addition to
`(str(x) + str(y))` (the generator wraps variable operands in `str()`),
which stores the string `12`. -/
theorem C1_counterexample :
    ((convertCode (chars "print(5)") (chars "python") (chars "python")).2 =
        .ok (chars "def print(5):\n") ∧
      (pyRun (chars "print(5)")).1 = [chars "5"] ∧
      (pyRun (chars "def print(5):\n")).1 = ([] : List Str) ∧
      ([chars "5"] : List Str) ≠ ([] : List Str)) ∧
    ((convertCode (chars "x = 1\ny = 2\nz = x + y") (chars "python") (chars "python")).2 =
        .ok (chars "x = 1\ny = 2\nz = (str(x) + str(y))") ∧
      envGet (chars "z") (pyRun (chars "x = 1\ny = 2\nz = x + y")).2.1 =
        some (.vint 3) ∧
      envGet (chars "z")
          (pyRun (chars "x = 1\ny = 2\nz = (str(x) + str(y))")).2.1 =
        some (.vstr (chars "12")) ∧
      some (Val.vint 3) ≠ some (Val.vstr (chars "12"))) :=
  ⟨⟨rfl, rfl, rfl, by decide⟩, ⟨rfl, rfl, rfl, by decide⟩⟩

/-- Right-hand sides of the claim's statement fragment: integer literals,
identifiers, additions and comparisons of integer literals. -/
inductive PyRhs where
  | num (s : Str)
  | ident (s : Str)
  | add (a b : Str)
  | cmp (op a b : Str)

/-- An assignment statement of the fragment. -/
structure PyAsgn where
  target : Str
  rhs : PyRhs

/-- Source text of a right-hand side. -/
def rhsText : PyRhs → Str
  | .num s => s
  | .ident s => s
  | .add a b => a ++ chars " + " ++ b
  | .cmp op a b => a ++ (' ' :: (op ++ [' '])) ++ b

/-- Source line of an assignment. -/
def asgnLine (a : PyAsgn) : Str := a.target ++ chars " = " ++ rhsText a.rhs

/-- The IR node `parse_python` builds for the line. -/
def rhsNode : PyRhs → Node
  | .num s => .numberLit s
  | .ident s => .variable s
  | .add a b => .mathOp (chars "+") (.numberLit a) (.numberLit b)
  | .cmp op a b => .comparison op (.numberLit a) (.numberLit b)

/-- The statement node built for the line. -/
def asgnNode (a : PyAsgn) : Node := .assignment (.variable a.target) (rhsNode a.rhs)

/-- The text `PythonGenerator` renders the node back to (additions and
comparisons come back parenthesised). -/
def rhsOut : PyRhs → Str
  | .num s => s
  | .ident s => s
  | .add a b => '(' :: (a ++ chars " + " ++ b) ++ [')']
  | .cmp op a b => '(' :: (a ++ (' ' :: (op ++ [' '])) ++ b) ++ [')']

/-- Rendered line of an assignment. -/
def asgnOut (a : PyAsgn) : Str := a.target ++ chars " = " ++ rhsOut a.rhs

/-- Well-formedness of a right-hand side. -/
def rhsOK : PyRhs → Prop
  | .num s => isDigits s
  | .ident s => identFullmatch s = true
  | .add a b => isDigits a ∧ isDigits b
  | .cmp op a b => op ∈ cmpOps ∧ isDigits a ∧ isDigits b

/-- Well-formedness of an assignment: identifier target, well-formed
right-hand side, and neither the source nor the rendered line collides
with the interpreter's `def `/`print(` line forms. -/
def asgnOK (a : PyAsgn) : Prop :=
  identFullmatch a.target = true ∧ rhsOK a.rhs ∧
  ¬ chars "def " <+: asgnLine a ∧ ¬ chars "print(" <+: asgnLine a ∧
  ¬ chars "def " <+: asgnOut a ∧ ¬ chars "print(" <+: asgnOut a

/-- A character failing a predicate satisfied by every member is absent. -/
lemma notMem_of_all {p : Char → Bool} {s : Str} (h : ∀ c ∈ s, p c = true)
    {d : Char} (hd : p d = false) : d ∉ s := by
  intro hm
  rw [h d hm] at hd
  exact Bool.false_ne_true hd.symm

/-- Identifier strings are nonempty word-character strings. -/
lemma ident_chars {s : Str} (h : identFullmatch s = true) :
    s ≠ [] ∧ ∀ c ∈ s, isWordChar c = true := by
  cases s with
  | nil => simp [identFullmatch] at h
  | cons c r =>
    simp only [identFullmatch, Bool.and_eq_true, List.all_eq_true] at h
    refine ⟨by simp, ?_⟩
    intro d hd
    rcases List.mem_cons.mp hd with rfl | hdr
    · rcases (by simpa [isAlphaUnd] using h.1 : d.isAlpha = true ∨ d = '_') with ha | hu
      · simp [isWordChar, ha]
      · simp [isWordChar, hu]
    · exact h.2 d hdr

/-- `pystrip` fixes a string whose first and last characters are
non-whitespace. -/
lemma pystrip_fix (s : Str)
    (hh : ∀ c, s.head? = some c → isPySpace c = false)
    (hl : ∀ c, s.getLast? = some c → isPySpace c = false) : pystrip s = s := by
  cases s with
  | nil => rfl
  | cons c cs =>
    have hls : lstrip (c :: cs) = c :: cs := dropWhile_cons_of_neg _ (hh c rfl)
    have hrs : rstrip (c :: cs) = c :: cs := by
      unfold rstrip
      cases hrev : (c :: cs).reverse with
      | nil => exact absurd hrev (by simp)
      | cons d ds =>
        have hd : isPySpace d = false := by
          refine hl d ?_
          rw [← List.head?_reverse, hrev]
          rfl
        rw [dropWhile_cons_of_neg _ hd, ← hrev, List.reverse_reverse]
    rw [pystrip, hls, hrs]

/-- Infix strings have no more copies of any character. -/
lemma infix_countCh_le (c : Char) {p s : Str} (h : p <:+: s) :
    countCh c p ≤ countCh c s :=
  List.Sublist.countP_le _ h.sublist

/-- `countCh` distributes over append. -/
lemma countCh_append (c : Char) (u v : Str) :
    countCh c (u ++ v) = countCh c u + countCh c v :=
  List.countP_append _ _ _

/-- `countCh` of an absent character. -/
lemma countCh_zero {c : Char} {s : Str} (h : c ∉ s) : countCh c s = 0 := by
  rw [countCh, List.countP_eq_zero]
  intro a ha
  simp only [beq_iff_eq]
  rintro rfl
  exact h ha

/-- `splitFirst` fails when the string has fewer copies of some character
than the pattern. -/
lemma splitFirst_count_none {c : Char} {p s : Str} (hp : p ≠ [])
    (h : countCh c s < countCh c p) : splitFirst p s = none :=
  splitFirst_eq_none hp s (fun hinf => absurd (infix_countCh_le c hinf) (by omega))

lemma findCmp_cons_none {op : Str} {ops : List Str} {s : Str}
    (h : splitFirst (' ' :: (op ++ [' '])) s = none) :
    findCmp (op :: ops) s = findCmp ops s := by
  rw [findCmp, h]

lemma findCmp_cons_some {op : Str} {ops : List Str} {s a b : Str}
    (h : splitFirst (' ' :: (op ++ [' '])) s = some (a, b)) :
    findCmp (op :: ops) s = some (op, a, b) := by
  rw [findCmp, h]

/-- Digits contain none of the operator characters or the space. -/
lemma digits_char_absent {s : Str} (h : isDigits s) :
    ' ' ∉ s ∧ '=' ∉ s ∧ '!' ∉ s ∧ '<' ∉ s ∧ '>' ∉ s ∧ '+' ∉ s ∧
      '(' ∉ s ∧ ')' ∉ s ∧ '"' ∉ s ∧ sq ∉ s ∧ '\n' ∉ s ∧ '#' ∉ s ∧ '-' ∉ s := by
  have hmem : ∀ (d : Char), d.isDigit = false → d ∉ s := by
    intro d hd hm
    rw [h.2 d hm] at hd
    exact Bool.false_ne_true hd.symm
  exact ⟨hmem ' ' (by decide), hmem '=' (by decide), hmem '!' (by decide),
    hmem '<' (by decide), hmem '>' (by decide), hmem '+' (by decide),
    hmem '(' (by decide), hmem ')' (by decide), hmem '"' (by decide),
    hmem sq (by decide), hmem '\n' (by decide), hmem '#' (by decide),
    hmem '-' (by decide)⟩

/-- `findCmp` finds nothing in a string without operator characters. -/
lemma findCmp_no_ops {s : Str} (h1 : '=' ∉ s) (h2 : '!' ∉ s) (h3 : '<' ∉ s)
    (h4 : '>' ∉ s) : findCmp cmpOps s = none := by
  have key : ∀ (op : Str) (c : Char), c ∈ op → c ∉ s →
      splitFirst (' ' :: (op ++ [' '])) s = none := by
    intro op c hc hcs
    refine splitFirst_eq_none (by simp) s (fun hinf => hcs (hinf.subset ?_))
    simp [hc]
  rw [show cmpOps = [chars "==", chars "!=", chars "<=", chars ">=",
        chars "<", chars ">"] from rfl,
      findCmp_cons_none (key _ '=' (by decide) h1),
      findCmp_cons_none (key _ '!' (by decide) h2),
      findCmp_cons_none (key _ '<' (by decide) h3),
      findCmp_cons_none (key _ '>' (by decide) h4),
      findCmp_cons_none (key _ '<' (by decide) h3),
      findCmp_cons_none (key _ '>' (by decide) h4)]
  rfl

/-- On `a <op> b` with digit operands, the comparison scan finds exactly
`op` (earlier operators in the priority list cannot occur: the string has
too few copies of one of their characters). -/
lemma findCmp_digits (op a b : Str) (hop : op ∈ cmpOps)
    (ha : isDigits a) (hb : isDigits b) :
    findCmp cmpOps (a ++ (' ' :: (op ++ [' '])) ++ b) = some (op, a, b) := by
  obtain ⟨haS, haE, haB, haL, haG, -⟩ := digits_char_absent ha
  obtain ⟨hbS, hbE, hbB, hbL, hbG, -⟩ := digits_char_absent hb
  have hhit : splitFirst (' ' :: (op ++ [' ']))
      (a ++ (' ' :: (op ++ [' '])) ++ b) = some (a, b) :=
    splitFirst_append (show (' ' :: (op ++ [' '])).head? = some ' ' from rfl) a b haS
  have hcnt : ∀ c : Char, c ∉ a → c ∉ b →
      countCh c (a ++ (' ' :: (op ++ [' '])) ++ b) =
        countCh c (' ' :: (op ++ [' '])) := by
    intro c hca hcb
    rw [countCh_append, countCh_append, countCh_zero hca, countCh_zero hcb]
    omega
  have hnone : ∀ (p : Str) (c : Char), p ≠ [] → c ∉ a → c ∉ b →
      countCh c (' ' :: (op ++ [' '])) < countCh c p →
      splitFirst p (a ++ (' ' :: (op ++ [' '])) ++ b) = none := by
    intro p c hp hca hcb hlt
    exact splitFirst_count_none hp (by rw [hcnt c hca hcb]; exact hlt)
  have hCmp : cmpOps = chars "==" :: chars "!=" :: chars "<=" :: chars ">=" ::
      chars "<" :: chars ">" :: [] := rfl
  simp only [cmpOps, List.mem_cons, List.not_mem_nil, or_false] at hop
  rcases hop with rfl | rfl | rfl | rfl | rfl | rfl
  · rw [hCmp]
    exact findCmp_cons_some hhit
  · rw [hCmp, findCmp_cons_none (hnone _ '=' (by simp) haE hbE (by decide))]
    exact findCmp_cons_some hhit
  · rw [hCmp, findCmp_cons_none (hnone _ '=' (by simp) haE hbE (by decide)),
        findCmp_cons_none (hnone _ '!' (by simp) haB hbB (by decide))]
    exact findCmp_cons_some hhit
  · rw [hCmp, findCmp_cons_none (hnone _ '=' (by simp) haE hbE (by decide)),
        findCmp_cons_none (hnone _ '!' (by simp) haB hbB (by decide)),
        findCmp_cons_none (hnone _ '<' (by simp) haL hbL (by decide))]
    exact findCmp_cons_some hhit
  · rw [hCmp, findCmp_cons_none (hnone _ '=' (by simp) haE hbE (by decide)),
        findCmp_cons_none (hnone _ '!' (by simp) haB hbB (by decide)),
        findCmp_cons_none (hnone _ '=' (by simp) haE hbE (by decide)),
        findCmp_cons_none (hnone _ '=' (by simp) haE hbE (by decide))]
    exact findCmp_cons_some hhit
  · rw [hCmp, findCmp_cons_none (hnone _ '=' (by simp) haE hbE (by decide)),
        findCmp_cons_none (hnone _ '!' (by simp) haB hbB (by decide)),
        findCmp_cons_none (hnone _ '=' (by simp) haE hbE (by decide)),
        findCmp_cons_none (hnone _ '=' (by simp) haE hbE (by decide)),
        findCmp_cons_none (hnone _ '<' (by simp) haL hbL (by decide))]
    exact findCmp_cons_some hhit

/-- `POW_REGEX` cannot match a string without an opening parenthesis. -/
lemma powMatchWith_no_paren {callee s : Str} (h : '(' ∉ s) :
    powMatchWith callee s = none := by
  unfold powMatchWith
  by_cases hpre : callee <+: s
  · rw [if_pos hpre]
    cases hsk : skipWs (s.drop callee.length) with
    | nil => rfl
    | cons d r =>
      have hd : d ∈ s := by
        have h1 : d ∈ skipWs (s.drop callee.length) := by rw [hsk]; simp
        exact (List.drop_sublist _ _).subset ((List.dropWhile_sublist _).subset h1)
      simp only [expectChar]
      rw [if_neg (show ¬ d = '(' from fun he => h (by rw [← he]; exact hd))]
  · rw [if_neg hpre]

/-- A string not starting with `(` is not parenthesis-wrapped. -/
lemma isWrapped_ne_paren {c : Char} (t : Str) (h : c ≠ '(') :
    isWrapped (c :: t) = false := by
  rw [isWrapped.eq_def]
  split
  · rename_i t1 heq
    injection heq with e1 _
    exact absurd e1 h
  · rfl

/-- The balance scan of `isWrapped` on parenthesis-free text. -/
lemma isWrapped_go_clean :
    ∀ (inner : Str) (d : Nat), '(' ∉ inner → ')' ∉ inner →
      isWrapped.go d inner = decide (d = 1) := by
  intro inner
  induction inner with
  | nil => intro d _ _; rfl
  | cons c r ih =>
    intro d h1 h2
    rw [isWrapped.go.eq_def]
    split
    · rfl
    · rename_i r1 heq
      injection heq with e1 _
      exact absurd (show '(' ∈ c :: r by rw [e1]; exact List.mem_cons_self _ _) h1
    · rename_i r1 heq
      injection heq with e1 _
      exact absurd (show ')' ∈ c :: r by rw [e1]; exact List.mem_cons_self _ _) h2
    · rename_i hd r1 hne1 hne2 heq
      injection heq with e1 e2
      rw [← e2]
      exact ih d (fun hm => h1 (List.mem_cons_of_mem c hm))
        (fun hm => h2 (List.mem_cons_of_mem c hm))

/-- A parenthesis-free string wrapped in one pair of parentheses is
detected as wrapped. -/
lemma isWrapped_wrap (inner : Str) (h1 : '(' ∉ inner) (h2 : ')' ∉ inner) :
    isWrapped ('(' :: (inner ++ [')'])) = true := by
  rw [isWrapped.eq_def]
  split
  · rename_i t1 heq
    injection heq with _ e2
    rw [← e2]
    have hrev : (inner ++ [')']).reverse = ')' :: inner.reverse := by
      rw [List.reverse_append]
      rfl
    rw [hrev]
    show isWrapped.go 1 (List.reverse inner).reverse = true
    rw [List.reverse_reverse]
    rw [isWrapped_go_clean inner 1 h1 h2]
    rfl
  · rename_i hne
    exact absurd rfl (by exact fun h => hne _ h)

/-- Alphabetic characters are not digits (ASCII ranges are disjoint). -/
lemma isAlpha_not_digit {c : Char} (h : c.isAlpha = true) : c.isDigit = false := by
  simp only [Char.isAlpha, Char.isUpper, Char.isLower, Bool.or_eq_true,
    Bool.and_eq_true, decide_eq_true_eq] at h
  by_contra hd
  rw [Bool.not_eq_false] at hd
  simp only [Char.isDigit, Bool.and_eq_true, decide_eq_true_eq] at hd
  obtain ⟨h3, h4⟩ := hd
  rcases h with ⟨h1, h2⟩ | ⟨h1, h2⟩
  · simp only [UInt32.le_def, BitVec.le_def] at h1 h4
    rw [show ((65 : UInt32).toBitVec).toNat = 65 from rfl] at h1
    rw [show ((57 : UInt32).toBitVec).toNat = 57 from rfl] at h4
    omega
  · simp only [UInt32.le_def, BitVec.le_def] at h1 h4
    rw [show ((97 : UInt32).toBitVec).toNat = 97 from rfl] at h1
    rw [show ((57 : UInt32).toBitVec).toNat = 57 from rfl] at h4
    omega

lemma head?_append_left {x : Str} (s : Str) (h : x ≠ []) :
    (x ++ s).head? = x.head? := by
  cases x with
  | nil => exact absurd rfl h
  | cons c t => rfl

lemma getLast?_append_right (x : Str) {s : Str} (h : s ≠ []) :
    (x ++ s).getLast? = s.getLast? := by
  rw [← List.head?_reverse, List.reverse_append,
      head?_append_left _ (by simpa using h), List.head?_reverse]

/-- A nonempty all-digit string is a number-literal fullmatch. -/
lemma numFullmatch_digits {a : Str} (ha : isDigits a) : numFullmatch a = true := by
  obtain ⟨c, a2, rfl⟩ : ∃ c a2, a = c :: a2 := by
    cases a with
    | nil => exact absurd rfl ha.1
    | cons c a2 => exact ⟨c, a2, rfl⟩
  have hcd := ha.2 c (by simp)
  obtain ⟨-, -, -, -, -, -, -, -, -, -, -, hcm, -, -, -, -, -, -⟩ :=
    digit_char_facts c hcd
  have hdot : '.' ∉ c :: a2 := by
    intro hm
    exact absurd (ha.2 '.' hm) (by decide)
  simp only [numFullmatch]
  rw [if_neg (show ¬ (c :: a2).head? = some '-' from
        fun he => hcm (Option.some.inj he))]
  rw [splitFirst_eq_none (by simp) _
        (fun hinf => hdot (hinf.subset (show '.' ∈ ['.'] from by decide)))]
  simp only [Bool.and_eq_true]
  exact ⟨decide_eq_true (by simp), List.all_eq_true.mpr ha.2⟩

/-- `_parse_expression` on a bare digit string yields a NumberLiteral. -/
lemma parseExpr_num (lang : Lang) (f : Nat) {a : Str} (ha : isDigits a) :
    parseExpr lang (f + 1) a = .numberLit a := by
  obtain ⟨haS, haE, haB, haL, haG, haP, haOp, haCp, haQ, haSq, -⟩ :=
    digits_char_absent ha
  have hstrip : pystrip a = a :=
    pystrip_eq_self a (fun c hc => (digit_char_facts c (ha.2 c hc)).1)
  have hplus : containsSub (chars " + ") a = false :=
    decide_eq_false (fun hinf => haS (hinf.subset (show ' ' ∈ chars " + " from by decide)))
  have hfalse : ¬ (containsSub (chars " + ") a = true ∧
      ¬ startsWith (powHead lang) a = true) := by
    rw [hplus]
    rintro ⟨hx, -⟩
    exact Bool.false_ne_true hx
  have hq1 : startsWith (chars "\"") a = false :=
    decide_eq_false (fun hpre => haQ (hpre.subset (show '"' ∈ chars "\"" from by decide)))
  have hq2 : startsWith (chars "'") a = false :=
    decide_eq_false (fun hpre => haSq (hpre.subset (show sq ∈ chars "'" from by decide)))
  simp only [parseExpr, hstrip, findCmp_no_ops haE haB haL haG,
    powMatchWith_no_paren haOp]
  rw [if_neg hfalse]
  show exprAtom lang a = .numberLit a
  unfold exprAtom
  cases lang with
  | cpp =>
    rw [hq1]
    simp only [Bool.false_and]
    rw [if_neg Bool.false_ne_true, if_pos (numFullmatch_digits ha)]
  | python =>
    rw [hq1, hq2]
    simp only [Bool.false_and, Bool.or_self]
    rw [if_neg Bool.false_ne_true, if_pos (numFullmatch_digits ha)]
  | java =>
    rw [hq1, hq2]
    simp only [Bool.false_and, Bool.or_self]
    rw [if_neg Bool.false_ne_true, if_pos (numFullmatch_digits ha)]

/-- Identifiers are not number-literal fullmatches. -/
lemma numFullmatch_ident {s : Str} (h : identFullmatch s = true) :
    numFullmatch s = false := by
  obtain ⟨c, r, rfl⟩ : ∃ c r, s = c :: r := by
    cases s with
    | nil => simp [identFullmatch] at h
    | cons c r => exact ⟨c, r, rfl⟩
  have hau : isAlphaUnd c = true := by
    simp only [identFullmatch, Bool.and_eq_true] at h
    exact h.1
  have hcd : c.isDigit = false := by
    rcases (by simpa [isAlphaUnd] using hau : c.isAlpha = true ∨ c = '_') with ha | rfl
    · exact isAlpha_not_digit ha
    · decide
  have hcm : c ≠ '-' := by
    rcases (by simpa [isAlphaUnd] using hau : c.isAlpha = true ∨ c = '_') with ha | rfl
    · rintro rfl
      exact absurd ha (by decide)
    · decide
  have hdot : '.' ∉ c :: r := by
    refine notMem_of_all (ident_chars h).2 (by decide)
  simp only [numFullmatch]
  rw [if_neg (show ¬ (c :: r).head? = some '-' from
        fun he => hcm (Option.some.inj he))]
  rw [splitFirst_eq_none (by simp) _
        (fun hinf => hdot (hinf.subset (show '.' ∈ ['.'] from by decide)))]
  have hall_false : (c :: r).all Char.isDigit = false := by
    cases hb : (c :: r).all Char.isDigit with
    | false => rfl
    | true =>
      have hx := (List.all_eq_true.mp hb) c (by simp)
      rw [hx] at hcd
      exact absurd hcd.symm Bool.false_ne_true
  rw [hall_false, Bool.and_false]

/-- `_parse_expression` on a bare identifier yields a VariableNode. -/
lemma parseExpr_ident (lang : Lang) (f : Nat) {s : Str}
    (h : identFullmatch s = true) :
    parseExpr lang (f + 1) s = .variable s := by
  obtain ⟨hne, hall⟩ := ident_chars h
  have hS : ' ' ∉ s := notMem_of_all hall (by decide)
  have hPar : '(' ∉ s := notMem_of_all hall (by decide)
  have hE : '=' ∉ s := notMem_of_all hall (by decide)
  have hB : '!' ∉ s := notMem_of_all hall (by decide)
  have hL : '<' ∉ s := notMem_of_all hall (by decide)
  have hG : '>' ∉ s := notMem_of_all hall (by decide)
  have hQ : '"' ∉ s := notMem_of_all hall (by decide)
  have hSq : sq ∉ s := notMem_of_all hall (by decide)
  have hstrip : pystrip s = s :=
    pystrip_eq_self s (fun c hc => (wordChar_facts c (hall c hc)).1)
  have hplus : containsSub (chars " + ") s = false :=
    decide_eq_false (fun hinf => hS (hinf.subset (show ' ' ∈ chars " + " from by decide)))
  have hfalse : ¬ (containsSub (chars " + ") s = true ∧
      ¬ startsWith (powHead lang) s = true) := by
    rw [hplus]
    rintro ⟨hx, -⟩
    exact Bool.false_ne_true hx
  have hq1 : startsWith (chars "\"") s = false :=
    decide_eq_false (fun hpre => hQ (hpre.subset (show '"' ∈ chars "\"" from by decide)))
  have hq2 : startsWith (chars "'") s = false :=
    decide_eq_false (fun hpre => hSq (hpre.subset (show sq ∈ chars "'" from by decide)))
  simp only [parseExpr, hstrip, findCmp_no_ops hE hB hL hG,
    powMatchWith_no_paren hPar]
  rw [if_neg hfalse]
  show exprAtom lang s = .variable s
  unfold exprAtom
  cases lang with
  | cpp =>
    rw [hq1]
    simp only [Bool.false_and]
    rw [if_neg Bool.false_ne_true, if_neg (by rw [numFullmatch_ident h]; exact Bool.false_ne_true),
        if_pos h]
  | python =>
    rw [hq1, hq2]
    simp only [Bool.false_and, Bool.or_self]
    rw [if_neg Bool.false_ne_true, if_neg (by rw [numFullmatch_ident h]; exact Bool.false_ne_true),
        if_pos h]
  | java =>
    rw [hq1, hq2]
    simp only [Bool.false_and, Bool.or_self]
    rw [if_neg Bool.false_ne_true, if_neg (by rw [numFullmatch_ident h]; exact Bool.false_ne_true),
        if_pos h]

lemma mem_of_getLast? {l : Str} {c : Char} (h : l.getLast? = some c) : c ∈ l := by
  rw [← List.head?_reverse] at h
  cases hrev : l.reverse with
  | nil => rw [hrev] at h; simp at h
  | cons d ds =>
    rw [hrev] at h
    injection h with e
    have hm : c ∈ l.reverse := by
      rw [hrev, ← e]
      exact List.mem_cons_self _ _
    simpa using hm

/-- `_parse_expression` on `a + b` with digit operands yields the MathOp
node. -/
lemma parseExpr_add (lang : Lang) (f : Nat) {a b : Str}
    (ha : isDigits a) (hb : isDigits b) :
    parseExpr lang (f + 2) (a ++ chars " + " ++ b) =
      .mathOp (chars "+") (.numberLit a) (.numberLit b) := by
  obtain ⟨haS, haE, haB, haL, haG, haP, haOp, haCp, haQ, haSq, -⟩ :=
    digits_char_absent ha
  obtain ⟨hbS, hbE, hbB, hbL, hbG, hbP, hbOp, hbCp, hbQ, hbSq, -⟩ :=
    digits_char_absent hb
  have hnot : ∀ ch : Char, ch ∉ a → ch ∉ chars " + " → ch ∉ b →
      ch ∉ a ++ chars " + " ++ b := by
    intro ch h1 h2 h3 hm
    rcases List.mem_append.mp hm with hm1 | hm2
    · rcases List.mem_append.mp hm1 with hx | hx
      · exact h1 hx
      · exact h2 hx
    · exact h3 hm2
  have hstrip : pystrip (a ++ chars " + " ++ b) = a ++ chars " + " ++ b := by
    apply pystrip_fix
    · intro c hc
      obtain ⟨c0, a2, rfl⟩ : ∃ c0 a2, a = c0 :: a2 := by
        cases a with
        | nil => exact absurd rfl ha.1
        | cons c0 a2 => exact ⟨c0, a2, rfl⟩
      rw [show ((c0 :: a2) ++ chars " + " ++ b).head? = some c0 from rfl] at hc
      injection hc with e
      rw [← e]
      exact (digit_char_facts c0 (ha.2 c0 (by simp))).1
    · intro c hc
      rw [getLast?_append_right _ hb.1] at hc
      exact (digit_char_facts c (hb.2 c (mem_of_getLast? hc))).1
  have hfind := findCmp_no_ops (hnot '=' haE (by decide) hbE)
    (hnot '!' haB (by decide) hbB) (hnot '<' haL (by decide) hbL)
    (hnot '>' haG (by decide) hbG)
  have hpow : powMatchWith (powCallee lang) (a ++ chars " + " ++ b) = none :=
    powMatchWith_no_paren (hnot '(' haOp (by decide) hbOp)
  have hsplit : splitFirst (chars " + ") (a ++ chars " + " ++ b) = some (a, b) :=
    splitFirst_append (show (chars " + ").head? = some ' ' from rfl) a b haS
  have hcontains : containsSub (chars " + ") (a ++ chars " + " ++ b) = true :=
    decide_eq_true ⟨a, b, rfl⟩
  have hsw : startsWith (powHead lang) (a ++ chars " + " ++ b) = false :=
    decide_eq_false (fun hpre => (hnot '(' haOp (by decide) hbOp)
      (hpre.subset (by cases lang <;> decide)))
  have hparity : ¬ (lang = Lang.python ∧
      ((countCh '"' a) % 2 ≠ 0 ∨ (countCh '\'' a) % 2 ≠ 0)) := by
    rintro ⟨-, h1 | h1⟩
    · rw [countCh_zero haQ] at h1
      exact h1 rfl
    · rw [countCh_zero (show ('\'' : Char) ∉ a from haSq)] at h1
      exact h1 rfl
  rw [parseExpr]
  simp only [hstrip, hfind, hpow]
  rw [if_pos ⟨hcontains, fun hB => Bool.false_ne_true (hsw.symm.trans hB)⟩]
  simp only [hsplit]
  rw [if_neg hparity]
  simp only [pystrip_eq_self a (fun c hc => (digit_char_facts c (ha.2 c hc)).1),
      pystrip_eq_self b (fun c hc => (digit_char_facts c (hb.2 c hc)).1),
      parseExpr_num lang f ha, parseExpr_num lang f hb]

/-- `_parse_expression` on `a <op> b` with digit operands yields the
Comparison node. -/
lemma parseExpr_cmp (lang : Lang) (f : Nat) {op a b : Str} (hop : op ∈ cmpOps)
    (ha : isDigits a) (hb : isDigits b) :
    parseExpr lang (f + 2) (a ++ (' ' :: (op ++ [' '])) ++ b) =
      .comparison op (.numberLit a) (.numberLit b) := by
  have hstrip : pystrip (a ++ (' ' :: (op ++ [' '])) ++ b) =
      a ++ (' ' :: (op ++ [' '])) ++ b := by
    apply pystrip_fix
    · intro c hc
      obtain ⟨c0, a2, rfl⟩ : ∃ c0 a2, a = c0 :: a2 := by
        cases a with
        | nil => exact absurd rfl ha.1
        | cons c0 a2 => exact ⟨c0, a2, rfl⟩
      rw [show ((c0 :: a2) ++ (' ' :: (op ++ [' '])) ++ b).head? = some c0 from rfl] at hc
      injection hc with e
      rw [← e]
      exact (digit_char_facts c0 (ha.2 c0 (by simp))).1
    · intro c hc
      rw [getLast?_append_right _ hb.1] at hc
      exact (digit_char_facts c (hb.2 c (mem_of_getLast? hc))).1
  rw [parseExpr]
  simp only [hstrip, findCmp_digits op a b hop ha hb]
  simp only [pystrip_eq_self a (fun c hc => (digit_char_facts c (ha.2 c hc)).1),
      pystrip_eq_self b (fun c hc => (digit_char_facts c (hb.2 c hc)).1),
      parseExpr_num lang f ha, parseExpr_num lang f hb]

/-- `_parse_expression` of the Python parser on each fragment right-hand
side. -/
lemma parseExpr_rhs (f : Nat) {r : PyRhs} (h : rhsOK r) :
    parseExpr .python (f + 2) (rhsText r) = rhsNode r := by
  cases r with
  | num s => exact parseExpr_num .python (f + 1) h
  | ident s => exact parseExpr_ident .python (f + 1) h
  | add a b => exact parseExpr_add .python f h.1 h.2
  | cmp op a b => exact parseExpr_cmp .python f h.1 h.2.1 h.2.2

lemma mem_of_head? {l : Str} {c : Char} (h : l.head? = some c) : c ∈ l := by
  cases l with
  | nil => simp at h
  | cons d ds =>
    injection h with e
    rw [← e]
    exact List.mem_cons_self _ _

lemma rhsText_ne_nil {r : PyRhs} (h : rhsOK r) : rhsText r ≠ [] := by
  cases r with
  | num s => exact h.1
  | ident s => exact (ident_chars h).1
  | add a b =>
    intro he
    exact h.2.1 (List.append_eq_nil.mp he).2
  | cmp op a b =>
    intro he
    exact h.2.2.1 (List.append_eq_nil.mp he).2

lemma rhsText_head_nonspace {r : PyRhs} (h : rhsOK r) :
    ∀ c, (rhsText r).head? = some c → isPySpace c = false := by
  cases r with
  | num s =>
    intro c hc
    exact (digit_char_facts c (h.2 c (mem_of_head? hc))).1
  | ident s =>
    intro c hc
    exact (wordChar_facts c ((ident_chars h).2 c (mem_of_head? hc))).1
  | add a b =>
    intro c hc
    rw [show rhsText (.add a b) = a ++ (chars " + " ++ b) from by
          simp [rhsText, List.append_assoc],
        head?_append_left _ h.1.1] at hc
    exact (digit_char_facts c (h.1.2 c (mem_of_head? hc))).1
  | cmp op a b =>
    intro c hc
    rw [show rhsText (.cmp op a b) = a ++ ((' ' :: (op ++ [' '])) ++ b) from by
          simp [rhsText, List.append_assoc],
        head?_append_left _ h.2.1.1] at hc
    exact (digit_char_facts c (h.2.1.2 c (mem_of_head? hc))).1

lemma rhsText_last_nonspace {r : PyRhs} (h : rhsOK r) :
    ∀ c, (rhsText r).getLast? = some c → isPySpace c = false := by
  cases r with
  | num s =>
    intro c hc
    exact (digit_char_facts c (h.2 c (mem_of_getLast? hc))).1
  | ident s =>
    intro c hc
    exact (wordChar_facts c ((ident_chars h).2 c (mem_of_getLast? hc))).1
  | add a b =>
    intro c hc
    rw [show rhsText (.add a b) = a ++ chars " + " ++ b from rfl,
        getLast?_append_right _ h.2.1] at hc
    exact (digit_char_facts c (h.2.2 c (mem_of_getLast? hc))).1
  | cmp op a b =>
    intro c hc
    rw [show rhsText (.cmp op a b) = a ++ (' ' :: (op ++ [' '])) ++ b from rfl,
        getLast?_append_right _ h.2.2.1] at hc
    exact (digit_char_facts c (h.2.2.2 c (mem_of_getLast? hc))).1

/-- The source line of a well-formed assignment strips to itself. -/
lemma asgnLine_strip (a : PyAsgn) (h : asgnOK a) :
    pystrip (asgnLine a) = asgnLine a := by
  obtain ⟨hx, hr, -, -, -, -⟩ := h
  obtain ⟨hne, hall⟩ := ident_chars hx
  apply pystrip_fix
  · intro c hc
    rw [show asgnLine a = a.target ++ chars " = " ++ rhsText a.rhs from rfl,
        head?_append_left _ (fun hz => hne (List.append_eq_nil.mp hz).1),
        head?_append_left _ hne] at hc
    exact (wordChar_facts c (hall c (mem_of_head? hc))).1
  · intro c hc
    rw [show asgnLine a = a.target ++ chars " = " ++ rhsText a.rhs from rfl,
        getLast?_append_right _ (rhsText_ne_nil hr)] at hc
    exact rhsText_last_nonspace hr c hc

/-- `takeWord` on an assignment line captures the identifier target. -/
lemma assign_takeWord (x R : Str) (hall : ∀ c ∈ x, isWordChar c = true) :
    takeWord (x ++ chars " = " ++ R) = (x, ' ' :: '=' :: ' ' :: R) := by
  unfold takeWord
  rw [List.append_assoc]
  rw [takeWhile_append_all x _ hall, dropWhile_append_all x _ hall]
  rw [show (chars " = " ++ R : Str) = ' ' :: ('=' :: ' ' :: R) from rfl]
  rw [takeWhile_cons_of_neg _ (show isWordChar ' ' = false from by decide),
      dropWhile_cons_of_neg _ (show isWordChar ' ' = false from by decide),
      List.append_nil]

/-- `ASSIGNMENT_REGEX` on `x = R` with identifier `x` and a right-hand
side starting with a non-space character. -/
lemma plainAssignMatch_eq (x : Str) {R : Str} (hx : identFullmatch x = true)
    (hR : ∀ c, R.head? = some c → isPySpace c = false) (hRne : R ≠ []) :
    plainAssignMatch (x ++ chars " = " ++ R) = some (x, R) := by
  obtain ⟨hne, hall⟩ := ident_chars hx
  obtain ⟨c, r, rfl⟩ : ∃ c r, R = c :: r := by
    cases R with
    | nil => exact absurd rfl hRne
    | cons c r => exact ⟨c, r, rfl⟩
  have hc := hR c rfl
  unfold plainAssignMatch
  rw [assign_takeWord x (c :: r) hall]
  simp only [if_neg hne]
  have hsk1 : skipWs (' ' :: '=' :: ' ' :: c :: r) = '=' :: ' ' :: c :: r := by
    show skipWs ('=' :: ' ' :: c :: r) = '=' :: ' ' :: c :: r
    exact skipWs_eq_self _ (by decide)
  rw [hsk1]
  simp only [expectChar, if_pos]
  have hsk2 : skipWs (' ' :: c :: r) = c :: r := by
    show skipWs (c :: r) = c :: r
    exact skipWs_eq_self _ hc
  rw [hsk2]

/-- `FUNCTION_CALL_REGEX` fails on an assignment line: after the word
prefix the next non-space character is `=`, not `(`. -/
lemma pyFuncCallMatch_asgn (x R : Str) (hall : ∀ c ∈ x, isWordChar c = true)
    (hne : x ≠ []) :
    pyFuncCallMatch (x ++ chars " = " ++ R) = none := by
  unfold pyFuncCallMatch
  rw [assign_takeWord x R hall]
  simp only [if_neg hne]
  have hsk1 : skipWs (' ' :: '=' :: ' ' :: R) = '=' :: ' ' :: R := by
    show skipWs ('=' :: ' ' :: R) = '=' :: ' ' :: R
    exact skipWs_eq_self _ (by decide)
  rw [hsk1]
  simp only [expectChar]
  rw [if_neg (show ¬ ('=' : Char) = '(' from by decide)]

/-- One step of the Python statement loop on a well-formed assignment
line: the assignment matcher fires (the function-call matcher cannot) and
produces exactly the expected node. -/
lemma parsePyGo_asgn (f : Nat) (a : PyAsgn) (rest : List Str) (h : asgnOK a) :
    parsePyGo (f + 1) (asgnLine a :: rest) = asgnNode a :: parsePyGo f rest := by
  obtain ⟨hx, hr, h3, h4, h5, h6⟩ := h
  obtain ⟨hne, hall⟩ := ident_chars hx
  have hstrip := asgnLine_strip a ⟨hx, hr, h3, h4, h5, h6⟩
  rw [parsePyGo, hstrip]
  have hcond : ¬ (asgnLine a = [] ∨ (asgnLine a).head? = some '#') := by
    rintro (he | hh)
    · exact hne (List.append_eq_nil.mp (List.append_eq_nil.mp he).1).1
    · rw [show asgnLine a = a.target ++ chars " = " ++ rhsText a.rhs from rfl,
          head?_append_left _ (fun hz => hne (List.append_eq_nil.mp hz).1),
          head?_append_left _ hne] at hh
      exact absurd (hall '#' (mem_of_head? hh)) (by decide)
  rw [if_neg hcond]
  rw [show asgnLine a = a.target ++ chars " = " ++ rhsText a.rhs from rfl]
  simp only [pyFuncCallMatch_asgn a.target (rhsText a.rhs) hall hne,
    plainAssignMatch_eq a.target hx (rhsText_head_nonspace hr) (rhsText_ne_nil hr)]
  obtain ⟨k, hk⟩ : ∃ k, (rhsText a.rhs).length + 1 = k + 2 := by
    refine ⟨(rhsText a.rhs).length - 1, ?_⟩
    have : rhsText a.rhs ≠ [] := rhsText_ne_nil hr
    have : 1 ≤ (rhsText a.rhs).length := by
      cases hrt : rhsText a.rhs with
      | nil => exact absurd hrt this
      | cons c r => simp
    omega
  rw [hk, parseExpr_rhs k hr]
  rfl

lemma splitLines_newline (l : Str) (R : Str) (h : '\n' ∉ l) :
    splitLines (l ++ '\n' :: R) = l :: splitLines R := by
  induction l with
  | nil =>
    show splitLines ('\n' :: R) = [] :: splitLines R
    simp only [splitLines]
    rw [if_pos trivial]
  | cons c cs ih =>
    have hc : c ≠ '\n' := fun e => h (by rw [e]; exact List.mem_cons_self _ _)
    show splitLines (c :: (cs ++ '\n' :: R)) = (c :: cs) :: splitLines R
    simp only [splitLines]
    rw [ih (fun hm => h (List.mem_cons_of_mem c hm)), if_neg hc]

/-- `splitLines` inverts `joinSep "\n"` on newline-free lines. -/
lemma splitLines_join : ∀ (ls : List Str), ls ≠ [] → (∀ l ∈ ls, '\n' ∉ l) →
    splitLines (joinSep (chars "\n") ls) = ls := by
  intro ls
  induction ls with
  | nil => intro h _; exact absurd rfl h
  | cons l ls ih =>
    intro _ hnl
    cases ls with
    | nil =>
      show splitLines l = [l]
      exact splitLines_single l (hnl l (by simp))
    | cons l2 ls2 =>
      rw [show joinSep (chars "\n") (l :: l2 :: ls2)
            = l ++ chars "\n" ++ joinSep (chars "\n") (l2 :: ls2) from rfl]
      rw [show (l ++ chars "\n" ++ joinSep (chars "\n") (l2 :: ls2) : Str)
            = l ++ '\n' :: joinSep (chars "\n") (l2 :: ls2) from by
          simp [List.append_assoc, show (chars "\n" : Str) = ['\n'] from rfl]]
      rw [splitLines_newline l _ (hnl l (by simp))]
      rw [ih (by simp) (fun x hx => hnl x (by simp [hx]))]

lemma joinSep_ne_nil (sep : Str) (l : Str) (ls : List Str) (h : l ≠ []) :
    joinSep sep (l :: ls) ≠ [] := by
  cases ls with
  | nil => exact h
  | cons l2 ls2 =>
    show l ++ sep ++ joinSep sep (l2 :: ls2) ≠ []
    intro he
    exact h (List.append_eq_nil.mp (List.append_eq_nil.mp he).1).1

lemma joinSep_head? (sep : Str) (l : Str) (ls : List Str) (h : l ≠ []) :
    (joinSep sep (l :: ls)).head? = l.head? := by
  cases ls with
  | nil => rfl
  | cons l2 ls2 =>
    show (l ++ sep ++ joinSep sep (l2 :: ls2)).head? = l.head?
    rw [head?_append_left _ (fun hz => h (List.append_eq_nil.mp hz).1),
        head?_append_left _ h]

lemma joinSep_getLast?_mem (sep : Str) :
    ∀ (ls : List Str) (l : Str), l ≠ [] → (∀ x ∈ ls, x ≠ []) →
      ∃ x ∈ l :: ls, (joinSep sep (l :: ls)).getLast? = x.getLast? := by
  intro ls
  induction ls with
  | nil => intro l _ _; exact ⟨l, by simp, rfl⟩
  | cons l2 ls2 ih =>
    intro l hl hall
    obtain ⟨x, hx, he⟩ := ih l2 (hall l2 (by simp)) (fun y hy => hall y (by simp [hy]))
    refine ⟨x, List.mem_cons_of_mem l hx, ?_⟩
    rw [show joinSep sep (l :: l2 :: ls2)
          = l ++ sep ++ joinSep sep (l2 :: ls2) from rfl,
        getLast?_append_right _ (joinSep_ne_nil sep l2 ls2 (hall l2 (by simp)))]
    exact he

lemma rhsText_no_newline {r : PyRhs} (h : rhsOK r) : '\n' ∉ rhsText r := by
  cases r with
  | num s =>
    intro hm
    exact absurd (h.2 '\n' hm) (by decide)
  | ident s => exact notMem_of_all (ident_chars h).2 (by decide)
  | add a b =>
    intro hm
    rcases List.mem_append.mp hm with hm1 | hm2
    · rcases List.mem_append.mp hm1 with hx | hx
      · exact absurd (h.1.2 '\n' hx) (by decide)
      · exact absurd hx (by decide)
    · exact absurd (h.2.2 '\n' hm2) (by decide)
  | cmp op a b =>
    intro hm
    rcases List.mem_append.mp hm with hm1 | hm2
    · rcases List.mem_append.mp hm1 with hx | hx
      · exact absurd (h.2.1.2 '\n' hx) (by decide)
      · rcases List.mem_cons.mp hx with he | hx2
        · exact absurd he (by decide)
        · rcases List.mem_append.mp hx2 with hx3 | hx4
          · exact absurd hx3 ((by decide : ∀ o ∈ cmpOps, '\n' ∉ o) op h.1)
          · exact absurd hx4 (by decide)
    · exact absurd (h.2.2.2 '\n' hm2) (by decide)

lemma asgnLine_no_newline (a : PyAsgn) (h : asgnOK a) : '\n' ∉ asgnLine a := by
  intro hm
  rcases List.mem_append.mp hm with hm1 | hm2
  · rcases List.mem_append.mp hm1 with hx | hx
    · exact absurd ((ident_chars h.1).2 '\n' hx) (by decide)
    · exact absurd hx (by decide)
  · exact rhsText_no_newline h.2.1 hm2

lemma asgnLine_ne_nil (a : PyAsgn) (h : asgnOK a) : asgnLine a ≠ [] := by
  intro he
  exact (ident_chars h.1).1 (List.append_eq_nil.mp (List.append_eq_nil.mp he).1).1

/-- The statement loop maps a list of well-formed assignment lines to
their nodes (one fuel unit per line). -/
lemma parsePyGo_prog (prog : List PyAsgn) : ∀ (f : Nat), (∀ a ∈ prog, asgnOK a) →
    parsePyGo (prog.length + f) (prog.map asgnLine) = prog.map asgnNode := by
  induction prog with
  | nil => intro f _; cases f <;> rfl
  | cons a prog ih =>
    intro f hok
    rw [show (a :: prog).length + f = (prog.length + f) + 1 from by
          simp [List.length_cons]; omega]
    rw [List.map_cons, List.map_cons, parsePyGo_asgn _ a _ (hok a (by simp)),
        ih f (fun x hx => hok x (List.mem_cons_of_mem a hx))]

/-- The whole source program of well-formed assignments strips to
itself. -/
lemma progText_strip (prog : List PyAsgn) (hne : prog ≠ [])
    (hok : ∀ a ∈ prog, asgnOK a) :
    pystrip (joinSep (chars "\n") (prog.map asgnLine)) =
      joinSep (chars "\n") (prog.map asgnLine) := by
  obtain ⟨a, prog2, rfl⟩ : ∃ a prog2, prog = a :: prog2 := by
    cases prog with
    | nil => exact absurd rfl hne
    | cons a prog2 => exact ⟨a, prog2, rfl⟩
  rw [List.map_cons]
  apply pystrip_fix
  · intro c hc
    rw [joinSep_head? _ _ _ (asgnLine_ne_nil a (hok a (by simp)))] at hc
    have h := hok a (by simp)
    rw [show asgnLine a = a.target ++ chars " = " ++ rhsText a.rhs from rfl,
        head?_append_left _ (fun hz => (ident_chars h.1).1 (List.append_eq_nil.mp hz).1),
        head?_append_left _ (ident_chars h.1).1] at hc
    exact (wordChar_facts c ((ident_chars h.1).2 c (mem_of_head? hc))).1
  · intro c hc
    obtain ⟨x, hx, he⟩ := joinSep_getLast?_mem (chars "\n") (prog2.map asgnLine)
      (asgnLine a) (asgnLine_ne_nil a (hok a (by simp)))
      (by
        intro y hy
        obtain ⟨b, hb, rfl⟩ := List.mem_map.mp hy
        exact asgnLine_ne_nil b (hok b (List.mem_cons_of_mem a hb)))
    rw [he] at hc
    have hxmem : ∃ b ∈ a :: prog2, x = asgnLine b := by
      rcases List.mem_cons.mp hx with rfl | hx2
      · exact ⟨a, by simp, rfl⟩
      · obtain ⟨b, hb, rfl⟩ := List.mem_map.mp hx2
        exact ⟨b, List.mem_cons_of_mem a hb, rfl⟩
    obtain ⟨b, hb, rfl⟩ := hxmem
    have h := hok b hb
    rw [show asgnLine b = b.target ++ chars " = " ++ rhsText b.rhs from rfl,
        getLast?_append_right _ (rhsText_ne_nil h.2.1)] at hc
    exact rhsText_last_nonspace h.2.1 c hc

/-- `parse_python` on the joined program of well-formed assignments. -/
lemma parsePyStr_prog (prog : List PyAsgn) (hne : prog ≠ [])
    (hok : ∀ a ∈ prog, asgnOK a) :
    parsePyStr (joinSep (chars "\n") (prog.map asgnLine)) =
      .program (prog.map asgnNode) := by
  show Node.program
      (parsePyGo ((splitLines (pystrip (joinSep (chars "\n") (prog.map asgnLine)))).length + 1)
        (splitLines (pystrip (joinSep (chars "\n") (prog.map asgnLine)))))
    = Node.program (prog.map asgnNode)
  rw [progText_strip prog hne hok,
      splitLines_join _ (by
        intro he
        cases prog with
        | nil => exact hne rfl
        | cons a prog2 => simp at he)
      (by
        intro l hl
        obtain ⟨b, hb, rfl⟩ := List.mem_map.mp hl
        exact asgnLine_no_newline b (hok b hb)),
      List.length_map]
  exact congrArg Node.program (parsePyGo_prog prog 1 hok)

lemma pythonVisit_num (f : Nat) (v : Str) :
    pythonVisit (f + 1) (.numberLit v) = .ok v := rfl

lemma pythonVisit_var (f : Nat) (v : Str) :
    pythonVisit (f + 1) (.variable v) = .ok v := rfl

/-- `PythonGenerator` renders each fragment right-hand side (additions and
comparisons come back parenthesised; the operands are literals, so no
`str()` wrapping fires here). -/
lemma pythonVisit_rhs (f : Nat) (r : PyRhs) :
    pythonVisit (f + 2) (rhsNode r) = .ok (rhsOut r) := by
  cases r with
  | num s => exact pythonVisit_num (f + 1) s
  | ident s => exact pythonVisit_var (f + 1) s
  | add a b =>
    rw [show rhsNode (.add a b)
          = .mathOp (chars "+") (.numberLit a) (.numberLit b) from rfl]
    rw [pythonVisit]
    rw [pythonVisit_num f a, pythonVisit_num f b]
    show Except.ok ('(' :: a ++ [' '] ++ chars "+" ++ [' '] ++ b ++ [')'])
      = Except.ok (rhsOut (.add a b))
    rw [show rhsOut (.add a b) = '(' :: (a ++ chars " + " ++ b) ++ [')'] from rfl]
    congr 1
    simp [List.append_assoc, show (chars "+" : Str) = ['+'] from rfl,
      show (chars " + " : Str) = [' ', '+', ' '] from rfl]
  | cmp op a b =>
    rw [show rhsNode (.cmp op a b)
          = .comparison op (.numberLit a) (.numberLit b) from rfl]
    rw [pythonVisit]
    rw [pythonVisit_num f a, pythonVisit_num f b]
    show Except.ok ('(' :: a ++ [' '] ++ op ++ [' '] ++ b ++ [')'])
      = Except.ok (rhsOut (.cmp op a b))
    rw [show rhsOut (.cmp op a b)
          = '(' :: (a ++ (' ' :: (op ++ [' '])) ++ b) ++ [')'] from rfl]
    congr 1
    simp [List.append_assoc]

/-- `PythonGenerator` renders an assignment node to its line. -/
lemma pythonVisit_asgn (f : Nat) (a : PyAsgn) :
    pythonVisit (f + 3) (asgnNode a) = .ok (asgnOut a) := by
  rw [show asgnNode a = .assignment (.variable a.target) (rhsNode a.rhs) from rfl]
  rw [pythonVisit]
  rw [pythonVisit_var (f + 1) a.target, pythonVisit_rhs f a.rhs]
  rfl

/-- `PythonGenerator` renders the whole program of assignment nodes. -/
lemma pythonVisit_prog (f : Nat) (prog : List PyAsgn) :
    pythonVisit (f + 4) (.program (prog.map asgnNode)) =
      .ok (joinSep (chars "\n") (prog.map asgnOut)) := by
  rw [pythonVisit]
  have hmap : (prog.map asgnNode).mapM (pythonVisit (f + 3))
      = .ok (prog.map asgnOut) := by
    induction prog with
    | nil => rfl
    | cons a prog ih =>
      rw [List.map_cons, List.map_cons, List.mapM_cons, pythonVisit_asgn f a, ih]
      rfl
  rw [hmap]
  rfl

lemma asgnLine_length (a : PyAsgn) (h : asgnOK a) : 5 ≤ (asgnLine a).length := by
  have h1 : 1 ≤ a.target.length := by
    cases ht : a.target with
    | nil => exact absurd ht (ident_chars h.1).1
    | cons c r => simp
  have h2 : 1 ≤ (rhsText a.rhs).length := by
    cases ht : rhsText a.rhs with
    | nil => exact absurd ht (rhsText_ne_nil h.2.1)
    | cons c r => simp
  rw [show asgnLine a = a.target ++ chars " = " ++ rhsText a.rhs from rfl]
  simp only [List.length_append]
  rw [show (chars " = ").length = 3 from rfl]
  omega

/-- `convert_code` python→python on the joined program of well-formed
assignments. -/
lemma convertCode_prog (prog : List PyAsgn) (hne : prog ≠ [])
    (hok : ∀ a ∈ prog, asgnOK a) :
    (convertCode (joinSep (chars "\n") (prog.map asgnLine))
        (chars "python") (chars "python")).2
      = .ok (joinSep (chars "\n") (prog.map asgnOut)) := by
  obtain ⟨a, prog2, hpe⟩ : ∃ a prog2, prog = a :: prog2 := by
    cases prog with
    | nil => exact absurd rfl hne
    | cons a prog2 => exact ⟨a, prog2, rfl⟩
  have hlen : 2 ≤ (joinSep (chars "\n") (prog.map asgnLine)).length := by
    have h5 := asgnLine_length a (hok a (by rw [hpe]; simp))
    have hle : (asgnLine a).length ≤ (joinSep (chars "\n") (prog.map asgnLine)).length := by
      rw [hpe, List.map_cons]
      cases hm : prog2.map asgnLine with
      | nil => simp [joinSep]
      | cons l2 ls2 =>
        rw [show joinSep (chars "\n") (asgnLine a :: l2 :: ls2)
              = asgnLine a ++ chars "\n" ++ joinSep (chars "\n") (l2 :: ls2) from rfl]
        simp only [List.length_append]
        omega
    omega
  obtain ⟨k, hk⟩ : ∃ k, (joinSep (chars "\n") (prog.map asgnLine)).length + 2 = k + 4 :=
    ⟨(joinSep (chars "\n") (prog.map asgnLine)).length - 2, by omega⟩
  unfold convertCode
  rw [if_pos rfl]
  show (match pythonVisit ((joinSep (chars "\n") (prog.map asgnLine)).length + 2)
          (parsePyStr (joinSep (chars "\n") (prog.map asgnLine))) with
      | .ok t => ([ConvEvent.parsed (chars "python")] ++
          [ConvEvent.rendered (chars "python")], Except.ok t)
      | .error m => ([ConvEvent.parsed (chars "python")] ++
          [ConvEvent.rendered (chars "python")],
          Except.error (ConvErr.genFailure m))).2
    = Except.ok (joinSep (chars "\n") (prog.map asgnOut))
  rw [parsePyStr_prog prog hne hok, hk, pythonVisit_prog k prog]

lemma intFullmatch_digits {a : Str} (ha : isDigits a) : intFullmatch a = true := by
  obtain ⟨c, a2, rfl⟩ : ∃ c a2, a = c :: a2 := by
    cases a with
    | nil => exact absurd rfl ha.1
    | cons c a2 => exact ⟨c, a2, rfl⟩
  have hcd := ha.2 c (by simp)
  obtain ⟨-, -, -, -, -, -, -, -, -, -, -, hcm, -, -, -, -, -, -⟩ :=
    digit_char_facts c hcd
  simp only [intFullmatch]
  rw [if_neg (show ¬ (c :: a2).head? = some '-' from
        fun he => hcm (Option.some.inj he))]
  simp only [Bool.and_eq_true]
  exact ⟨decide_eq_true (by simp), List.all_eq_true.mpr ha.2⟩

/-- The fragment interpreter on a bare digit string. -/
lemma evalExpr_num (env : Env) (f : Nat) {a : Str} (ha : isDigits a) :
    evalExpr env (f + 1) a = some (.vint (intOfLiteral a)) := by
  obtain ⟨haS, haE, haB, haL, haG, haP, haOp, haCp, haQ, haSq, -⟩ :=
    digits_char_absent ha
  have hstrip : pystrip a = a :=
    pystrip_eq_self a (fun c hc => (digit_char_facts c (ha.2 c hc)).1)
  have hw : isWrapped a = false := by
    obtain ⟨c, a2, rfl⟩ : ∃ c a2, a = c :: a2 := by
      cases a with
      | nil => exact absurd rfl ha.1
      | cons c a2 => exact ⟨c, a2, rfl⟩
    exact isWrapped_ne_paren a2
      (by
        rintro rfl
        exact haOp (List.mem_cons_self _ _))
  have hstr : ¬ (startsWith (chars "str(") a = true ∧
      endsWith (chars ")") a = true ∧ 4 < a.length) := by
    rintro ⟨h1, -, -⟩
    exact haOp ((of_decide_eq_true h1).subset (show '(' ∈ chars "str(" from by decide))
  rw [evalExpr, hstrip, hw, if_neg Bool.false_ne_true,
      findCmp_no_ops haE haB haL haG,
      splitFirst_eq_none (by decide) _
        (fun hinf => haS (hinf.subset (show ' ' ∈ chars " + " from by decide))),
      if_neg hstr, if_pos (intFullmatch_digits ha)]

/-- Parenthesis stripping of the fragment interpreter: evaluating
`( inner )` costs one fuel unit and evaluates `inner`. -/
lemma evalExpr_wrap (env : Env) (f : Nat) (inner : Str)
    (h1 : '(' ∉ inner) (h2 : ')' ∉ inner) :
    evalExpr env (f + 1) ('(' :: (inner ++ [')'])) = evalExpr env f inner := by
  have hstrip : pystrip ('(' :: (inner ++ [')'])) = '(' :: (inner ++ [')']) := by
    apply pystrip_fix
    · intro c hc
      injection hc with e
      rw [← e]
      decide
    · intro c hc
      rw [show ('(' :: (inner ++ [')']) : Str) = ('(' :: inner) ++ [')'] from by simp,
          List.getLast?_concat] at hc
      injection hc with e
      rw [← e]
      decide
  rw [evalExpr, hstrip, isWrapped_wrap inner h1 h2, if_pos rfl]
  congr 1
  exact List.dropLast_concat

/-- The fragment interpreter on `a + b` with digit operands adds the two
integers. -/
lemma evalExpr_add (env : Env) (f : Nat) {a b : Str}
    (ha : isDigits a) (hb : isDigits b) :
    evalExpr env (f + 2) (a ++ chars " + " ++ b) =
      some (.vint (intOfLiteral a + intOfLiteral b)) := by
  obtain ⟨haS, haE, haB, haL, haG, haP, haOp, haCp, haQ, haSq, -⟩ :=
    digits_char_absent ha
  obtain ⟨hbS, hbE, hbB, hbL, hbG, hbP, hbOp, hbCp, hbQ, hbSq, -⟩ :=
    digits_char_absent hb
  have hnot : ∀ ch : Char, ch ∉ a → ch ∉ chars " + " → ch ∉ b →
      ch ∉ a ++ chars " + " ++ b := by
    intro ch h1 h2 h3 hm
    rcases List.mem_append.mp hm with hm1 | hm2
    · rcases List.mem_append.mp hm1 with hx | hx
      · exact h1 hx
      · exact h2 hx
    · exact h3 hm2
  have hstrip : pystrip (a ++ chars " + " ++ b) = a ++ chars " + " ++ b := by
    apply pystrip_fix
    · intro c hc
      rw [List.append_assoc, head?_append_left _ ha.1] at hc
      exact (digit_char_facts c (ha.2 c (mem_of_head? hc))).1
    · intro c hc
      rw [getLast?_append_right _ hb.1] at hc
      exact (digit_char_facts c (hb.2 c (mem_of_getLast? hc))).1
  have hw : isWrapped (a ++ chars " + " ++ b) = false := by
    obtain ⟨c, a2, rfl⟩ : ∃ c a2, a = c :: a2 := by
      cases a with
      | nil => exact absurd rfl ha.1
      | cons c a2 => exact ⟨c, a2, rfl⟩
    rw [show ((c :: a2) ++ chars " + " ++ b : Str)
          = c :: ((a2 ++ chars " + ") ++ b) from by simp [List.append_assoc]]
    exact isWrapped_ne_paren _
      (by
        rintro rfl
        exact haOp (List.mem_cons_self _ _))
  rw [evalExpr, hstrip, hw, if_neg Bool.false_ne_true,
      findCmp_no_ops (hnot '=' haE (by decide) hbE) (hnot '!' haB (by decide) hbB)
        (hnot '<' haL (by decide) hbL) (hnot '>' haG (by decide) hbG)]
  simp only [splitFirst_append (show (chars " + ").head? = some ' ' from rfl) a b haS]
  rw [evalExpr_num env f ha, evalExpr_num env f hb]
  rfl

/-- The fragment interpreter on `a <op> b` with digit operands compares
the two integers. -/
lemma evalExpr_cmp (env : Env) (f : Nat) {op a b : Str} (hop : op ∈ cmpOps)
    (ha : isDigits a) (hb : isDigits b) :
    evalExpr env (f + 2) (a ++ (' ' :: (op ++ [' '])) ++ b) =
      cmpVals op (.vint (intOfLiteral a)) (.vint (intOfLiteral b)) := by
  obtain ⟨haS, haE, haB, haL, haG, haP, haOp, haCp, haQ, haSq, -⟩ :=
    digits_char_absent ha
  have hstrip : pystrip (a ++ (' ' :: (op ++ [' '])) ++ b) =
      a ++ (' ' :: (op ++ [' '])) ++ b := by
    apply pystrip_fix
    · intro c hc
      rw [List.append_assoc, head?_append_left _ ha.1] at hc
      exact (digit_char_facts c (ha.2 c (mem_of_head? hc))).1
    · intro c hc
      rw [getLast?_append_right _ hb.1] at hc
      exact (digit_char_facts c (hb.2 c (mem_of_getLast? hc))).1
  have hw : isWrapped (a ++ (' ' :: (op ++ [' '])) ++ b) = false := by
    obtain ⟨c, a2, rfl⟩ : ∃ c a2, a = c :: a2 := by
      cases a with
      | nil => exact absurd rfl ha.1
      | cons c a2 => exact ⟨c, a2, rfl⟩
    rw [show ((c :: a2) ++ (' ' :: (op ++ [' '])) ++ b : Str)
          = c :: ((a2 ++ (' ' :: (op ++ [' ']))) ++ b) from by simp [List.append_assoc]]
    exact isWrapped_ne_paren _
      (by
        rintro rfl
        exact haOp (List.mem_cons_self _ _))
  rw [evalExpr, hstrip, hw, if_neg Bool.false_ne_true]
  simp only [findCmp_digits op a b hop ha hb]
  rw [evalExpr_num env f ha, evalExpr_num env f hb]
  rfl

/-- Integer comparison under any of the six operators succeeds. -/
lemma cmpVals_int_some (op : Str) (hop : op ∈ cmpOps) (i j : Int) :
    ∃ w, cmpVals op (.vint i) (.vint j) = some w := by
  simp only [cmpOps, List.mem_cons, List.not_mem_nil, or_false] at hop
  rcases hop with rfl | rfl | rfl | rfl | rfl | rfl
  · exact ⟨_, rfl⟩
  · exact ⟨_, rfl⟩
  · exact ⟨_, rfl⟩
  · exact ⟨_, rfl⟩
  · exact ⟨_, rfl⟩
  · exact ⟨_, rfl⟩

lemma rhsOut_ne_nil {r : PyRhs} (h : rhsOK r) : rhsOut r ≠ [] := by
  cases r with
  | num s => exact h.1
  | ident s => exact (ident_chars h).1
  | add a b => simp [rhsOut]
  | cmp op a b => simp [rhsOut]

lemma rhsOut_head_nonspace {r : PyRhs} (h : rhsOK r) :
    ∀ c, (rhsOut r).head? = some c → isPySpace c = false := by
  cases r with
  | num s => exact rhsText_head_nonspace h
  | ident s => exact rhsText_head_nonspace h
  | add a b =>
    intro c hc
    injection hc with e
    rw [← e]
    decide
  | cmp op a b =>
    intro c hc
    injection hc with e
    rw [← e]
    decide

lemma rhsOut_last_nonspace {r : PyRhs} (h : rhsOK r) :
    ∀ c, (rhsOut r).getLast? = some c → isPySpace c = false := by
  cases r with
  | num s => exact rhsText_last_nonspace h
  | ident s => exact rhsText_last_nonspace h
  | add a b =>
    intro c hc
    rw [show rhsOut (.add a b) = ('(' :: (a ++ chars " + " ++ b)) ++ [')'] from rfl,
        List.getLast?_concat] at hc
    injection hc with e
    rw [← e]
    decide
  | cmp op a b =>
    intro c hc
    rw [show rhsOut (.cmp op a b)
          = ('(' :: (a ++ (' ' :: (op ++ [' '])) ++ b)) ++ [')'] from rfl,
        List.getLast?_concat] at hc
    injection hc with e
    rw [← e]
    decide

lemma rhsOut_no_newline {r : PyRhs} (h : rhsOK r) : '\n' ∉ rhsOut r := by
  cases r with
  | num s => exact rhsText_no_newline h
  | ident s => exact rhsText_no_newline h
  | add a b =>
    intro hm
    rcases List.mem_cons.mp hm with he | hm2
    · exact absurd he (by decide)
    · rcases List.mem_append.mp hm2 with hm3 | hm4
      · exact rhsText_no_newline (r := .add a b) h hm3
      · exact absurd (List.mem_singleton.mp hm4) (by decide)
  | cmp op a b =>
    intro hm
    rcases List.mem_cons.mp hm with he | hm2
    · exact absurd he (by decide)
    · rcases List.mem_append.mp hm2 with hm3 | hm4
      · exact rhsText_no_newline (r := .cmp op a b) h hm3
      · exact absurd (List.mem_singleton.mp hm4) (by decide)

/-- The rendered line of a well-formed assignment strips to itself. -/
lemma asgnOut_strip (a : PyAsgn) (h : asgnOK a) :
    pystrip (asgnOut a) = asgnOut a := by
  obtain ⟨hx, hr, -, -, -, -⟩ := h
  obtain ⟨hne, hall⟩ := ident_chars hx
  apply pystrip_fix
  · intro c hc
    rw [show asgnOut a = a.target ++ chars " = " ++ rhsOut a.rhs from rfl,
        head?_append_left _ (fun hz => hne (List.append_eq_nil.mp hz).1),
        head?_append_left _ hne] at hc
    exact (wordChar_facts c (hall c (mem_of_head? hc))).1
  · intro c hc
    rw [show asgnOut a = a.target ++ chars " = " ++ rhsOut a.rhs from rfl,
        getLast?_append_right _ (rhsOut_ne_nil hr)] at hc
    exact rhsOut_last_nonspace hr c hc

lemma asgnOut_no_newline (a : PyAsgn) (h : asgnOK a) : '\n' ∉ asgnOut a := by
  intro hm
  rcases List.mem_append.mp hm with hm1 | hm2
  · rcases List.mem_append.mp hm1 with hx | hx
    · exact absurd ((ident_chars h.1).2 '\n' hx) (by decide)
    · exact absurd hx (by decide)
  · exact rhsOut_no_newline h.2.1 hm2

lemma asgnOut_ne_nil (a : PyAsgn) (h : asgnOK a) : asgnOut a ≠ [] := by
  intro he
  exact (ident_chars h.1).1 (List.append_eq_nil.mp (List.append_eq_nil.mp he).1).1

lemma asgnLine_cond (a : PyAsgn) (h : asgnOK a) :
    ¬ (asgnLine a = [] ∨ (asgnLine a).head? = some '#') := by
  obtain ⟨hne, hall⟩ := ident_chars h.1
  rintro (he | hh)
  · exact asgnLine_ne_nil a h he
  · rw [show asgnLine a = a.target ++ chars " = " ++ rhsText a.rhs from rfl,
        head?_append_left _ (fun hz => hne (List.append_eq_nil.mp hz).1),
        head?_append_left _ hne] at hh
    exact absurd (hall '#' (mem_of_head? hh)) (by decide)

lemma asgnOut_cond (a : PyAsgn) (h : asgnOK a) :
    ¬ (asgnOut a = [] ∨ (asgnOut a).head? = some '#') := by
  obtain ⟨hne, hall⟩ := ident_chars h.1
  rintro (he | hh)
  · exact asgnOut_ne_nil a h he
  · rw [show asgnOut a = a.target ++ chars " = " ++ rhsOut a.rhs from rfl,
        head?_append_left _ (fun hz => hne (List.append_eq_nil.mp hz).1),
        head?_append_left _ hne] at hh
    exact absurd (hall '#' (mem_of_head? hh)) (by decide)

lemma asgnOut_length (a : PyAsgn) (h : asgnOK a) : 2 ≤ (asgnOut a).length := by
  rw [show asgnOut a = a.target ++ chars " = " ++ rhsOut a.rhs from rfl]
  simp only [List.length_append]
  rw [show (chars " = ").length = 3 from rfl]
  omega

/-- The executed effect of a well-formed assignment line is unchanged by
the python→python round trip, on every execution state. -/
lemma execLine_asgn (st : ExecState) (a : PyAsgn) (h : asgnOK a) :
    execLine st (asgnLine a) = execLine st (asgnOut a) := by
  obtain ⟨hx, hr, h3, h4, h5, h6⟩ := h
  obtain ⟨hne, hall⟩ := ident_chars hx
  have hOK : asgnOK a := ⟨hx, hr, h3, h4, h5, h6⟩
  cases hrh : a.rhs with
  | num s =>
    rw [show asgnOut a = a.target ++ chars " = " ++ rhsOut a.rhs from rfl, hrh,
        show rhsOut (.num s) = rhsText (.num s) from rfl, ← hrh]
    rfl
  | ident s =>
    rw [show asgnOut a = a.target ++ chars " = " ++ rhsOut a.rhs from rfl, hrh,
        show rhsOut (.ident s) = rhsText (.ident s) from rfl, ← hrh]
    rfl
  | add x y =>
    rw [hrh] at hr
    obtain ⟨hxd, hyd⟩ := hr
    obtain ⟨hxS, hxE, hxB, hxL, hxG, hxP, hxOp, hxCp, -⟩ := digits_char_absent hxd
    obtain ⟨hyS, hyE, hyB, hyL, hyG, hyP, hyOp, hyCp, -⟩ := digits_char_absent hyd
    have hnotin : ∀ ch : Char, ch ∉ x → ch ∉ chars " + " → ch ∉ y →
        ch ∉ x ++ chars " + " ++ y := by
      intro ch hc1 hc2 hc3 hm
      rcases List.mem_append.mp hm with hm1 | hm2
      · rcases List.mem_append.mp hm1 with hz | hz
        · exact hc1 hz
        · exact hc2 hz
      · exact hc3 hm2
    unfold execLine
    by_cases hh : st.halted = true
    · rw [if_pos hh, if_pos hh]
    · rw [if_neg hh, if_neg hh,
          asgnLine_strip a hOK, asgnOut_strip a hOK,
          if_neg (asgnLine_cond a hOK), if_neg (asgnOut_cond a hOK),
          if_neg h3, if_neg h5,
          if_neg (show ¬ (chars "print(" <+: asgnLine a ∧
            endsWith (chars ")") (asgnLine a) = true ∧ 6 < (asgnLine a).length)
            from fun hc => h4 hc.1),
          if_neg (show ¬ (chars "print(" <+: asgnOut a ∧
            endsWith (chars ")") (asgnOut a) = true ∧ 6 < (asgnOut a).length)
            from fun hc => h6 hc.1)]
      have hsp1 : splitFirst (chars " = ") (asgnLine a)
          = some (a.target, rhsText a.rhs) :=
        splitFirst_append (show (chars " = ").head? = some ' ' from rfl) _ _
          (notMem_of_all hall (by decide))
      have hsp2 : splitFirst (chars " = ") (asgnOut a)
          = some (a.target, rhsOut a.rhs) :=
        splitFirst_append (show (chars " = ").head? = some ' ' from rfl) _ _
          (notMem_of_all hall (by decide))
      simp only [hsp1, hsp2,
        pystrip_eq_self a.target (fun c hc => (wordChar_facts c (hall c hc)).1)]
      rw [if_pos hx, if_pos hx]
      obtain ⟨k1, hk1⟩ : ∃ k1, (asgnLine a).length + 1 = k1 + 2 :=
        ⟨(asgnLine a).length - 1, by have := asgnLine_length a hOK; omega⟩
      obtain ⟨k2, hk2⟩ : ∃ k2, (asgnOut a).length + 1 = k2 + 3 :=
        ⟨(asgnOut a).length - 2, by have := asgnOut_length a hOK; omega⟩
      rw [hk1, hk2, hrh]
      rw [show rhsText (.add x y) = x ++ chars " + " ++ y from rfl,
          show rhsOut (.add x y) = '(' :: ((x ++ chars " + " ++ y) ++ [')']) from rfl]
      rw [evalExpr_add st.env k1 hxd hyd,
          evalExpr_wrap st.env (k2 + 2) _
            (hnotin '(' hxOp (by decide) hyOp) (hnotin ')' hxCp (by decide) hyCp),
          evalExpr_add st.env k2 hxd hyd]
  | cmp op x y =>
    rw [hrh] at hr
    obtain ⟨hop, hxd, hyd⟩ := hr
    obtain ⟨hxS, hxE, hxB, hxL, hxG, hxP, hxOp, hxCp, -⟩ := digits_char_absent hxd
    obtain ⟨hyS, hyE, hyB, hyL, hyG, hyP, hyOp, hyCp, -⟩ := digits_char_absent hyd
    have hnotin : ∀ ch : Char, ch ∉ x → ch ∉ ' ' :: (op ++ [' ']) → ch ∉ y →
        ch ∉ x ++ (' ' :: (op ++ [' '])) ++ y := by
      intro ch hc1 hc2 hc3 hm
      rcases List.mem_append.mp hm with hm1 | hm2
      · rcases List.mem_append.mp hm1 with hz | hz
        · exact hc1 hz
        · exact hc2 hz
      · exact hc3 hm2
    have hopP : '(' ∉ ' ' :: (op ++ [' ']) := by
      intro hm
      rcases List.mem_cons.mp hm with he | hm2
      · exact absurd he (by decide)
      · rcases List.mem_append.mp hm2 with hz | hz
        · exact absurd hz ((by decide : ∀ o ∈ cmpOps, '(' ∉ o) op hop)
        · exact absurd (List.mem_singleton.mp hz) (by decide)
    have hopC : ')' ∉ ' ' :: (op ++ [' ']) := by
      intro hm
      rcases List.mem_cons.mp hm with he | hm2
      · exact absurd he (by decide)
      · rcases List.mem_append.mp hm2 with hz | hz
        · exact absurd hz ((by decide : ∀ o ∈ cmpOps, ')' ∉ o) op hop)
        · exact absurd (List.mem_singleton.mp hz) (by decide)
    unfold execLine
    by_cases hh : st.halted = true
    · rw [if_pos hh, if_pos hh]
    · rw [if_neg hh, if_neg hh,
          asgnLine_strip a hOK, asgnOut_strip a hOK,
          if_neg (asgnLine_cond a hOK), if_neg (asgnOut_cond a hOK),
          if_neg h3, if_neg h5,
          if_neg (show ¬ (chars "print(" <+: asgnLine a ∧
            endsWith (chars ")") (asgnLine a) = true ∧ 6 < (asgnLine a).length)
            from fun hc => h4 hc.1),
          if_neg (show ¬ (chars "print(" <+: asgnOut a ∧
            endsWith (chars ")") (asgnOut a) = true ∧ 6 < (asgnOut a).length)
            from fun hc => h6 hc.1)]
      have hsp1 : splitFirst (chars " = ") (asgnLine a)
          = some (a.target, rhsText a.rhs) :=
        splitFirst_append (show (chars " = ").head? = some ' ' from rfl) _ _
          (notMem_of_all hall (by decide))
      have hsp2 : splitFirst (chars " = ") (asgnOut a)
          = some (a.target, rhsOut a.rhs) :=
        splitFirst_append (show (chars " = ").head? = some ' ' from rfl) _ _
          (notMem_of_all hall (by decide))
      simp only [hsp1, hsp2,
        pystrip_eq_self a.target (fun c hc => (wordChar_facts c (hall c hc)).1)]
      rw [if_pos hx, if_pos hx]
      obtain ⟨k1, hk1⟩ : ∃ k1, (asgnLine a).length + 1 = k1 + 2 :=
        ⟨(asgnLine a).length - 1, by have := asgnLine_length a hOK; omega⟩
      obtain ⟨k2, hk2⟩ : ∃ k2, (asgnOut a).length + 1 = k2 + 3 :=
        ⟨(asgnOut a).length - 2, by have := asgnOut_length a hOK; omega⟩
      rw [hk1, hk2, hrh]
      rw [show rhsText (.cmp op x y) = x ++ (' ' :: (op ++ [' '])) ++ y from rfl,
          show rhsOut (.cmp op x y)
            = '(' :: ((x ++ (' ' :: (op ++ [' '])) ++ y) ++ [')']) from rfl]
      obtain ⟨w, hw⟩ := cmpVals_int_some op hop (intOfLiteral x) (intOfLiteral y)
      rw [evalExpr_cmp st.env k1 hop hxd hyd,
          evalExpr_wrap st.env (k2 + 2) _
            (hnotin '(' hxOp hopP hyOp) (hnotin ')' hxCp hopC hyCp),
          evalExpr_cmp st.env k2 hop hxd hyd, hw]

/-- Round-trip execution equality for whole assignment programs. -/
lemma pyRun_prog (prog : List PyAsgn) (hne : prog ≠ [])
    (hok : ∀ a ∈ prog, asgnOK a) :
    pyRun (joinSep (chars "\n") (prog.map asgnLine)) =
      pyRun (joinSep (chars "\n") (prog.map asgnOut)) := by
  have hm1 : prog.map asgnLine ≠ [] := by
    cases prog with
    | nil => exact absurd rfl hne
    | cons a t => simp
  have hm2 : prog.map asgnOut ≠ [] := by
    cases prog with
    | nil => exact absurd rfl hne
    | cons a t => simp
  have key : ∀ (ps : List PyAsgn), (∀ a ∈ ps, asgnOK a) → ∀ st : ExecState,
      (ps.map asgnLine).foldl execLine st = (ps.map asgnOut).foldl execLine st := by
    intro ps
    induction ps with
    | nil => intro _ st; rfl
    | cons a ps ih =>
      intro hpok st
      rw [List.map_cons, List.map_cons, List.foldl_cons, List.foldl_cons,
          execLine_asgn st a (hpok a (by simp))]
      exact ih (fun x hx => hpok x (List.mem_cons_of_mem a hx)) _
  have hfold : (splitLines (joinSep (chars "\n") (prog.map asgnLine))).foldl
        execLine ⟨[], [], false⟩
      = (splitLines (joinSep (chars "\n") (prog.map asgnOut))).foldl
        execLine ⟨[], [], false⟩ := by
    rw [splitLines_join _ hm1 (by
          intro l hl
          obtain ⟨b, hb, rfl⟩ := List.mem_map.mp hl
          exact asgnLine_no_newline b (hok b hb)),
        splitLines_join _ hm2 (by
          intro l hl
          obtain ⟨b, hb, rfl⟩ := List.mem_map.mp hl
          exact asgnOut_no_newline b (hok b hb))]
    exact key prog hok _
  unfold pyRun
  rw [hfold]

instance (r : PyRhs) : Decidable (rhsOK r) := by
  cases r <;> (unfold rhsOK; infer_instance)

instance (a : PyAsgn) : Decidable (asgnOK a) := by
  unfold asgnOK
  infer_instance

/-- C1, amended: the python→python round trip is semantics-preserving on
the assignment fragment — programs of lines `x = rhs` with identifier
targets and right-hand sides that are integer literals, identifiers,
additions of two integer literals, or comparisons of two integer
literals (targets not spelling the interpreter's `def `/`print(` line
forms).  Such a program parses to exactly the expected Assignment nodes,
converts to the same lines with additions and comparisons parenthesised,
each line's executed effect is unchanged on every state, and the whole
program's executed effect (output, store, error flag) is unchanged.
Print statements and additions over variables are excluded: the
counterexample shows both change the executed effect. -/
theorem C1_amended (prog : List PyAsgn) (hok : ∀ a ∈ prog, asgnOK a)
    (hne : prog ≠ []) :
    parsePyStr (joinSep (chars "\n") (prog.map asgnLine)) =
        .program (prog.map asgnNode) ∧
      (convertCode (joinSep (chars "\n") (prog.map asgnLine))
          (chars "python") (chars "python")).2
        = .ok (joinSep (chars "\n") (prog.map asgnOut)) ∧
      (∀ (st : ExecState) (a : PyAsgn), asgnOK a →
        execLine st (asgnLine a) = execLine st (asgnOut a)) ∧
      pyRun (joinSep (chars "\n") (prog.map asgnLine)) =
        pyRun (joinSep (chars "\n") (prog.map asgnOut)) :=
  ⟨parsePyStr_prog prog hne hok, convertCode_prog prog hne hok,
    fun st a ha => execLine_asgn st a ha, pyRun_prog prog hne hok⟩

/-- C1, witness for the amended theorem: the three-line program
`x = 1; y = 2 + 3; z = 1 < 2`. -/
theorem C1_amended_witness :
    parsePyStr (joinSep (chars "\n")
        ([⟨chars "x", .num (chars "1")⟩,
          ⟨chars "y", .add (chars "2") (chars "3")⟩,
          ⟨chars "z", .cmp (chars "<") (chars "1") (chars "2")⟩].map asgnLine))
      = .program ([⟨chars "x", .num (chars "1")⟩,
          ⟨chars "y", .add (chars "2") (chars "3")⟩,
          ⟨chars "z", .cmp (chars "<") (chars "1") (chars "2")⟩].map asgnNode) ∧
    pyRun (joinSep (chars "\n")
        ([⟨chars "x", .num (chars "1")⟩,
          ⟨chars "y", .add (chars "2") (chars "3")⟩,
          ⟨chars "z", .cmp (chars "<") (chars "1") (chars "2")⟩].map asgnLine))
      = pyRun (joinSep (chars "\n")
        ([⟨chars "x", .num (chars "1")⟩,
          ⟨chars "y", .add (chars "2") (chars "3")⟩,
          ⟨chars "z", .cmp (chars "<") (chars "1") (chars "2")⟩].map asgnOut)) := by
  have h := C1_amended
    [⟨chars "x", .num (chars "1")⟩,
      ⟨chars "y", .add (chars "2") (chars "3")⟩,
      ⟨chars "z", .cmp (chars "<") (chars "1") (chars "2")⟩]
    (by decide) (by simp)
  exact ⟨h.1, h.2.2.2⟩

end CLCC
